import Mathlib

/-!
# Stack arena and intrusive doubly-linked list (`stackallocator.h`)

A shallow embedding of `StackStorage<N>`, `StackAllocator<T, N>` and
`List<T, StackAllocator<T, N>>`.

* Addresses and `size_t` values are natural numbers; every `size_t`
  operation of the source is reduced modulo `2 ^ 64`.
* Objects live in a `Heap`: the two links of the `BaseNode` at an address,
  the `value` of the `Node` at an address, and the `StackStorage` objects,
  each named by a natural number that plays the role of its address.
* A function that can throw returns the state it leaves behind together
  with either its result or the exception raised.
-/

namespace StackList

/-! ## Definitions -/

/-- The number of values of `size_t` (64-bit unsigned). -/
def SIZE_MOD : Nat := 18446744073709551616

/-- The class `StackStorage<N>`: `base` is `reinterpret_cast<size_t>(my_buffer)`, `N` the
template parameter, `my_used` the cursor. -/
structure StackStorage where
  base : Nat
  N : Nat
  my_used : Nat
deriving DecidableEq

/-- The constructor `StackStorage()`: the cursor starts at the address of the buffer. -/
def StackStorage.init (base N : Nat) : StackStorage :=
  { base := base, N := N, my_used := base }

/-- Method `StackStorage::allocate(bytes, alignment)`. The second component is `some ptr`
when `ptr` is returned and `none` when `std::bad_alloc` is thrown; the first is the
storage afterwards. (`alignment = 0` is a division by zero in the source.) -/
def StackStorage.allocate (s : StackStorage) (bytes alignment : Nat) :
    StackStorage × Option Nat :=
  let shift := s.my_used % alignment
  let used1 := if shift ≠ 0 then (s.my_used + (alignment - shift)) % SIZE_MOD else s.my_used
  let ptr := used1
  let used2 := (used1 + bytes) % SIZE_MOD
  if used2 > (s.base + s.N) % SIZE_MOD then
    ({ s with my_used := (used2 + SIZE_MOD - bytes) % SIZE_MOD }, none)
  else
    ({ s with my_used := used2 }, some ptr)

/-- The smallest multiple of `a` that is at least `c` (for `0 < a`). -/
def alignUp (c a : Nat) : Nat :=
  if c % a = 0 then c else c + (a - c % a)

/-- A sequence of `allocate` calls, each request a pair `(bytes, alignment)`:
the storage afterwards and the outcome of every call, in order. -/
def StackStorage.run (s : StackStorage) : List (Nat × Nat) → StackStorage × List (Option Nat)
  | [] => (s, [])
  | r :: rest =>
    let step := s.allocate r.1 r.2
    let tail := StackStorage.run step.1 rest
    (tail.1, step.2 :: tail.2)

/-- No call of the sequence wraps around: at each call
`cursor + alignment + bytes` is representable in `size_t`. -/
def StackStorage.NoWrap (s : StackStorage) : List (Nat × Nat) → Prop
  | [] => True
  | r :: rest => s.my_used + r.2 + r.1 < SIZE_MOD ∧ StackStorage.NoWrap (s.allocate r.1 r.2).1 rest

/-- The byte ranges `[p, p + n)` and `[q, q + m)` have no byte in common. -/
def Disjoint (p n q m : Nat) : Prop :=
  ∀ x, ¬ (p ≤ x ∧ x < p + n ∧ q ≤ x ∧ x < q + m)

/-- The regions `(address, bytes)` returned by the successful calls of a sequence of
`allocate` calls, in order. -/
def StackStorage.regions (s : StackStorage) : List (Nat × Nat) → List (Nat × Nat)
  | [] => []
  | r :: rest =>
    match (s.allocate r.1 r.2).2 with
    | some p => (p, r.1) :: StackStorage.regions (s.allocate r.1 r.2).1 rest
    | none => StackStorage.regions (s.allocate r.1 r.2).1 rest

/-- The largest alignment requested in a sequence of calls (`1` when there is none). -/
def maxAlign : List (Nat × Nat) → Nat
  | [] => 1
  | r :: rest => max r.2 (maxAlign rest)

/-- The cursor of a storage lies in `[base, base + N]`. -/
def StackStorage.CursorInRange (s : StackStorage) : Prop :=
  s.base ≤ s.my_used ∧ s.my_used ≤ s.base + s.N

/-- What a call can raise. `bad_alloc` is `std::bad_alloc` thrown by
`StackStorage::allocate`; `construct_failed` is an exception thrown by a constructor of
the element type `T`; `null_storage` marks a call through a handle whose `my_storage` is
`nullptr`, which the source dereferences (undefined behaviour). -/
inductive Raised where
  | bad_alloc
  | construct_failed
  | null_storage
deriving DecidableEq

/-- The memory the list and its allocator work on. `my_next a` and `my_prev a` are the
links of the `BaseNode` at address `a`, `value a` the `value` member of the `Node` at
address `a`, `storage i` the `StackStorage` object named `i`, and `destroyed` the nodes
on which `NodeTraits::destroy` has run, most recent first. -/
structure Heap (T : Type) where
  my_next : Nat → Nat
  my_prev : Nat → Nat
  value : Nat → T
  storage : Nat → StackStorage
  destroyed : List Nat

/-- A function changed at one argument. -/
def upd {β : Type} (f : Nat → β) (a : Nat) (b : β) : Nat → β :=
  fun x => if x = a then b else f x

/-- The values of `sizeof(Node)` and `alignof(Node)` for the element type at hand. -/
structure NodeLayout where
  sizeof_Node : Nat
  alignof_Node : Nat
deriving DecidableEq

/-- The class `StackAllocator<T, N>`: `my_storage` points to a storage, or is `nullptr` (`none`). -/
structure StackAllocator where
  my_storage : Option Nat
deriving DecidableEq

/-- Method `StackAllocator<T, N>::allocate(n)` for an element type of size `sizeof_T` and
alignment `alignof_T`: forwards `(n * sizeof(T), alignof(T))` to the storage. -/
def StackAllocator.allocate {T : Type} (a : StackAllocator) (sizeof_T alignof_T : Nat)
    (h : Heap T) (n : Nat) : Heap T × Except Raised Nat :=
  match a.my_storage with
  | none => (h, .error .null_storage)
  | some sid =>
    let r := (h.storage sid).allocate ((n * sizeof_T) % SIZE_MOD) alignof_T
    match r.2 with
    | none => ({ h with storage := upd h.storage sid r.1 }, .error .bad_alloc)
    | some p => ({ h with storage := upd h.storage sid r.1 }, .ok p)

/-- Method `StackAllocator<T, N>::deallocate(T*, size_t)`: does nothing. -/
def StackAllocator.deallocate {T : Type} (_a : StackAllocator) (h : Heap T) (_ptr _n : Nat) :
    Heap T := h

/-- The class `List::BasicIterator<Value>`: a pointer to a `BaseNode`. -/
structure BasicIterator where
  my_node : Nat
deriving DecidableEq

/-- Method `BasicIterator::operator++`. -/
def BasicIterator.inc {T : Type} (h : Heap T) (it : BasicIterator) : BasicIterator :=
  { my_node := h.my_next it.my_node }

/-- Method `BasicIterator::operator--`. -/
def BasicIterator.dec {T : Type} (h : Heap T) (it : BasicIterator) : BasicIterator :=
  { my_node := h.my_prev it.my_node }

/-- Method `BasicIterator::operator*`: the value of the `Node` the iterator points to. -/
def BasicIterator.deref {T : Type} (h : Heap T) (it : BasicIterator) : T :=
  h.value it.my_node

/-- Function `std::next(it, n)`: `n` applications of `operator++`. -/
def advance {T : Type} (h : Heap T) : BasicIterator → Nat → BasicIterator
  | it, 0 => it
  | it, n + 1 => advance h (it.inc h) n

/-- The class `List<T, StackAllocator<T, N>>`. `my_end` is the address of the embedded sentinel
`BaseNode my_end`, whose links are in the heap at that address; the member `it_end`,
initialised to `iterator(&my_end)` by every constructor and never assigned, is the
function `it_end` below. -/
structure ListObj where
  my_size : Nat
  my_end : Nat
  my_allocator : StackAllocator
  my_node_allocator : StackAllocator
deriving DecidableEq

/-- The member `it_end = iterator(&my_end)`. -/
def ListObj.it_end (L : ListObj) : BasicIterator := { my_node := L.my_end }

/-- Constructor `List(const Allocator& alloc)` for a list object placed at address `e`: the
sentinel links to itself, the size is zero and both handles are copies of `alloc`. -/
def ListObj.create {T : Type} (h : Heap T) (e : Nat) (alloc : StackAllocator) :
    Heap T × ListObj :=
  ({ h with my_next := upd h.my_next e e, my_prev := upd h.my_prev e e },
   { my_size := 0, my_end := e, my_allocator := alloc,
     my_node_allocator := { my_storage := alloc.my_storage } })

/-- Method `List::size()`. -/
def ListObj.size (L : ListObj) : Nat := L.my_size

/-- Method `List::begin()`: `std::next(it_end)`. -/
def ListObj.begin {T : Type} (h : Heap T) (L : ListObj) : BasicIterator :=
  L.it_end.inc h

/-- Method `List::cbegin()`. -/
def ListObj.cbegin {T : Type} (h : Heap T) (L : ListObj) : BasicIterator :=
  L.it_end.inc h

/-- Method `List::end()`: `it_end`. -/
def ListObj.end_ (L : ListObj) : BasicIterator := L.it_end

/-- Method `List::cend()`. -/
def ListObj.cend (L : ListObj) : BasicIterator := L.it_end

/-- Method `List::insert(it, args...)`. `arg` is what constructing the element from `args...`
gives: `some v` when the constructor of `T` yields `v`, `none` when it throws. Returns
the heap and the list afterwards and either the iterator returned or what was raised. -/
def ListObj.insert {T : Type} (lay : NodeLayout) (h : Heap T) (L : ListObj)
    (it : BasicIterator) (arg : Option T) : Heap T × ListObj × Except Raised BasicIterator :=
  match L.my_node_allocator.allocate lay.sizeof_Node lay.alignof_Node h 1 with
  | (h1, .error e) => (h1, L, .error e)
  | (h1, .ok ptr) =>
    -- `Node(args...)`: the `BaseNode` part links to itself, then the value is built
    let h2 : Heap T := { h1 with my_next := upd h1.my_next ptr ptr,
                                 my_prev := upd h1.my_prev ptr ptr }
    match arg with
    | none => (L.my_node_allocator.deallocate h2 ptr 1, L, .error .construct_failed)
    | some v =>
      let h3 : Heap T := { h2 with value := upd h2.value ptr v }
      let base_ptr := ptr
      let node := it.my_node
      let h4 : Heap T := { h3 with my_prev := upd h3.my_prev base_ptr (h3.my_prev node) }
      let h5 : Heap T := { h4 with my_next := upd h4.my_next base_ptr node }
      let h6 : Heap T := { h5 with my_next := upd h5.my_next (h5.my_prev node) base_ptr }
      let h7 : Heap T := { h6 with my_prev := upd h6.my_prev node base_ptr }
      (h7, { L with my_size := (L.my_size + 1) % SIZE_MOD }, .ok { my_node := base_ptr })

/-- Method `List::erase(it)`: the heap and the list afterwards and the iterator returned. -/
def ListObj.erase {T : Type} (h : Heap T) (L : ListObj) (it : BasicIterator) :
    Heap T × ListObj × BasicIterator :=
  let size1 := (L.my_size + SIZE_MOD - 1) % SIZE_MOD
  let node := it.my_node
  let prev := h.my_prev node
  let next := h.my_next node
  let h1 : Heap T := { h with my_next := upd h.my_next prev next }
  let h2 : Heap T := { h1 with my_prev := upd h1.my_prev next prev }
  let it_next : BasicIterator := { my_node := h2.my_next node }
  let h3 : Heap T := { h2 with destroyed := it.my_node :: h2.destroyed }
  (L.my_node_allocator.deallocate h3 it.my_node 1, { L with my_size := size1 }, it_next)

/-- Method `List::push_back(const T&)` and `List::push_back()`: `insert(it_end, ...)`. -/
def ListObj.push_back {T : Type} (lay : NodeLayout) (h : Heap T) (L : ListObj)
    (arg : Option T) : Heap T × ListObj × Except Raised BasicIterator :=
  L.insert lay h L.it_end arg

/-- Method `List::push_front(const T&)` and `List::push_front()`: `insert(begin(), ...)`. -/
def ListObj.push_front {T : Type} (lay : NodeLayout) (h : Heap T) (L : ListObj)
    (arg : Option T) : Heap T × ListObj × Except Raised BasicIterator :=
  L.insert lay h (L.begin h) arg

/-- Method `List::pop_back()`: `erase(std::prev(it_end))`. -/
def ListObj.pop_back {T : Type} (h : Heap T) (L : ListObj) :
    Heap T × ListObj × BasicIterator :=
  L.erase h (L.it_end.dec h)

/-- Method `List::pop_front()`: `erase(std::next(it_end))`. -/
def ListObj.pop_front {T : Type} (h : Heap T) (L : ListObj) :
    Heap T × ListObj × BasicIterator :=
  L.erase h (L.it_end.inc h)

/-- The loop `for (; it != stop; ++it) out.push_back(*it)`, with `fuel` bounding the
number of iterations: `none` when the fuel runs out before `stop` is reached. -/
def traverse {T : Type} (h : Heap T) (stop : BasicIterator) :
    Nat → BasicIterator → Option (List T)
  | 0, it => if it = stop then some [] else none
  | fuel + 1, it =>
    if it = stop then some []
    else (traverse h stop fuel (it.inc h)).map (fun out => it.deref h :: out)

/-- Forward iteration: the values visited from `begin()` until `end()`. -/
def ListObj.forward {T : Type} (h : Heap T) (L : ListObj) (fuel : Nat) : Option (List T) :=
  traverse h L.end_ fuel (L.begin h)

/-- The adaptor `std::reverse_iterator<iterator>`, the standard adaptor: it stores an iterator
`current`. -/
structure reverse_iterator where
  current : BasicIterator
deriving DecidableEq

/-- Function `std::make_reverse_iterator(it)`. -/
def make_reverse_iterator (it : BasicIterator) : reverse_iterator := { current := it }

/-- Method `std::reverse_iterator::operator++`: decrements `current`. -/
def reverse_iterator.inc {T : Type} (h : Heap T) (r : reverse_iterator) : reverse_iterator :=
  { current := r.current.dec h }

/-- Method `std::reverse_iterator::operator*`: dereferences the predecessor of `current`. -/
def reverse_iterator.deref {T : Type} (h : Heap T) (r : reverse_iterator) : T :=
  (r.current.dec h).deref h

/-- Method `List::rbegin()`: `std::make_reverse_iterator(it_end)`. -/
def ListObj.rbegin (L : ListObj) : reverse_iterator := make_reverse_iterator L.it_end

/-- Method `List::crbegin()`: `std::make_reverse_iterator(cend())`. -/
def ListObj.crbegin (L : ListObj) : reverse_iterator := make_reverse_iterator L.cend

/-- Method `List::rend()`: `std::make_reverse_iterator(end())`. -/
def ListObj.rend (L : ListObj) : reverse_iterator := make_reverse_iterator L.end_

/-- Method `List::crend()`: `std::make_reverse_iterator(cend())`. -/
def ListObj.crend (L : ListObj) : reverse_iterator := make_reverse_iterator L.cend

/-- The loop `for (; r != stop; ++r) out.push_back(*r)` over reverse iterators, with
`fuel` bounding the number of iterations. -/
def rtraverse {T : Type} (h : Heap T) (stop : reverse_iterator) :
    Nat → reverse_iterator → Option (List T)
  | 0, r => if r = stop then some [] else none
  | fuel + 1, r =>
    if r = stop then some []
    else (rtraverse h stop fuel (r.inc h)).map (fun out => r.deref h :: out)

/-- Reverse iteration: the values visited from `rbegin()` until `rend()`. -/
def ListObj.backward {T : Type} (h : Heap T) (L : ListObj) (fuel : Nat) : Option (List T) :=
  rtraverse h L.rend fuel L.rbegin

/-- Reverse iteration over the read-only iterators, from `crbegin()` until `crend()`. -/
def ListObj.cbackward {T : Type} (h : Heap T) (L : ListObj) (fuel : Nat) : Option (List T) :=
  rtraverse h L.crend fuel L.crbegin

/-- Well-formedness of a list: following `my_next` from the sentinel returns to the
sentinel after exactly `size() + 1` steps (not earlier), and every node `n` of the ring,
the sentinel included, satisfies `n.next.prev == n` and `n.prev.next == n`. -/
def WellFormed {T : Type} (h : Heap T) (L : ListObj) : Prop :=
  advance h L.it_end (L.my_size + 1) = L.it_end ∧
  (∀ j, j < L.my_size → advance h L.it_end (j + 1) ≠ L.it_end) ∧
  (∀ j, j ≤ L.my_size →
    h.my_prev (h.my_next (advance h L.it_end j).my_node) = (advance h L.it_end j).my_node ∧
    h.my_next (h.my_prev (advance h L.it_end j).my_node) = (advance h L.it_end j).my_node)

instance instDecidableWellFormed {T : Type} (h : Heap T) (L : ListObj) :
    Decidable (WellFormed h L) := by
  unfold WellFormed
  infer_instance

/-- The nodes `a`, then `ns` in order, then `b` are consecutive: each points to the
following one with `my_next`, and is pointed to by it with `my_prev`. -/
def Linked {T : Type} (h : Heap T) : Nat → List Nat → Nat → Prop
  | a, [], b => h.my_next a = b ∧ h.my_prev b = a
  | a, n :: ns, b => (h.my_next a = n ∧ h.my_prev n = a) ∧ Linked h n ns b

/-- The value nodes of the list `L`, in order, are the pairwise distinct nodes `ns`,
none of them the sentinel: the ring is the sentinel, then `ns`, then the sentinel again,
and `my_size` is the length of `ns`. -/
def IsRing {T : Type} (h : Heap T) (L : ListObj) (ns : List Nat) : Prop :=
  (L.my_end :: ns).Nodup ∧ Linked h L.my_end ns L.my_end ∧ L.my_size = ns.length

/-- A heap with no object in it: every link and value is zero, every storage is empty
at address zero. -/
def Heap.blank : Heap Nat :=
  { my_next := fun _ => 0, my_prev := fun _ => 0, value := fun _ => 0,
    storage := fun _ => StackStorage.init 0 0, destroyed := [] }

/-- The loop `for (v : vs) L.push_back(v)`, every element constructed successfully: it
stops at the first `push_back` that raises. -/
def ListObj.push_back_all {T : Type} (lay : NodeLayout) :
    List T → Heap T → ListObj → Heap T × ListObj × Except Raised Unit
  | [], h, L => (h, L, .ok ())
  | v :: vs, h, L =>
    match (L.push_back lay h (some v)).2.2 with
    | .ok _ =>
      ListObj.push_back_all lay vs (L.push_back lay h (some v)).1 (L.push_back lay h (some v)).2.1
    | .error e => ((L.push_back lay h (some v)).1, (L.push_back lay h (some v)).2.1, .error e)

/-- None of the `nodes` lies in the part of the buffer that the storage has not handed
out yet, `[my_used, base + N)`. -/
def OutsideFree (s : StackStorage) (nodes : List Nat) : Prop :=
  ∀ n ∈ nodes, n < s.my_used ∨ s.base + s.N ≤ n

/-- An operation of the list, with positions given by their index from `begin()`. -/
inductive ListOp (T : Type) where
  | insert (i : Nat) (arg : Option T)
  | push_back (arg : Option T)
  | push_front (arg : Option T)
  | erase (i : Nat)
  | pop_back
  | pop_front

/-- The operation is called within its precondition: `insert` at a position of the list
(a value node or `end()`), `erase` and the pops on a value node. -/
def ListOp.Allowed {T : Type} (L : ListObj) : ListOp T → Prop
  | .insert i _ => i ≤ L.my_size
  | .push_back _ => True
  | .push_front _ => True
  | .erase i => i < L.my_size
  | .pop_back => 0 < L.my_size
  | .pop_front => 0 < L.my_size

instance instDecidableAllowed {T : Type} (L : ListObj) (op : ListOp T) :
    Decidable (op.Allowed L) :=
  match op with
  | .insert i _ => inferInstanceAs (Decidable (i ≤ L.my_size))
  | .push_back _ => isTrue trivial
  | .push_front _ => isTrue trivial
  | .erase i => inferInstanceAs (Decidable (i < L.my_size))
  | .pop_back => inferInstanceAs (Decidable (0 < L.my_size))
  | .pop_front => inferInstanceAs (Decidable (0 < L.my_size))

/-- The heap and the list after one operation, whatever its outcome. -/
def ListObj.step {T : Type} (lay : NodeLayout) (h : Heap T) (L : ListObj) :
    ListOp T → Heap T × ListObj
  | .insert i arg =>
    ((L.insert lay h (advance h (L.begin h) i) arg).1,
     (L.insert lay h (advance h (L.begin h) i) arg).2.1)
  | .push_back arg => ((L.push_back lay h arg).1, (L.push_back lay h arg).2.1)
  | .push_front arg => ((L.push_front lay h arg).1, (L.push_front lay h arg).2.1)
  | .erase i =>
    ((L.erase h (advance h (L.begin h) i)).1, (L.erase h (advance h (L.begin h) i)).2.1)
  | .pop_back => ((L.pop_back h).1, (L.pop_back h).2.1)
  | .pop_front => ((L.pop_front h).1, (L.pop_front h).2.1)

/-- The heap and the list after a sequence of operations. -/
def ListObj.steps {T : Type} (lay : NodeLayout) :
    List (ListOp T) → Heap T → ListObj → Heap T × ListObj
  | [], h, L => (h, L)
  | op :: ops, h, L => ListObj.steps lay ops (L.step lay h op).1 (L.step lay h op).2

/-- Every operation of the sequence is called within its precondition. -/
def ListObj.AllAllowed {T : Type} (lay : NodeLayout) :
    List (ListOp T) → Heap T → ListObj → Prop
  | [], _, _ => True
  | op :: ops, h, L =>
    op.Allowed L ∧ ListObj.AllAllowed lay ops (L.step lay h op).1 (L.step lay h op).2

instance instDecidableAllAllowed {T : Type} (lay : NodeLayout) :
    (ops : List (ListOp T)) → (h : Heap T) → (L : ListObj) →
    Decidable (ListObj.AllAllowed lay ops h L)
  | [], _, _ => isTrue trivial
  | op :: ops, h, L =>
    @instDecidableAnd _ _ (instDecidableAllowed L op)
      (instDecidableAllAllowed lay ops (L.step lay h op).1 (L.step lay h op).2)

/-- The list `L` with value nodes `ns` sits properly on the storage `sid`: it is a ring,
its node handle points to `sid`, none of its nodes lies in the unallocated part of the
buffer, the cursor is at most the end of the buffer rounded up to the node alignment,
every node of the list has moved the cursor by at least one byte, and the buffer ends
far enough below `2^64` for a node placement not to wrap around. -/
def OnArena {T : Type} (lay : NodeLayout) (sid : Nat) (h : Heap T) (L : ListObj)
    (ns : List Nat) : Prop :=
  IsRing h L ns ∧ L.my_node_allocator.my_storage = some sid ∧
  OutsideFree (h.storage sid) (L.my_end :: ns) ∧
  (h.storage sid).my_used ≤
    alignUp ((h.storage sid).base + (h.storage sid).N) lay.alignof_Node ∧
  L.my_size + (h.storage sid).base ≤ (h.storage sid).my_used ∧
  (h.storage sid).base + (h.storage sid).N + lay.alignof_Node + lay.sizeof_Node ≤ SIZE_MOD ∧
  0 < lay.sizeof_Node ∧ 0 < lay.alignof_Node

/-- The node layout of the examples: 24-byte nodes aligned to 8 bytes. -/
def exLayout : NodeLayout := { sizeof_Node := 24, alignof_Node := 8 }

/-- The heap of the examples: a fresh 128-byte storage, named 7, at address 4096. -/
def exHeap : Heap Nat :=
  { Heap.blank with storage := upd Heap.blank.storage 7 (StackStorage.init 4096 128) }

/-- The empty list of the examples: sentinel at address 100, drawing from storage 7. -/
def exEmpty : Heap Nat × ListObj := ListObj.create exHeap 100 { my_storage := some 7 }

/-- The list of the examples holding 10, 20, 30 (nodes at 4096, 4120, 4144). -/
def exThree : Heap Nat × ListObj × Except Raised Unit :=
  ListObj.push_back_all exLayout [10, 20, 30] exEmpty.1 exEmpty.2

/-- The example list holding 1, 2, 3, 4, 5: its arena has no room for a sixth node. -/
def exFull : Heap Nat × ListObj × Except Raised Unit :=
  ListObj.push_back_all exLayout [1, 2, 3, 4, 5] exEmpty.1 exEmpty.2

/-- The example list after pushing 1, 2, 3 onto the empty list. -/
def exPushed : Heap Nat × ListObj × Except Raised Unit :=
  ListObj.push_back_all exLayout [1, 2, 3] exEmpty.1 exEmpty.2

/-- A call that raised `bad_alloc` and left the list `L` and every link and value of the
heap `h` as they were (so that forward iteration is as before). -/
def RaisedUnchanged {T : Type} (h : Heap T) (L : ListObj)
    (r : Heap T × ListObj × Except Raised BasicIterator) : Prop :=
  r.2.2 = .error .bad_alloc ∧ r.2.1 = L ∧ r.2.1.size = L.size ∧
  r.1.my_next = h.my_next ∧ r.1.my_prev = h.my_prev ∧ r.1.value = h.value ∧
  ∀ fuel, r.2.1.forward r.1 fuel = L.forward h fuel

/-- The arena-exhaustion scenario, first part: on the heap `h0`, an empty list with its
sentinel at `e`, drawing 24-byte nodes aligned to 8 from the storage `sid`, receives
`push_back(v1)` and `push_back(v2)`. -/
def twoPushes {T : Type} (h0 : Heap T) (e sid : Nat) (v1 v2 : T) :
    Heap T × ListObj × Except Raised Unit :=
  ListObj.push_back_all { sizeof_Node := 24, alignof_Node := 8 } [v1, v2]
    (ListObj.create h0 e { my_storage := some sid }).1
    (ListObj.create h0 e { my_storage := some sid }).2

/-- The arena-exhaustion scenario, second part: `push_back(v3)` after `twoPushes`. -/
def thirdPush {T : Type} (h0 : Heap T) (e sid : Nat) (v1 v2 v3 : T) :
    Heap T × ListObj × Except Raised BasicIterator :=
  (twoPushes h0 e sid v1 v2).2.1.push_back { sizeof_Node := 24, alignof_Node := 8 }
    (twoPushes h0 e sid v1 v2).1 (some v3)

/-- A heap whose storage 7 is a fresh 64-byte arena at the unaligned address 4099. -/
def exHeap64 : Heap Nat :=
  { Heap.blank with storage := upd Heap.blank.storage 7 (StackStorage.init 4099 64) }

/-- A sequence of operations for the examples, on an arena with room for five nodes:
four of its insertions fail, one by a throwing constructor and three by exhaustion. -/
def exOps : List (ListOp Nat) :=
  [.push_back (some 1), .push_back none, .insert 0 (some 5), .pop_back, .push_front (some 7),
   .insert 2 (some 9), .erase 1, .push_back (some 11), .push_back (some 12), .pop_front,
   .push_front (some 13)]

/-- The example list after `insert` of 15 at index 1. -/
def exInsert : Heap Nat × ListObj × Except Raised BasicIterator :=
  exThree.2.1.insert exLayout exThree.1 (advance exThree.1 (exThree.2.1.begin exThree.1) 1)
    (some 15)

/-- The example list after `erase` of the node at index 1. -/
def exErase : Heap Nat × ListObj × BasicIterator :=
  exThree.2.1.erase exThree.1 (advance exThree.1 (exThree.2.1.begin exThree.1) 1)

/-- Method `List::swap(List& that)` for two list objects `L` (this) and `that`: the heap
afterwards and the two list objects afterwards. The three `std::swap` calls exchange the
handles, the contents of the two sentinels and the sizes; `it_end` is not exchanged. -/
def ListObj.swap {T : Type} (h : Heap T) (L that : ListObj) : Heap T × ListObj × ListObj :=
  let prev := h.my_prev L.my_end
  let next := h.my_next L.my_end
  let h1 : Heap T := { h with my_next := upd h.my_next prev that.my_end }
  let h2 : Heap T := { h1 with my_prev := upd h1.my_prev next that.my_end }
  let prev2 := h2.my_prev that.my_end
  let next2 := h2.my_next that.my_end
  let h3 : Heap T := { h2 with my_next := upd h2.my_next prev2 L.my_end }
  let h4 : Heap T := { h3 with my_prev := upd h3.my_prev next2 L.my_end }
  -- `std::swap(my_end, that.my_end)`: `tmp = my_end; my_end = that.my_end; that.my_end = tmp`
  let tmp_next := h4.my_next L.my_end
  let tmp_prev := h4.my_prev L.my_end
  let h5 : Heap T := { h4 with my_next := upd h4.my_next L.my_end (h4.my_next that.my_end),
                               my_prev := upd h4.my_prev L.my_end (h4.my_prev that.my_end) }
  let h6 : Heap T := { h5 with my_next := upd h5.my_next that.my_end tmp_next,
                               my_prev := upd h5.my_prev that.my_end tmp_prev }
  (h6,
   { L with my_allocator := that.my_allocator, my_node_allocator := that.my_node_allocator,
            my_size := that.my_size },
   { that with my_allocator := L.my_allocator, my_node_allocator := L.my_node_allocator,
               my_size := L.my_size })

/-- The loop `while (my_size) { pop_back(); }` with at most `fuel` iterations. -/
def ListObj.pop_while {T : Type} : Nat → Heap T → ListObj → Heap T × ListObj
  | 0, h, L => (h, L)
  | fuel + 1, h, L =>
    if L.my_size = 0 then (h, L)
    else ListObj.pop_while fuel (L.pop_back h).1 (L.pop_back h).2.1

/-- The loop `while (my_size) { pop_back(); }` of the destructor and of the `catch`
blocks. Every iteration decrements `my_size`, so `my_size` iterations are enough. -/
def ListObj.pop_all {T : Type} (h : Heap T) (L : ListObj) : Heap T × ListObj :=
  ListObj.pop_while L.my_size h L

/-- The destructor `~List()`. -/
def ListObj.destroy {T : Type} (h : Heap T) (L : ListObj) : Heap T × ListObj :=
  L.pop_all h

/-- The loop `for (size_t i = 0; i < new_size; ++i) push_back(...)` in the `try` block of
the counting constructors, from index `i` with `n` iterations left; `args i` is what
constructing the element of the `i`-th `push_back` gives. It ends at the first
`push_back` that raises. -/
def ListObj.push_back_n {T : Type} (lay : NodeLayout) (args : Nat → Option T) :
    Nat → Nat → Heap T → ListObj → Heap T × ListObj × Except Raised Unit
  | 0, _, h, L => (h, L, .ok ())
  | n + 1, i, h, L =>
    match (L.push_back lay h (args i)).2.2 with
    | .ok _ =>
      ListObj.push_back_n lay args n (i + 1) (L.push_back lay h (args i)).1
        (L.push_back lay h (args i)).2.1
    | .error e => ((L.push_back lay h (args i)).1, (L.push_back lay h (args i)).2.1, .error e)

/-- The constructors `List(size_t new_size, const Allocator& alloc)` and
`List(size_t new_size, const T& value, const Allocator& alloc)` for a list object placed
at address `e`; `args i` is what constructing the `i`-th element gives (from nothing for
the first constructor, from `value` for the second). When a `push_back` raises, the
`catch` block pops every element and raises again. -/
def ListObj.create_n {T : Type} (lay : NodeLayout) (h : Heap T) (e : Nat)
    (alloc : StackAllocator) (new_size : Nat) (args : Nat → Option T) :
    Heap T × ListObj × Except Raised Unit :=
  let c := ListObj.create h e alloc
  let r := ListObj.push_back_n lay args new_size 0 c.1 c.2
  match r.2.2 with
  | .ok _ => (r.1, r.2.1, .ok ())
  | .error err => ((r.2.1.pop_all r.1).1, (r.2.1.pop_all r.1).2, .error err)

/-- The loop `for (it = std::next(that.it_end); it != that.it_end; ++it) push_back(*it)`
in the `try` block of `copy_from_other`, with at most `fuel` iterations (`none` when the
fuel runs out); `cp i v` is what copy-constructing the `i`-th element from `v` gives. -/
def ListObj.copy_loop {T : Type} (lay : NodeLayout) (cp : Nat → T → Option T)
    (that : ListObj) :
    Nat → Nat → BasicIterator → Heap T → ListObj →
    Option (Heap T × ListObj × Except Raised Unit)
  | 0, _, it, h, L => if it = that.it_end then some (h, L, .ok ()) else none
  | fuel + 1, i, it, h, L =>
    if it = that.it_end then some (h, L, .ok ())
    else
      match (L.push_back lay h (cp i (it.deref h))).2.2 with
      | .ok _ =>
        ListObj.copy_loop lay cp that fuel (i + 1)
          (it.inc (L.push_back lay h (cp i (it.deref h))).1)
          (L.push_back lay h (cp i (it.deref h))).1
          (L.push_back lay h (cp i (it.deref h))).2.1
      | .error e =>
        some ((L.push_back lay h (cp i (it.deref h))).1,
          (L.push_back lay h (cp i (it.deref h))).2.1, .error e)

/-- Method `List::copy_from_other(const List& that)`: the loop, and when it raises, the
`catch` block that pops every element and raises again. -/
def ListObj.copy_from_other {T : Type} (lay : NodeLayout) (cp : Nat → T → Option T)
    (h : Heap T) (L that : ListObj) (fuel : Nat) :
    Option (Heap T × ListObj × Except Raised Unit) :=
  match ListObj.copy_loop lay cp that fuel 0 (that.it_end.inc h) h L with
  | none => none
  | some r =>
    match r.2.2 with
    | .ok _ => some (r.1, r.2.1, .ok ())
    | .error err => some ((r.2.1.pop_all r.1).1, (r.2.1.pop_all r.1).2, .error err)

/-- The constructor `List(const List& that, const Allocator& allocator)` for a list
object placed at address `e`: it delegates to `List(allocator)` and then runs
`copy_from_other(that)`. When that raises, the destructor of the object runs, as for
every delegating constructor that exits by an exception. -/
def ListObj.copy_create_with {T : Type} (lay : NodeLayout) (cp : Nat → T → Option T)
    (h : Heap T) (e : Nat) (that : ListObj) (allocator : StackAllocator) (fuel : Nat) :
    Option (Heap T × ListObj × Except Raised Unit) :=
  let c := ListObj.create h e allocator
  match ListObj.copy_from_other lay cp c.1 c.2 that fuel with
  | none => none
  | some r =>
    match r.2.2 with
    | .ok _ => some (r.1, r.2.1, .ok ())
    | .error err => some ((r.2.1.destroy r.1).1, (r.2.1.destroy r.1).2, .error err)

/-- The copy constructor `List(const List& that)`. `StackAllocator` has no
`select_on_container_copy_construction`, so `std::allocator_traits` hands back a copy of
`that.my_allocator`. -/
def ListObj.copy_create {T : Type} (lay : NodeLayout) (cp : Nat → T → Option T)
    (h : Heap T) (e : Nat) (that : ListObj) (fuel : Nat) :
    Option (Heap T × ListObj × Except Raised Unit) :=
  ListObj.copy_create_with lay cp h e that that.my_allocator fuel

/-- Method `List::operator=(const List& that)`; `tmp` is the address of the local list
`copy`. `propagate_on_container_copy_assignment` is `std::false_type`, so `copy` is built
with `my_allocator`; then the chains are swapped and `copy` is destroyed at the end of
its scope. The objects `*this` and `that` are the same when their addresses are. -/
def ListObj.assign {T : Type} (lay : NodeLayout) (cp : Nat → T → Option T)
    (h : Heap T) (L that : ListObj) (tmp : Nat) (fuel : Nat) :
    Option (Heap T × ListObj × Except Raised Unit) :=
  if L.my_end ≠ that.my_end then
    match ListObj.copy_create_with lay cp h tmp that L.my_allocator fuel with
    | none => none
    | some r =>
      match r.2.2 with
      | .error err => some (r.1, L, .error err)
      | .ok _ =>
        let s := L.swap r.1 r.2.1
        some ((s.2.2.destroy s.1).1, s.2.1, .ok ())
  else some (h, L, .ok ())

/-- The heaps `h` and `h1` have the same links and the same values at the addresses
`P`. -/
def SameOn {T : Type} (P : List Nat) (h h1 : Heap T) : Prop :=
  ∀ x ∈ P, h1.my_next x = h.my_next x ∧ h1.my_prev x = h.my_prev x ∧ h1.value x = h.value x

/-- The list `C` with value nodes `cs` sits properly on the storage `sid`, and the
addresses `P` (the nodes of other lists) are none of its nodes and lie outside the
unallocated part of the buffer. -/
def Builds {T : Type} (lay : NodeLayout) (sid : Nat) (P : List Nat) (h : Heap T)
    (C : ListObj) (cs : List Nat) : Prop :=
  OnArena lay sid h C cs ∧ OutsideFree (h.storage sid) P ∧ ∀ x ∈ P, x ∉ C.my_end :: cs


/-- The storage `s` can place nodes of layout `lay` without wrapping around: its cursor
is at most the end of the buffer rounded up to the node alignment, and the buffer ends
far enough below `2^64`. -/
def Roomy (lay : NodeLayout) (s : StackStorage) : Prop :=
  s.my_used ≤ alignUp (s.base + s.N) lay.alignof_Node ∧
  s.base + s.N + lay.alignof_Node + lay.sizeof_Node ≤ SIZE_MOD ∧ 0 < lay.alignof_Node

instance instDecidableRoomy (lay : NodeLayout) (s : StackStorage) : Decidable (Roomy lay s) := by
  unfold Roomy
  infer_instance

/-- The storage `s1` is the storage `s` later on: same buffer, the cursor not moved
back, and still able to place nodes without wrapping around. -/
def Advances (lay : NodeLayout) (s s1 : StackStorage) : Prop :=
  s1.base = s.base ∧ s1.N = s.N ∧ s.my_used ≤ s1.my_used ∧ Roomy lay s1

/-- Whether a call returned normally. -/
def succeeded {α : Type} : Except Raised α → Bool
  | .ok _ => true
  | .error _ => false

/-- Whether the operation is an insertion (`insert`, `push_back`, `push_front`) that
succeeds on the list `L` in the heap `h`. -/
def ListObj.inserts {T : Type} (lay : NodeLayout) (h : Heap T) (L : ListObj) :
    ListOp T → Bool
  | .insert i arg => succeeded (L.insert lay h (advance h (L.begin h) i) arg).2.2
  | .push_back arg => succeeded (L.push_back lay h arg).2.2
  | .push_front arg => succeeded (L.push_front lay h arg).2.2
  | .erase _ => false
  | .pop_back => false
  | .pop_front => false

/-- The state of a program with several lists: the heap, and the list objects by name. -/
abbrev World (T : Type) : Type := Heap T × (Nat → ListObj)

/-- The list named `k` performs the operation `o`. -/
def World.apply {T : Type} (lay : NodeLayout) (w : World T) (k : Nat) (o : ListOp T) :
    World T :=
  (((w.2 k).step lay w.1 o).1, upd w.2 k ((w.2 k).step lay w.1 o).2)

/-- A sequence of operations, each by a named list. -/
def World.applyAll {T : Type} (lay : NodeLayout) : List (Nat × ListOp T) → World T → World T
  | [], w => w
  | p :: ps, w => World.applyAll lay ps (w.apply lay p.1 p.2)

/-- The number of successful insertions, in a sequence of operations, by lists whose
node handle points to the storage `sid`. -/
def World.insertions {T : Type} (lay : NodeLayout) (sid : Nat) :
    List (Nat × ListOp T) → World T → Nat
  | [], _ => 0
  | p :: ps, w =>
    (if (w.2 p.1).my_node_allocator.my_storage = some sid ∧
        (w.2 p.1).inserts lay w.1 p.2 = true then 1 else 0) +
      World.insertions lay sid ps (w.apply lay p.1 p.2)

/-- A statement of a program working with lists: an operation of the list named `k`;
the constructors, placing a new list object at address `e` under the name `k`; the copy
constructor from the list named `src`; the assignment `k = src`, whose local copy is
placed at `tmp`; the destructor. -/
inductive Cmd (T : Type) where
  | op (k : Nat) (o : ListOp T)
  | create (k e : Nat) (alloc : StackAllocator)
  | create_n (k e : Nat) (alloc : StackAllocator) (n : Nat) (args : Nat → Option T)
  | copy_create (k e src : Nat) (cp : Nat → T → Option T) (fuel : Nat)
  | assign (k src tmp : Nat) (cp : Nat → T → Option T) (fuel : Nat)
  | destroy (k : Nat)

/-- The world after one statement, whether it returned or raised (a constructor that
raises leaves no object); `none` when the fuel of a copy loop runs out. -/
def Cmd.step {T : Type} (lay : NodeLayout) (w : World T) : Cmd T → Option (World T)
  | .op k o => some (w.apply lay k o)
  | .create k e alloc =>
    some ((ListObj.create w.1 e alloc).1, upd w.2 k (ListObj.create w.1 e alloc).2)
  | .create_n k e alloc n args =>
    match (ListObj.create_n lay w.1 e alloc n args).2.2 with
    | .ok _ =>
      some ((ListObj.create_n lay w.1 e alloc n args).1,
        upd w.2 k (ListObj.create_n lay w.1 e alloc n args).2.1)
    | .error _ => some ((ListObj.create_n lay w.1 e alloc n args).1, w.2)
  | .copy_create k e src cp fuel =>
    match ListObj.copy_create lay cp w.1 e (w.2 src) fuel with
    | none => none
    | some r =>
      match r.2.2 with
      | .ok _ => some (r.1, upd w.2 k r.2.1)
      | .error _ => some (r.1, w.2)
  | .assign k src tmp cp fuel =>
    match ListObj.assign lay cp w.1 (w.2 k) (w.2 src) tmp fuel with
    | none => none
    | some r => some (r.1, upd w.2 k r.2.1)
  | .destroy k => some (((w.2 k).destroy w.1).1, upd w.2 k ((w.2 k).destroy w.1).2)

/-- The world after a sequence of statements. -/
def World.run {T : Type} (lay : NodeLayout) : List (Cmd T) → World T → Option (World T)
  | [], w => some w
  | c :: cs, w =>
    match c.step lay w with
    | none => none
    | some w1 => World.run lay cs w1


/-- The world of the examples: every name stands for the empty example list, on the
fresh 128-byte arena. -/
def exWorld : World Nat := (exEmpty.1, fun _ => exEmpty.2)

/-- The example of repeated `push_back; pop_back`: five rounds by the list named 0. -/
def exPushPop : List (Nat × ListOp Nat) :=
  [(0, .push_back (some 1)), (0, .pop_back), (0, .push_back (some 2)), (0, .pop_back),
   (0, .push_back (some 3)), (0, .pop_back), (0, .push_back (some 4)), (0, .pop_back),
   (0, .push_back (some 5)), (0, .pop_back)]

/-- The five rounds of `exPushPop` followed by a sixth `push_back`. -/
def exSixPushes : List (Nat × ListOp Nat) := exPushPop ++ [(0, .push_back (some 6))]

/-- The world of the example program: the heap of the examples and no list yet (every
name stands for an object with null handles). -/
def exStart : World Nat :=
  (exHeap, fun _ => { my_size := 0, my_end := 0, my_allocator := { my_storage := none },
                      my_node_allocator := { my_storage := none } })

/-- An example program: a list is built at 100, copied to a list at 200, the copy is
changed and assigned to from the first list, the first list is destroyed, and then a
list of three elements is asked for at 400 when the arena has room for one more node. -/
def exProgram : List (Cmd Nat) :=
  [.create 0 100 { my_storage := some 7 }, .op 0 (.push_back (some 10)),
   .copy_create 1 200 0 (fun _ v => some v) 4, .op 1 (.push_front (some 5)),
   .assign 1 0 300 (fun _ v => some v) 4, .destroy 0,
   .create_n 2 400 { my_storage := some 7 } 3 (fun _ => some 0)]

/-- The world after the example program. -/
def exProgramEnd : World Nat := (World.run exLayout exProgram exStart).getD exStart

/-- The addresses of the value nodes of a list, in order from `begin()`. -/
def ListObj.nodes {T : Type} (h : Heap T) (L : ListObj) : List Nat :=
  (List.range L.my_size).map (fun j => (advance h L.it_end (j + 1)).my_node)

/-- The example list holding 10, 20 (nodes at 4096, 4120), with room for two more nodes
on its arena. -/
def exPair : Heap Nat × ListObj × Except Raised Unit :=
  ListObj.push_back_all exLayout [10, 20] exEmpty.1 exEmpty.2

/-- A heap with two fresh 128-byte arenas: storage 7 at address 4096 and storage 8 at
address 8192. -/
def exHeapTwo : Heap Nat :=
  { Heap.blank with
    storage := upd (upd Heap.blank.storage 7 (StackStorage.init 4096 128)) 8
      (StackStorage.init 8192 128) }

/-- The first list of the two-arena examples: sentinel at 100, drawing from storage 7,
holding 10, 20, 30 (nodes at 4096, 4120, 4144). -/
def exSrc : Heap Nat × ListObj × Except Raised Unit :=
  ListObj.push_back_all exLayout [10, 20, 30]
    (ListObj.create exHeapTwo 100 { my_storage := some 7 }).1
    (ListObj.create exHeapTwo 100 { my_storage := some 7 }).2

/-- The second list of the two-arena examples, built after the first: sentinel at 200,
drawing from storage 8, holding 1, 2 (nodes at 8192, 8216). -/
def exDst : Heap Nat × ListObj × Except Raised Unit :=
  ListObj.push_back_all exLayout [1, 2]
    (ListObj.create exSrc.1 200 { my_storage := some 8 }).1
    (ListObj.create exSrc.1 200 { my_storage := some 8 }).2

/-- An empty list next to the two lists: sentinel at 300, drawing from storage 7. -/
def exNone : Heap Nat × ListObj := ListObj.create exDst.1 300 { my_storage := some 7 }

/-- A second empty list: sentinel at 400, drawing from storage 8. Its heap holds the
four lists of the two-arena examples. -/
def exNone2 : Heap Nat × ListObj := ListObj.create exNone.1 400 { my_storage := some 8 }

instance instDecidableOutsideFree (s : StackStorage) (nodes : List Nat) :
    Decidable (OutsideFree s nodes) := by
  unfold OutsideFree
  infer_instance

/-! ## Theorems -/

theorem alignUp_ge (c a : Nat) : c ≤ alignUp c a := by
  unfold alignUp
  split <;> omega

theorem alignUp_dvd (c a : Nat) (ha : 0 < a) : a ∣ alignUp c a := by
  unfold alignUp
  split
  · exact Nat.dvd_of_mod_eq_zero ‹_›
  · have hlt : c % a < a := Nat.mod_lt c ha
    have hdiv := Nat.div_add_mod c a
    refine ⟨c / a + 1, ?_⟩
    rw [Nat.mul_add, Nat.mul_one]
    omega

theorem alignUp_lt (c a : Nat) (ha : 0 < a) : alignUp c a < c + a := by
  unfold alignUp
  have hlt : c % a < a := Nat.mod_lt c ha
  split <;> omega

/-- Among the multiples of `a` that are at least `c`, `alignUp c a` is the least. -/
theorem alignUp_le_of_dvd (c a m : Nat) (ha : 0 < a) (hm : a ∣ m) (hcm : c ≤ m) :
    alignUp c a ≤ m := by
  by_contra hlt
  have h1 : m < alignUp c a := Nat.lt_of_not_ge hlt
  obtain ⟨k, hk⟩ := alignUp_dvd c a ha
  obtain ⟨j, hj⟩ := hm
  have h2 := alignUp_lt c a ha
  rw [hk] at h1 h2
  rw [hj] at hcm h1
  have hjk : j < k := Nat.lt_of_mul_lt_mul_left h1
  have : a * (j + 1) ≤ a * k := Nat.mul_le_mul_left a hjk
  rw [Nat.mul_add, Nat.mul_one] at this
  omega

theorem alignUp_le_add (c a : Nat) : alignUp c a ≤ c + a := by
  unfold alignUp
  split <;> omega

/-- What `allocate` does when the aligned placement `alignUp c alignment + bytes` is
representable in `size_t`: it fails exactly when the placement does not fit, leaving the
cursor on the aligned address; otherwise it returns the aligned address and moves the
cursor past the region. -/
theorem allocate_eq_of_placement_lt (s : StackStorage) (bytes alignment : Nat)
    (hcap : s.base + s.N < SIZE_MOD)
    (hw : alignUp s.my_used alignment + bytes < SIZE_MOD) :
    s.allocate bytes alignment =
      if alignUp s.my_used alignment + bytes > s.base + s.N then
        ({ s with my_used := alignUp s.my_used alignment }, none)
      else
        ({ s with my_used := alignUp s.my_used alignment + bytes },
          some (alignUp s.my_used alignment)) := by
  unfold StackStorage.allocate
  unfold alignUp at hw ⊢
  simp only [SIZE_MOD] at *
  by_cases hz : s.my_used % alignment = 0
  · simp only [hz, ne_eq, not_true_eq_false, if_false, if_true] at hw ⊢
    rw [Nat.mod_eq_of_lt hw, Nat.mod_eq_of_lt hcap]
    split
    · congr 2
      omega
    · rfl
  · simp only [hz, ne_eq, not_false_eq_true, if_true, if_false] at hw ⊢
    rw [Nat.mod_eq_of_lt (show s.my_used + (alignment - s.my_used % alignment)
        < 18446744073709551616 by omega),
      Nat.mod_eq_of_lt hw, Nat.mod_eq_of_lt hcap]
    split
    · congr 2
      omega
    · rfl

/-- The same when `cursor + alignment + bytes` is representable in `size_t`. -/
theorem allocate_eq_of_noWrap (s : StackStorage) (bytes alignment : Nat)
    (hcap : s.base + s.N < SIZE_MOD) (hw : s.my_used + alignment + bytes < SIZE_MOD) :
    s.allocate bytes alignment =
      if alignUp s.my_used alignment + bytes > s.base + s.N then
        ({ s with my_used := alignUp s.my_used alignment }, none)
      else
        ({ s with my_used := alignUp s.my_used alignment + bytes },
          some (alignUp s.my_used alignment)) :=
  allocate_eq_of_placement_lt s bytes alignment hcap
    (by have := alignUp_le_add s.my_used alignment; omega)

theorem allocate_base (s : StackStorage) (bytes alignment : Nat) :
    (s.allocate bytes alignment).1.base = s.base ∧ (s.allocate bytes alignment).1.N = s.N := by
  unfold StackStorage.allocate
  dsimp only
  split_ifs <;> exact ⟨rfl, rfl⟩

/-- One call without wrap-around: the cursor does not move back, it stays below any
multiple `M` of the alignment that bounded it before and is at least `base + N`, and
after a success it is within the buffer. -/
theorem allocate_cursor_step (s : StackStorage) (bytes alignment M : Nat)
    (hcap : s.base + s.N < SIZE_MOD) (hw : s.my_used + alignment + bytes < SIZE_MOD)
    (ha : 0 < alignment) (hM : alignment ∣ M) (hNM : s.base + s.N ≤ M)
    (hc : s.my_used ≤ M) :
    s.my_used ≤ (s.allocate bytes alignment).1.my_used ∧
    (s.allocate bytes alignment).1.my_used ≤ M ∧
    (∀ p, (s.allocate bytes alignment).2 = some p →
      (s.allocate bytes alignment).1.my_used ≤ s.base + s.N) := by
  rw [allocate_eq_of_noWrap s bytes alignment hcap hw]
  have h1 := alignUp_ge s.my_used alignment
  have h2 := alignUp_le_of_dvd s.my_used alignment M ha hM hc
  split
  · refine ⟨h1, h2, ?_⟩
    intro p hp
    cases hp
  · refine ⟨?_, ?_, ?_⟩
    · show s.my_used ≤ alignUp s.my_used alignment + bytes
      omega
    · show alignUp s.my_used alignment + bytes ≤ M
      omega
    · intro p _
      show alignUp s.my_used alignment + bytes ≤ s.base + s.N
      omega

theorem run_base (reqs : List (Nat × Nat)) : ∀ s : StackStorage,
    (s.run reqs).1.base = s.base ∧ (s.run reqs).1.N = s.N := by
  induction reqs with
  | nil => intro s; exact ⟨rfl, rfl⟩
  | cons r rest ih =>
    intro s
    have h1 := ih (s.allocate r.1 r.2).1
    have h2 := allocate_base s r.1 r.2
    simp only [StackStorage.run]
    exact ⟨h1.1.trans h2.1, h1.2.trans h2.2⟩

/-- A sequence of calls without wrap-around, for alignments that all divide `M`. -/
theorem run_cursor_bounds (M : Nat) (reqs : List (Nat × Nat)) : ∀ s : StackStorage,
    s.base + s.N < SIZE_MOD → s.NoWrap reqs → (∀ r ∈ reqs, 0 < r.2 ∧ r.2 ∣ M) →
    s.base + s.N ≤ M → s.my_used ≤ M →
    s.my_used ≤ (s.run reqs).1.my_used ∧ (s.run reqs).1.my_used ≤ M ∧
    (∀ p, (s.run reqs).2.getLast? = some (some p) →
      (s.run reqs).1.my_used ≤ s.base + s.N) := by
  induction reqs with
  | nil =>
    intro s _ _ _ _ hc
    refine ⟨Nat.le_refl _, hc, ?_⟩
    intro p hp
    simp [StackStorage.run] at hp
  | cons r rest ih =>
    intro s hcap hw hal hNM hc
    obtain ⟨hw1, hw2⟩ := hw
    have har := hal r (List.mem_cons_self _ _)
    have hstep := allocate_cursor_step s r.1 r.2 M hcap hw1 har.1 har.2 hNM hc
    have hb := allocate_base s r.1 r.2
    have hrec := ih (s.allocate r.1 r.2).1 (by rw [hb.1, hb.2]; exact hcap) hw2
      (fun x hx => hal x (List.mem_cons_of_mem _ hx)) (by rw [hb.1, hb.2]; exact hNM) hstep.2.1
    rw [hb.1, hb.2] at hrec
    simp only [StackStorage.run]
    refine ⟨Nat.le_trans hstep.1 hrec.1, hrec.2.1, ?_⟩
    intro p hp
    cases hrest : rest with
    | nil =>
      subst hrest
      simp only [StackStorage.run, List.getLast?_singleton, Option.some.injEq] at hp ⊢
      exact hstep.2.2 p hp
    | cons r2 rest2 =>
      subst hrest
      apply hrec.2.2 p
      simpa [StackStorage.run, List.getLast?_cons_cons] using hp

/-- A successful call without wrap-around returns the aligned cursor, a region inside
the buffer, and leaves the cursor at the end of that region. -/
theorem allocate_some_of_noWrap (s s1 : StackStorage) (bytes alignment p : Nat)
    (hcap : s.base + s.N < SIZE_MOD) (hw : s.my_used + alignment + bytes < SIZE_MOD)
    (h : s.allocate bytes alignment = (s1, some p)) :
    p = alignUp s.my_used alignment ∧ p + bytes ≤ s.base + s.N ∧ s1.my_used = p + bytes ∧
    s1.base = s.base ∧ s1.N = s.N := by
  rw [allocate_eq_of_noWrap s bytes alignment hcap hw] at h
  split at h
  · cases h
  · rename_i hfit
    simp only [Prod.mk.injEq, Option.some.injEq] at h
    obtain ⟨h1, h2⟩ := h
    subst h1 h2
    exact ⟨rfl, by omega, rfl, rfl, rfl⟩

/-- A call without wrap-around fails exactly when the aligned placement does not fit. -/
theorem allocate_none_iff_of_noWrap (s : StackStorage) (bytes alignment : Nat)
    (hcap : s.base + s.N < SIZE_MOD) (hw : s.my_used + alignment + bytes < SIZE_MOD) :
    (s.allocate bytes alignment).2 = none ↔
      alignUp s.my_used alignment + bytes > s.base + s.N := by
  rw [allocate_eq_of_noWrap s bytes alignment hcap hw]
  split <;> simp_all

/-- A failed call without wrap-around leaves the cursor on the aligned address. -/
theorem allocate_none_of_noWrap (s : StackStorage) (bytes alignment : Nat)
    (hcap : s.base + s.N < SIZE_MOD) (hw : s.my_used + alignment + bytes < SIZE_MOD)
    (h : (s.allocate bytes alignment).2 = none) :
    (s.allocate bytes alignment).1 = { s with my_used := alignUp s.my_used alignment } := by
  rw [allocate_eq_of_noWrap s bytes alignment hcap hw] at h ⊢
  split
  · rfl
  · rename_i hfit
    rw [if_neg hfit] at h
    cases h

/-- Without wrap-around the cursor never moves back. -/
theorem allocate_mono_of_noWrap (s : StackStorage) (bytes alignment : Nat)
    (hcap : s.base + s.N < SIZE_MOD) (hw : s.my_used + alignment + bytes < SIZE_MOD) :
    s.my_used ≤ (s.allocate bytes alignment).1.my_used := by
  rw [allocate_eq_of_noWrap s bytes alignment hcap hw]
  have h1 := alignUp_ge s.my_used alignment
  split
  · exact h1
  · show s.my_used ≤ alignUp s.my_used alignment + bytes
    omega

theorem regions_ge (reqs : List (Nat × Nat)) : ∀ s : StackStorage,
    s.base + s.N < SIZE_MOD → s.NoWrap reqs →
    ∀ x ∈ s.regions reqs, s.my_used ≤ x.1 := by
  induction reqs with
  | nil => intro s _ _ x hx; simp [StackStorage.regions] at hx
  | cons r rest ih =>
    intro s hcap hw x hx
    obtain ⟨hw1, hw2⟩ := hw
    have hb := allocate_base s r.1 r.2
    have hmono := allocate_mono_of_noWrap s r.1 r.2 hcap hw1
    have hrec := ih (s.allocate r.1 r.2).1 (by rw [hb.1, hb.2]; exact hcap) hw2
    simp only [StackStorage.regions] at hx
    cases hres : (s.allocate r.1 r.2).2 with
    | none =>
      rw [hres] at hx
      exact Nat.le_trans hmono (hrec x hx)
    | some p =>
      rw [hres] at hx
      rcases List.mem_cons.mp hx with hx | hx
      · have hsome := allocate_some_of_noWrap s (s.allocate r.1 r.2).1 r.1 r.2 p hcap hw1
          (by rw [← hres])
        subst hx
        have := alignUp_ge s.my_used r.2
        show s.my_used ≤ p
        omega
      · exact Nat.le_trans hmono (hrec x hx)

/-- Without wrap-around, the regions returned by the successful calls of a sequence are
pairwise disjoint. -/
theorem regions_pairwise_disjoint_of_noWrap (reqs : List (Nat × Nat)) : ∀ s : StackStorage,
    s.base + s.N < SIZE_MOD → s.NoWrap reqs →
    (s.regions reqs).Pairwise (fun a b => Disjoint a.1 a.2 b.1 b.2) := by
  induction reqs with
  | nil => intro s _ _; simp [StackStorage.regions]
  | cons r rest ih =>
    intro s hcap hw
    obtain ⟨hw1, hw2⟩ := hw
    have hb := allocate_base s r.1 r.2
    have hcap1 : (s.allocate r.1 r.2).1.base + (s.allocate r.1 r.2).1.N < SIZE_MOD := by
      rw [hb.1, hb.2]; exact hcap
    have hrec := ih (s.allocate r.1 r.2).1 hcap1 hw2
    have hge := regions_ge rest (s.allocate r.1 r.2).1 hcap1 hw2
    simp only [StackStorage.regions]
    cases hres : (s.allocate r.1 r.2).2 with
    | none => exact hrec
    | some p =>
      have hsome := allocate_some_of_noWrap s (s.allocate r.1 r.2).1 r.1 r.2 p hcap hw1
        (by rw [← hres])
      refine List.Pairwise.cons ?_ hrec
      intro b hb2 x hx
      have := hge b hb2
      simp only at hx
      omega

theorem maxAlign_ge (reqs : List (Nat × Nat)) : ∀ r ∈ reqs, r.2 ≤ maxAlign reqs := by
  induction reqs with
  | nil => intro r hr; cases hr
  | cons a rest ih =>
    intro r hr
    simp only [maxAlign]
    rcases List.mem_cons.mp hr with h | h
    · subst h; exact Nat.le_max_left _ _
    · exact Nat.le_trans (ih r h) (Nat.le_max_right _ _)

theorem maxAlign_pow2 (reqs : List (Nat × Nat)) (hpow : ∀ r ∈ reqs, ∃ k, r.2 = 2 ^ k) :
    ∃ k, maxAlign reqs = 2 ^ k := by
  induction reqs with
  | nil => exact ⟨0, rfl⟩
  | cons a rest ih =>
    obtain ⟨k1, hk1⟩ := hpow a (List.mem_cons_self _ _)
    obtain ⟨k2, hk2⟩ := ih (fun r hr => hpow r (List.mem_cons_of_mem _ hr))
    simp only [maxAlign]
    rcases Nat.le_total a.2 (maxAlign rest) with h | h
    · exact ⟨k2, by rw [Nat.max_eq_right h, hk2]⟩
    · exact ⟨k1, by rw [Nat.max_eq_left h, hk1]⟩

theorem pow2_dvd_of_le (a b : Nat) (ha : ∃ k, a = 2 ^ k) (hb : ∃ k, b = 2 ^ k) (h : a ≤ b) :
    a ∣ b := by
  obtain ⟨j, rfl⟩ := ha
  obtain ⟨k, rfl⟩ := hb
  exact Nat.pow_dvd_pow 2 ((Nat.pow_le_pow_iff_right (by norm_num)).mp h)

/-! ### The ring of nodes -/

theorem Linked_append {T : Type} (h : Heap T) (l1 : List Nat) :
    ∀ (a n : Nat) (l2 : List Nat) (b : Nat),
      Linked h a (l1 ++ n :: l2) b ↔ Linked h a l1 n ∧ Linked h n l2 b := by
  induction l1 with
  | nil => intro a n l2 b; simp [Linked]
  | cons x l1 ih => intro a n l2 b; simp [Linked, ih, and_assoc]

theorem Linked_concat {T : Type} (h : Heap T) (l1 : List Nat) (a q b : Nat) :
    Linked h a (l1 ++ [q]) b ↔ Linked h a l1 q ∧ (h.my_next q = b ∧ h.my_prev b = q) := by
  rw [Linked_append]
  simp [Linked]

/-- Links that are not written stay linked: `my_next` is read at `a` and at the nodes
of `ns`, `my_prev` at the nodes of `ns` and at `b`. -/
theorem Linked_frame {T : Type} (h h1 : Heap T) (ns : List Nat) : ∀ (a b : Nat),
    (∀ x ∈ a :: ns, h1.my_next x = h.my_next x) →
    (∀ y ∈ ns ++ [b], h1.my_prev y = h.my_prev y) →
    Linked h a ns b → Linked h1 a ns b := by
  induction ns with
  | nil =>
    intro a b hn hp hl
    simp only [Linked] at hl ⊢
    rw [hn a (by simp), hp b (by simp)]
    exact hl
  | cons n ns ih =>
    intro a b hn hp hl
    simp only [Linked] at hl ⊢
    refine ⟨?_, ih n b (fun x hx => hn x (List.mem_cons_of_mem _ hx))
      (fun y hy => hp y (by simp only [List.cons_append, List.mem_cons]; exact Or.inr hy)) hl.2⟩
    rw [hn a (by simp), hp n (by simp)]
    exact hl.1

theorem Linked_rotate {T : Type} (h : Heap T) (a b : Nat) (l1 l2 : List Nat) :
    Linked h a (l1 ++ b :: l2) a ↔ Linked h b (l2 ++ a :: l1) b := by
  rw [Linked_append, Linked_append]
  exact and_comm

theorem nodup_rotate (a b : Nat) (l1 l2 : List Nat) :
    (a :: (l1 ++ b :: l2)).Nodup ↔ (b :: (l2 ++ a :: l1)).Nodup :=
  List.Perm.nodup_iff (@List.perm_append_comm _ (a :: l1) (b :: l2))

/-- Linking a new node `p` in front of `pos`, seen from `pos`: the ring that went from
`pos` through `ms` back to `pos` now goes through `ms` and then `p`. -/
theorem Linked_insert_anchor {T : Type} (h h1 : Heap T) (pos p : Nat) (ms : List Nat)
    (hnd : (p :: pos :: ms).Nodup) (hl : Linked h pos ms pos)
    (hnext : ∀ x, h1.my_next x =
      if x = h.my_prev pos then p else if x = p then pos else h.my_next x)
    (hprev : ∀ x, h1.my_prev x =
      if x = pos then p else if x = p then h.my_prev pos else h.my_prev x) :
    Linked h1 pos (ms ++ [p]) pos := by
  have hpp : p ≠ pos := by
    intro hc
    simp [hc] at hnd
  rcases List.eq_nil_or_concat ms with rfl | ⟨ms1, q, hms⟩
  · simp only [Linked] at hl
    simp only [List.nil_append, Linked, hnext, hprev, hl.2]
    simp [hpp]
  · rw [List.concat_eq_append] at hms
    subst hms
    rw [Linked_concat] at hl
    obtain ⟨hl1, hq1, hq2⟩ := hl
    have hpq : p ≠ q := by
      intro hc
      simp [hc] at hnd
    have hposq : pos ≠ q := by
      intro hc
      simp [hc] at hnd
    rw [Linked_concat]
    refine ⟨?_, ?_⟩
    · rw [Linked_concat]
      refine ⟨Linked_frame h h1 ms1 pos q ?_ ?_ hl1, ?_⟩
      · intro x hx
        rw [hnext, hq2]
        have hxq : x ≠ q := by
          intro hc
          subst hc
          simp only [List.nodup_cons, List.mem_cons, List.mem_append, List.mem_singleton,
            List.nodup_append] at hnd
          rcases List.mem_cons.mp hx with hx | hx
          · exact hposq hx.symm
          · exact hnd.2.2.2.2 hx (List.mem_singleton_self x)
        have hxp : x ≠ p := by
          intro hc
          subst hc
          simp only [List.nodup_cons, List.mem_cons, List.mem_append] at hnd
          rcases List.mem_cons.mp hx with hx | hx
          · exact hpp hx
          · exact hnd.1 (Or.inr (Or.inl hx))
        simp [hxq, hxp]
      · intro y hy
        rw [hprev]
        have hyp : y ≠ p := by
          intro hc
          subst hc
          simp only [List.nodup_cons, List.mem_cons] at hnd
          exact hnd.1 (Or.inr hy)
        have hypos : y ≠ pos := by
          intro hc
          subst hc
          simp only [List.nodup_cons] at hnd
          exact hnd.2.1 hy
        simp [hyp, hypos]
      · rw [hnext, hprev, hq2]
        simp [hpp]
    · rw [hnext, hprev, hq2]
      simp [hpp, hpq]

/-- Unlinking the node `x`, seen from `x`: the ring that went from `x` through
`nx :: ms` back to `x` now goes from `nx` through `ms` back to `nx`. -/
theorem Linked_erase_anchor {T : Type} (h h1 : Heap T) (x nx : Nat) (ms : List Nat)
    (hnd : (x :: nx :: ms).Nodup) (hl : Linked h x (nx :: ms) x)
    (hnext : ∀ y, h1.my_next y = if y = h.my_prev x then h.my_next x else h.my_next y)
    (hprev : ∀ y, h1.my_prev y = if y = h.my_next x then h.my_prev x else h.my_prev y) :
    Linked h1 nx ms nx := by
  simp only [Linked] at hl
  obtain ⟨⟨hx1, hx2⟩, hl⟩ := hl
  rcases List.eq_nil_or_concat ms with rfl | ⟨ms1, pv, hms⟩
  · simp only [Linked] at hl ⊢
    rw [hnext, hprev, hl.2, hx1]
    simp
  · rw [List.concat_eq_append] at hms
    subst hms
    rw [Linked_concat] at hl ⊢
    obtain ⟨hl1, hp1, hp2⟩ := hl
    have hnxpv : nx ≠ pv := by
      intro hc
      simp [hc] at hnd
    refine ⟨Linked_frame h h1 ms1 nx pv ?_ ?_ hl1, ?_⟩
    · intro y hy
      rw [hnext, hp2]
      have hypv : y ≠ pv := by
        intro hc
        subst hc
        simp only [List.nodup_cons, List.mem_cons, List.mem_append, List.mem_singleton,
          List.nodup_append] at hnd
        rcases List.mem_cons.mp hy with hy | hy
        · exact hnxpv hy.symm
        · exact hnd.2.2.2.2 hy (List.mem_singleton_self y)
      simp [hypv]
    · intro y hy
      rw [hprev, hx1]
      have hynx : y ≠ nx := by
        intro hc
        subst hc
        simp only [List.nodup_cons] at hnd
        exact hnd.2.1 hy
      simp [hynx]
    · rw [hnext, hprev, hp2, hx1]
      simp

/-- Linking a new node `p` in front of `pos`, seen from the sentinel `e`: `pos` is the
first node of `l2`, or `e` when `l2` is empty. -/
theorem Linked_insert {T : Type} (h h1 : Heap T) (e pos p : Nat) (l1 l2 : List Nat)
    (hpos : (l2 ++ [e]).head? = some pos)
    (hnd : (p :: e :: (l1 ++ l2)).Nodup) (hl : Linked h e (l1 ++ l2) e)
    (hnext : ∀ x, h1.my_next x =
      if x = h.my_prev pos then p else if x = p then pos else h.my_next x)
    (hprev : ∀ x, h1.my_prev x =
      if x = pos then p else if x = p then h.my_prev pos else h.my_prev x) :
    Linked h1 e (l1 ++ p :: l2) e := by
  cases l2 with
  | nil =>
    simp only [List.nil_append, List.head?_cons, Option.some.injEq] at hpos
    subst hpos
    rw [List.append_nil] at hnd hl
    exact Linked_insert_anchor h h1 e p l1 hnd hl hnext hprev
  | cons n l2 =>
    simp only [List.cons_append, List.head?_cons, Option.some.injEq] at hpos
    subst hpos
    rw [Linked_rotate] at hl
    have hnd2 : (p :: n :: (l2 ++ e :: l1)).Nodup := by
      rw [List.nodup_cons] at hnd ⊢
      refine ⟨?_, (nodup_rotate e n l1 l2).mp hnd.2⟩
      intro hc
      apply hnd.1
      simp only [List.mem_cons, List.mem_append] at hc ⊢
      tauto
    have h2 := Linked_insert_anchor h h1 n p (l2 ++ e :: l1) hnd2 hl hnext hprev
    rw [List.append_assoc, List.cons_append, ← Linked_rotate, List.append_assoc] at h2
    exact h2

/-- Unlinking the value node `x`, seen from the sentinel `e`. -/
theorem Linked_erase {T : Type} (h h1 : Heap T) (e x : Nat) (l1 l2 : List Nat)
    (hnd : (e :: (l1 ++ x :: l2)).Nodup) (hl : Linked h e (l1 ++ x :: l2) e)
    (hnext : ∀ y, h1.my_next y = if y = h.my_prev x then h.my_next x else h.my_next y)
    (hprev : ∀ y, h1.my_prev y = if y = h.my_next x then h.my_prev x else h.my_prev y) :
    Linked h1 e (l1 ++ l2) e := by
  rw [Linked_rotate] at hl
  rw [nodup_rotate] at hnd
  cases l2 with
  | nil =>
    rw [List.nil_append] at hl hnd
    rw [List.append_nil]
    exact Linked_erase_anchor h h1 x e l1 hnd hl hnext hprev
  | cons n l2 =>
    rw [List.cons_append] at hl hnd
    have h2 := Linked_erase_anchor h h1 x n (l2 ++ e :: l1) hnd hl hnext hprev
    rw [← Linked_rotate] at h2
    exact h2

/-- The successor and the predecessor of a value node of a ring. -/
theorem Linked_at {T : Type} (h : Heap T) (e x : Nat) (l1 l2 : List Nat)
    (hl : Linked h e (l1 ++ x :: l2) e) :
    (l2 ++ [e]).head? = some (h.my_next x) ∧ (e :: l1).getLast? = some (h.my_prev x) := by
  rw [Linked_append] at hl
  obtain ⟨ha, hb⟩ := hl
  constructor
  · cases l2 with
    | nil => simp only [Linked] at hb; simp [hb.1]
    | cons n l2 => simp only [Linked] at hb; simp [hb.1.1]
  · rcases List.eq_nil_or_concat l1 with rfl | ⟨m, q, hm⟩
    · simp only [Linked] at ha; simp [ha.2]
    · rw [List.concat_eq_append] at hm
      subst hm
      rw [Linked_concat] at ha
      rw [← List.cons_append, List.getLast?_append]
      simp [ha.2.2]

/-! ### Walking the ring -/

theorem advance_succ {T : Type} (h : Heap T) (n : Nat) : ∀ it : BasicIterator,
    advance h it (n + 1) = (advance h it n).inc h := by
  induction n with
  | zero => intro it; rfl
  | succ n ih =>
    intro it
    show advance h (it.inc h) (n + 1) = (advance h (it.inc h) n).inc h
    exact ih (it.inc h)

theorem advance_add {T : Type} (h : Heap T) (m n : Nat) (it : BasicIterator) :
    advance h it (m + n) = advance h (advance h it m) n := by
  induction m generalizing it with
  | zero => simp [advance]
  | succ m ih =>
    rw [Nat.succ_add]
    show advance h (it.inc h) (m + n) = advance h (advance h (it.inc h) m) n
    exact ih (it.inc h)

/-- Along consecutive nodes, the `j`-th step of `operator++` from `a` reaches the
`j`-th node. -/
theorem advance_linked {T : Type} (h : Heap T) (ns : List Nat) : ∀ (a b j : Nat),
    Linked h a ns b → j ≤ ns.length + 1 →
    (a :: (ns ++ [b]))[j]? = some (advance h { my_node := a } j).my_node := by
  induction ns with
  | nil =>
    intro a b j hl hj
    simp only [Linked] at hl
    match j, hj with
    | 0, _ => rfl
    | 1, _ => simp [advance, BasicIterator.inc, hl.1]
  | cons n ns ih =>
    intro a b j hl hj
    simp only [Linked] at hl
    match j, hj with
    | 0, _ => rfl
    | j + 1, hj =>
      have := ih n b j hl.2 (by simpa using hj)
      simp only [List.cons_append, List.getElem?_cons_succ] at this ⊢
      rw [this]
      simp [advance, BasicIterator.inc, hl.1.1]

theorem advance_prev_linked {T : Type} (h : Heap T) (ns : List Nat) : ∀ (a b j : Nat),
    Linked h a ns b → j ≤ ns.length →
    h.my_prev (advance h { my_node := a } (j + 1)).my_node =
      (advance h { my_node := a } j).my_node := by
  induction ns with
  | nil =>
    intro a b j hl hj
    simp only [Linked] at hl
    have hj0 : j = 0 := by simpa using hj
    subst hj0
    simp [advance, BasicIterator.inc, hl.1, hl.2]
  | cons n ns ih =>
    intro a b j hl hj
    simp only [Linked] at hl
    match j, hj with
    | 0, _ => simp [advance, BasicIterator.inc, hl.1.1, hl.1.2]
    | j + 1, hj =>
      have := ih n b j hl.2 (by simpa using hj)
      show h.my_prev (advance h (BasicIterator.inc h { my_node := a }) (j + 1)).my_node =
        (advance h (BasicIterator.inc h { my_node := a }) j).my_node
      simp only [BasicIterator.inc, hl.1.1]
      exact this

/-- The forward loop over consecutive nodes ending at `e` visits their values in order,
as soon as the fuel covers their number. -/
theorem traverse_linked {T : Type} (h : Heap T) (ns : List Nat) : ∀ (a e fuel : Nat),
    Linked h a ns e → e ∉ ns → ns.length ≤ fuel →
    traverse h { my_node := e } fuel { my_node := h.my_next a } = some (ns.map h.value) := by
  induction ns with
  | nil =>
    intro a e fuel hl _ _
    simp only [Linked] at hl
    rw [hl.1]
    cases fuel <;> simp [traverse]
  | cons n ns ih =>
    intro a e fuel hl he hfuel
    simp only [Linked] at hl
    have hne : n ≠ e := by
      intro hc
      apply he
      simp [hc]
    match fuel, hfuel with
    | fuel + 1, hfuel =>
      have := ih n e fuel hl.2 (fun hc => he (List.mem_cons_of_mem _ hc)) (by simpa using hfuel)
      rw [hl.1.1]
      simp only [traverse, BasicIterator.mk.injEq, hne, if_false, BasicIterator.inc, this,
        Option.map_some', List.map_cons, BasicIterator.deref]

/-! ### Well-formedness and rings -/

theorem iterator_eq_iff (a b : BasicIterator) : a = b ↔ a.my_node = b.my_node := by
  cases a; cases b; simp

/-- A ring of distinct nodes is a well-formed list. -/
theorem wellFormed_of_isRing {T : Type} (h : Heap T) (L : ListObj) (ns : List Nat)
    (hr : IsRing h L ns) : WellFormed h L := by
  obtain ⟨hnd, hl, hsz⟩ := hr
  have hidx := advance_linked h ns L.my_end L.my_end
  have hprev := advance_prev_linked h ns L.my_end L.my_end
  have hback : advance h L.it_end (L.my_size + 1) = L.it_end := by
    have h1 := hidx (ns.length + 1) hl (Nat.le_refl _)
    rw [List.getElem?_cons_succ, List.getElem?_append_right (Nat.le_refl _)] at h1
    simp only [Nat.sub_self, List.getElem?_cons_zero, Option.some.injEq] at h1
    rw [iterator_eq_iff, hsz]
    exact h1.symm
  refine ⟨hback, ?_, ?_⟩
  · intro j hj hc
    rw [hsz] at hj
    have h1 := hidx (j + 1) hl (by omega)
    rw [List.getElem?_cons_succ, List.getElem?_append_left hj] at h1
    have hmem : (advance h L.it_end (j + 1)).my_node ∈ ns := by
      have h2 := List.getElem?_eq_getElem hj
      rw [h2] at h1
      simp only [Option.some.injEq] at h1
      rw [show L.it_end = { my_node := L.my_end } from rfl, ← h1]
      exact List.getElem_mem hj
    rw [hc] at hmem
    exact (List.nodup_cons.mp hnd).1 hmem
  · intro j hj
    rw [hsz] at hj
    have hstep : ∀ i, i ≤ ns.length →
        h.my_prev (h.my_next (advance h L.it_end i).my_node) = (advance h L.it_end i).my_node := by
      intro i hi
      have := hprev i hl hi
      rw [advance_succ] at this
      exact this
    refine ⟨hstep j hj, ?_⟩
    cases j with
    | zero =>
      have h1 := hprev ns.length hl (Nat.le_refl _)
      rw [← hsz] at h1
      have h2 : advance h L.it_end (L.my_size + 1) = (advance h L.it_end L.my_size).inc h :=
        advance_succ h L.my_size L.it_end
      rw [show ({ my_node := L.my_end } : BasicIterator) = L.it_end from rfl, hback] at h1
      show h.my_next (h.my_prev L.it_end.my_node) = L.it_end.my_node
      rw [h1]
      rw [hback] at h2
      exact (congrArg BasicIterator.my_node h2).symm
    | succ j =>
      have h1 := hprev j hl (by omega)
      rw [show ({ my_node := L.my_end } : BasicIterator) = L.it_end from rfl] at h1
      rw [h1]
      exact (congrArg BasicIterator.my_node (advance_succ h j L.it_end)).symm

theorem linked_of_advance {T : Type} (h : Heap T) (k : Nat) : ∀ a : Nat,
    (∀ j, j ≤ k → h.my_prev (h.my_next (advance h { my_node := a } j).my_node) =
      (advance h { my_node := a } j).my_node) →
    Linked h a ((List.range k).map (fun j => (advance h { my_node := a } (j + 1)).my_node))
      (advance h { my_node := a } (k + 1)).my_node := by
  induction k with
  | zero =>
    intro a hp
    have := hp 0 (Nat.le_refl _)
    simp only [List.range_zero, List.map_nil, Linked]
    exact ⟨rfl, this⟩
  | succ k ih =>
    intro a hp
    rw [List.range_succ_eq_map, List.map_cons, List.map_map]
    simp only [Linked]
    refine ⟨⟨rfl, hp 0 (Nat.zero_le _)⟩, ?_⟩
    exact ih (h.my_next a) (fun j hj => hp (j + 1) (by omega))

/-- A well-formed list is a ring of distinct nodes. -/
theorem isRing_of_wellFormed {T : Type} (h : Heap T) (L : ListObj) (hwf : WellFormed h L) :
    IsRing h L ((List.range L.my_size).map (fun j => (advance h L.it_end (j + 1)).my_node)) := by
  obtain ⟨hback, hne, hlinks⟩ := hwf
  have hl := linked_of_advance h L.my_size L.my_end (fun j hj => (hlinks j hj).1)
  rw [show ({ my_node := L.my_end } : BasicIterator) = L.it_end from rfl, hback] at hl
  refine ⟨?_, hl, by simp⟩
  rw [List.nodup_cons]
  constructor
  · intro hmem
    rw [List.mem_map] at hmem
    obtain ⟨j, hj, hje⟩ := hmem
    rw [List.mem_range] at hj
    exact hne j hj ((iterator_eq_iff _ _).mpr hje)
  · have haux : ∀ i j, i < j → j < L.my_size →
        (advance h L.it_end (i + 1)).my_node = (advance h L.it_end (j + 1)).my_node → False := by
      intro i j hij hj heq
      have heq2 := (iterator_eq_iff _ _).mpr heq
      have h1 : advance h L.it_end (L.my_size + 1) =
          advance h (advance h L.it_end (j + 1)) (L.my_size - j) := by
        rw [← advance_add]
        congr 1
        omega
      rw [← heq2, ← advance_add, hback] at h1
      have h2 : i + 1 + (L.my_size - j) = (i + (L.my_size - j)) + 1 := by omega
      rw [h2] at h1
      exact hne (i + (L.my_size - j)) (by omega) h1.symm
    refine List.Nodup.map_on ?_ (List.nodup_range _)
    intro i hi j hj heq
    rw [List.mem_range] at hi hj
    rcases Nat.lt_trichotomy i j with hlt | heq2 | hgt
    · exact (haux i j hlt hj heq).elim
    · exact heq2
    · exact (haux j i hgt hi heq.symm).elim

/-- Forward iteration over a ring yields the values of its nodes, in order, as soon as
the fuel covers the size. -/
theorem forward_of_isRing {T : Type} (h : Heap T) (L : ListObj) (ns : List Nat)
    (hr : IsRing h L ns) (fuel : Nat) (hfuel : L.my_size ≤ fuel) :
    L.forward h fuel = some (ns.map h.value) := by
  obtain ⟨hnd, hl, hsz⟩ := hr
  exact traverse_linked h ns L.my_end L.my_end fuel hl (List.nodup_cons.mp hnd).1
    (by rw [← hsz]; exact hfuel)

/-- The `i`-th position of a ring, counted from `begin()`: a value node, or the sentinel
for `i = size()`. -/
theorem position_of_isRing {T : Type} (h : Heap T) (L : ListObj) (ns : List Nat)
    (hr : IsRing h L ns) (i : Nat) (hi : i ≤ L.my_size) :
    (ns.drop i ++ [L.my_end]).head? = some (advance h (L.begin h) i).my_node := by
  obtain ⟨hnd, hl, hsz⟩ := hr
  rw [hsz] at hi
  have h1 := advance_linked h ns L.my_end L.my_end (i + 1) hl (by omega)
  rw [List.getElem?_cons_succ] at h1
  have h2 : advance h (L.begin h) i = advance h { my_node := L.my_end } (i + 1) := rfl
  rw [h2, ← h1]
  rcases Nat.lt_or_ge i ns.length with hlt | hge
  · rw [List.getElem?_append_left hlt, List.head?_append_of_ne_nil]
    · rw [List.head?_drop]
    · intro hc
      have := congrArg List.length hc
      simp at this
      omega
  · have hieq : i = ns.length := by omega
    subst hieq
    simp

/-! ### What `insert` and `erase` do to the heap -/

/-- The handle only touches the storage it points to. -/
theorem allocate_heap {T : Type} (a : StackAllocator) (sz al : Nat) (h : Heap T) (n : Nat) :
    (a.allocate sz al h n).1.my_next = h.my_next ∧
    (a.allocate sz al h n).1.my_prev = h.my_prev ∧
    (a.allocate sz al h n).1.value = h.value ∧
    (a.allocate sz al h n).1.destroyed = h.destroyed := by
  unfold StackAllocator.allocate
  split
  · exact ⟨rfl, rfl, rfl, rfl⟩
  · dsimp only
    split <;> exact ⟨rfl, rfl, rfl, rfl⟩

theorem advance_congr {T : Type} (h h1 : Heap T) (hn : h1.my_next = h.my_next) (n : Nat) :
    ∀ it, advance h1 it n = advance h it n := by
  induction n with
  | zero => intro it; rfl
  | succ n ih =>
    intro it
    show advance h1 (it.inc h1) n = advance h (it.inc h) n
    rw [ih]
    simp only [BasicIterator.inc, hn]

theorem wellFormed_congr {T : Type} (h h1 : Heap T) (L : ListObj)
    (hn : h1.my_next = h.my_next) (hp : h1.my_prev = h.my_prev) (hwf : WellFormed h L) :
    WellFormed h1 L := by
  unfold WellFormed at hwf ⊢
  simp only [advance_congr h h1 hn, hn, hp]
  exact hwf

theorem traverse_congr {T : Type} (h h1 : Heap T) (hn : h1.my_next = h.my_next)
    (hv : h1.value = h.value) (stop : BasicIterator) (fuel : Nat) :
    ∀ it, traverse h1 stop fuel it = traverse h stop fuel it := by
  induction fuel with
  | zero => intro it; rfl
  | succ fuel ih =>
    intro it
    simp only [traverse, ih, BasicIterator.inc, BasicIterator.deref, hn, hv]

theorem forward_congr {T : Type} (h h1 : Heap T) (hn : h1.my_next = h.my_next)
    (hv : h1.value = h.value) (L : ListObj) (fuel : Nat) :
    L.forward h1 fuel = L.forward h fuel := by
  unfold ListObj.forward ListObj.begin
  rw [traverse_congr h h1 hn hv]
  simp only [BasicIterator.inc, hn]

/-- When the node allocation fails, `insert` raises what the allocation raised and
changes neither the list nor any link or value. -/
theorem insert_of_allocate_error {T : Type} (lay : NodeLayout) (h : Heap T) (L : ListObj)
    (it : BasicIterator) (arg : Option T) (err : Raised)
    (ha : (L.my_node_allocator.allocate lay.sizeof_Node lay.alignof_Node h 1).2 = .error err) :
    L.insert lay h it arg =
      ((L.my_node_allocator.allocate lay.sizeof_Node lay.alignof_Node h 1).1, L, .error err) := by
  unfold ListObj.insert
  generalize L.my_node_allocator.allocate lay.sizeof_Node lay.alignof_Node h 1 = r at ha ⊢
  obtain ⟨h1, res⟩ := r
  simp only at ha
  subst ha
  rfl

/-- When the node allocation succeeds and the element is constructed, `insert` links
the new node `ptr` in front of `it` (provided `ptr` is not `it` itself). -/
theorem insert_of_allocate_ok {T : Type} (lay : NodeLayout) (h : Heap T) (L : ListObj)
    (it : BasicIterator) (v : T) (ptr : Nat)
    (ha : (L.my_node_allocator.allocate lay.sizeof_Node lay.alignof_Node h 1).2 = .ok ptr)
    (hne : ptr ≠ it.my_node) :
    (L.insert lay h it (some v)).2.2 = .ok { my_node := ptr } ∧
    (L.insert lay h it (some v)).2.1 = { L with my_size := (L.my_size + 1) % SIZE_MOD } ∧
    (∀ x, (L.insert lay h it (some v)).1.my_next x =
      if x = h.my_prev it.my_node then ptr else if x = ptr then it.my_node else h.my_next x) ∧
    (∀ x, (L.insert lay h it (some v)).1.my_prev x =
      if x = it.my_node then ptr else if x = ptr then h.my_prev it.my_node else h.my_prev x) ∧
    (L.insert lay h it (some v)).1.value = upd h.value ptr v ∧
    (L.insert lay h it (some v)).1.destroyed = h.destroyed ∧
    (L.insert lay h it (some v)).1.storage =
      (L.my_node_allocator.allocate lay.sizeof_Node lay.alignof_Node h 1).1.storage := by
  have hh := allocate_heap L.my_node_allocator lay.sizeof_Node lay.alignof_Node h 1
  unfold ListObj.insert
  generalize L.my_node_allocator.allocate lay.sizeof_Node lay.alignof_Node h 1 = r at ha hh ⊢
  obtain ⟨h1, res⟩ := r
  simp only at ha hh
  subst ha
  obtain ⟨hn, hp, hv, hd⟩ := hh
  have hne2 : it.my_node ≠ ptr := fun hc => hne hc.symm
  refine ⟨rfl, rfl, ?_, ?_, ?_, ?_, rfl⟩
  · intro x
    simp only [upd, hne2, if_false, hn, hp]
    by_cases hx1 : x = h.my_prev it.my_node
    · simp [hx1]
    · by_cases hx2 : x = ptr <;> simp [hx1, hx2]
  · intro x
    simp only [upd, hne2, if_false, hn, hp]
    by_cases hx1 : x = it.my_node
    · simp [hx1]
    · by_cases hx2 : x = ptr <;> simp [hx1, hx2]
  · simp only [hv]
  · simp only [hd]

/-- When the node allocation succeeds and the constructor of the element throws,
`insert` raises, leaves the list object alone, and has only written the links of the
region `ptr` it obtained. -/
theorem insert_of_construct_error {T : Type} (lay : NodeLayout) (h : Heap T) (L : ListObj)
    (it : BasicIterator) (ptr : Nat)
    (ha : (L.my_node_allocator.allocate lay.sizeof_Node lay.alignof_Node h 1).2 = .ok ptr) :
    (L.insert lay h it (none : Option T)).2.2 = .error .construct_failed ∧
    (L.insert lay h it (none : Option T)).2.1 = L ∧
    (L.insert lay h it (none : Option T)).1.my_next = upd h.my_next ptr ptr ∧
    (L.insert lay h it (none : Option T)).1.my_prev = upd h.my_prev ptr ptr ∧
    (L.insert lay h it (none : Option T)).1.value = h.value ∧
    (L.insert lay h it (none : Option T)).1.destroyed = h.destroyed ∧
    (L.insert lay h it (none : Option T)).1.storage =
      (L.my_node_allocator.allocate lay.sizeof_Node lay.alignof_Node h 1).1.storage := by
  have hh := allocate_heap L.my_node_allocator lay.sizeof_Node lay.alignof_Node h 1
  unfold ListObj.insert
  generalize L.my_node_allocator.allocate lay.sizeof_Node lay.alignof_Node h 1 = r at ha hh ⊢
  obtain ⟨h1, res⟩ := r
  simp only at ha hh
  subst ha
  obtain ⟨hn, hp, hv, hd⟩ := hh
  refine ⟨rfl, rfl, ?_, ?_, ?_, ?_, rfl⟩
  · simp only [StackAllocator.deallocate, hn]
  · simp only [StackAllocator.deallocate, hp]
  · simp only [StackAllocator.deallocate, hv]
  · simp only [StackAllocator.deallocate, hd]

/-- What `erase` does: it unlinks the node, records its destruction, decrements the size
and returns the successor the node had. -/
theorem erase_eq {T : Type} (h : Heap T) (L : ListObj) (it : BasicIterator) :
    (L.erase h it).2.2 = { my_node := h.my_next it.my_node } ∧
    (L.erase h it).2.1 = { L with my_size := (L.my_size + SIZE_MOD - 1) % SIZE_MOD } ∧
    (∀ y, (L.erase h it).1.my_next y =
      if y = h.my_prev it.my_node then h.my_next it.my_node else h.my_next y) ∧
    (∀ y, (L.erase h it).1.my_prev y =
      if y = h.my_next it.my_node then h.my_prev it.my_node else h.my_prev y) ∧
    (L.erase h it).1.value = h.value ∧
    (L.erase h it).1.destroyed = it.my_node :: h.destroyed ∧
    (L.erase h it).1.storage = h.storage := by
  refine ⟨?_, rfl, fun y => rfl, fun y => rfl, rfl, rfl, rfl⟩
  simp only [ListObj.erase, upd]
  split <;> rfl

/-! ### `insert` and `erase` on a ring -/

theorem map_upd_of_not_mem {T : Type} (f : Nat → T) (p : Nat) (v : T) (l : List Nat)
    (hp : p ∉ l) : l.map (upd f p v) = l.map f := by
  apply List.map_congr_left
  intro x hx
  have : x ≠ p := fun hc => hp (hc ▸ hx)
  simp [upd, this]

/-- The node before which `insert` links lies on the ring. -/
theorem head_mem_ring (e pos : Nat) (l1 l2 : List Nat)
    (hpos : (l2 ++ [e]).head? = some pos) : pos ∈ e :: (l1 ++ l2) := by
  cases l2 with
  | nil =>
    simp only [List.nil_append, List.head?_cons, Option.some.injEq] at hpos
    simp [hpos]
  | cons n l2 =>
    simp only [List.cons_append, List.head?_cons, Option.some.injEq] at hpos
    simp [hpos]

/-- A successful `insert` in front of the node `pos` of a ring, with a node region `ptr`
that is not on the ring: the ring gains `ptr` in front of `pos`, with value `v`. -/
theorem insert_isRing {T : Type} (lay : NodeLayout) (h : Heap T) (L : ListObj)
    (l1 l2 : List Nat) (pos : BasicIterator) (v : T) (ptr : Nat)
    (hr : IsRing h L (l1 ++ l2)) (hpos : (l2 ++ [L.my_end]).head? = some pos.my_node)
    (hsz : L.my_size + 1 < SIZE_MOD)
    (ha : (L.my_node_allocator.allocate lay.sizeof_Node lay.alignof_Node h 1).2 = .ok ptr)
    (hfresh : ptr ∉ L.my_end :: (l1 ++ l2)) :
    (L.insert lay h pos (some v)).2.2 = .ok { my_node := ptr } ∧
    IsRing (L.insert lay h pos (some v)).1 (L.insert lay h pos (some v)).2.1
      (l1 ++ ptr :: l2) ∧
    (L.insert lay h pos (some v)).2.1 = { L with my_size := L.my_size + 1 } ∧
    (L.insert lay h pos (some v)).1.value = upd h.value ptr v := by
  have hmem := head_mem_ring L.my_end pos.my_node l1 l2 hpos
  have hne : ptr ≠ pos.my_node := fun hc => hfresh (hc ▸ hmem)
  obtain ⟨hres, hL, hn, hp, hv, _, _⟩ := insert_of_allocate_ok lay h L pos v ptr ha hne
  obtain ⟨hnd, hl, hlen⟩ := hr
  have hL2 : (L.insert lay h pos (some v)).2.1 = { L with my_size := L.my_size + 1 } := by
    rw [hL, Nat.mod_eq_of_lt hsz]
  refine ⟨hres, ⟨?_, ?_, ?_⟩, hL2, hv⟩
  · rw [hL2]
    show (L.my_end :: (l1 ++ ptr :: l2)).Nodup
    have hperm : (ptr :: L.my_end :: (l1 ++ l2)).Perm (L.my_end :: (l1 ++ ptr :: l2)) := by
      refine (List.Perm.swap _ _ _).trans (List.Perm.cons _ ?_)
      exact List.perm_middle.symm
    exact hperm.nodup_iff.mp (List.nodup_cons.mpr ⟨hfresh, hnd⟩)
  · rw [hL2]
    exact Linked_insert h _ L.my_end pos.my_node ptr l1 l2 hpos
      (List.nodup_cons.mpr ⟨hfresh, hnd⟩) hl hn hp
  · rw [hL2]
    show L.my_size + 1 = (l1 ++ ptr :: l2).length
    rw [hlen]
    simp only [List.length_append, List.length_cons]
    omega

/-- A failed `insert` leaves a ring as it is, provided a region it may have obtained is
not on the ring. -/
theorem insert_error_isRing {T : Type} (lay : NodeLayout) (h : Heap T) (L : ListObj)
    (ns : List Nat) (pos : BasicIterator) (arg : Option T) (err : Raised)
    (hr : IsRing h L ns)
    (hfresh : ∀ ptr,
      (L.my_node_allocator.allocate lay.sizeof_Node lay.alignof_Node h 1).2 = .ok ptr →
      ptr ∉ L.my_end :: ns)
    (hins : (L.insert lay h pos arg).2.2 = .error err) :
    (L.insert lay h pos arg).2.1 = L ∧ IsRing (L.insert lay h pos arg).1 L ns ∧
    (L.insert lay h pos arg).1.value = h.value := by
  obtain ⟨hnd, hl, hlen⟩ := hr
  cases hres : (L.my_node_allocator.allocate lay.sizeof_Node lay.alignof_Node h 1).2 with
  | error e2 =>
    have hh := allocate_heap L.my_node_allocator lay.sizeof_Node lay.alignof_Node h 1
    rw [insert_of_allocate_error lay h L pos arg e2 hres]
    refine ⟨rfl, ⟨hnd, ?_, hlen⟩, hh.2.2.1⟩
    exact Linked_frame h _ ns L.my_end L.my_end (fun x _ => by rw [hh.1])
      (fun y _ => by rw [hh.2.1]) hl
  | ok ptr =>
    have hf := hfresh ptr hres
    cases arg with
    | some v =>
      exfalso
      unfold ListObj.insert at hins
      generalize L.my_node_allocator.allocate lay.sizeof_Node lay.alignof_Node h 1 = r
        at hres hins
      obtain ⟨h1, res⟩ := r
      simp only at hres
      subst hres
      simp at hins
    | none =>
      obtain ⟨_, hL, hn, hp, hv, _, _⟩ := insert_of_construct_error lay h L pos ptr hres
      refine ⟨hL, ⟨hnd, ?_, hlen⟩, hv⟩
      refine Linked_frame h _ ns L.my_end L.my_end ?_ ?_ hl
      · intro x hx
        have : x ≠ ptr := fun hc => hf (hc ▸ hx)
        rw [hn]
        simp [upd, this]
      · intro y hy
        have : y ≠ ptr := by
          intro hc
          apply hf
          rw [← hc]
          simp only [List.mem_append, List.mem_singleton] at hy
          rcases hy with hy | hy
          · exact List.mem_cons_of_mem _ hy
          · rw [hy]; exact List.mem_cons_self _ _
        rw [hp]
        simp [upd, this]

/-- An `erase` of the value node `x` of a ring: the ring loses `x`, the values of the other
nodes stay, and the iterator returned points to the successor `x` had. -/
theorem erase_isRing {T : Type} (h : Heap T) (L : ListObj) (l1 l2 : List Nat) (x : Nat)
    (hr : IsRing h L (l1 ++ x :: l2)) (hsz : L.my_size < SIZE_MOD) :
    IsRing (L.erase h { my_node := x }).1 (L.erase h { my_node := x }).2.1 (l1 ++ l2) ∧
    (L.erase h { my_node := x }).2.1.my_size + 1 = L.my_size ∧
    (L.erase h { my_node := x }).2.1.my_end = L.my_end ∧
    (L.erase h { my_node := x }).1.value = h.value ∧
    (l2 ++ [L.my_end]).head? = some (L.erase h { my_node := x }).2.2.my_node := by
  obtain ⟨hit, hL, hn, hp, hv, _, _⟩ := erase_eq h L { my_node := x }
  obtain ⟨hnd, hl, hlen⟩ := hr
  have hpos : 0 < L.my_size := by
    rw [hlen]
    simp
  have hsize : (L.my_size + SIZE_MOD - 1) % SIZE_MOD = L.my_size - 1 := by
    have h1 : L.my_size + SIZE_MOD - 1 = (L.my_size - 1) + SIZE_MOD := by
      simp only [SIZE_MOD] at *
      omega
    rw [h1, Nat.add_mod_right]
    apply Nat.mod_eq_of_lt
    omega
  rw [hsize] at hL
  refine ⟨⟨?_, ?_, ?_⟩, ?_, ?_, hv, ?_⟩
  · rw [hL]
    show (L.my_end :: (l1 ++ l2)).Nodup
    have hsub : (L.my_end :: (l1 ++ l2)).Sublist (L.my_end :: (l1 ++ x :: l2)) :=
      List.Sublist.cons₂ _ (List.Sublist.append (List.Sublist.refl _)
        (List.sublist_cons_self _ _))
    exact hnd.sublist hsub
  · rw [hL]
    exact Linked_erase h _ L.my_end x l1 l2 hnd hl hn hp
  · rw [hL]
    show L.my_size - 1 = (l1 ++ l2).length
    rw [hlen]
    simp only [List.length_append, List.length_cons]
    omega
  · rw [hL]
    show L.my_size - 1 + 1 = L.my_size
    omega
  · rw [hL]
  · rw [hit]
    exact (Linked_at h L.my_end x l1 l2 hl).1

/-- A successful `insert` has obtained its node from the handle and built the element. -/
theorem insert_ok_inv {T : Type} (lay : NodeLayout) (h : Heap T) (L : ListObj)
    (pos : BasicIterator) (arg : Option T) (it : BasicIterator)
    (hins : (L.insert lay h pos arg).2.2 = .ok it) :
    (L.my_node_allocator.allocate lay.sizeof_Node lay.alignof_Node h 1).2 = .ok it.my_node ∧
    ∃ v, arg = some v := by
  unfold ListObj.insert at hins
  generalize L.my_node_allocator.allocate lay.sizeof_Node lay.alignof_Node h 1 = r at hins ⊢
  obtain ⟨h1, res⟩ := r
  cases res with
  | error e => simp at hins
  | ok ptr =>
    cases arg with
    | none => simp at hins
    | some v =>
      simp only [Except.ok.injEq] at hins
      subst hins
      exact ⟨rfl, v, rfl⟩

/-- A node that no step from the sentinel reaches is not on the ring. -/
theorem not_mem_ring_of_advance_ne {T : Type} (h : Heap T) (L : ListObj) (p : Nat)
    (hfresh : ∀ j, j ≤ L.my_size → (advance h L.it_end j).my_node ≠ p) :
    p ∉ L.my_end ::
      (List.range L.my_size).map (fun j => (advance h L.it_end (j + 1)).my_node) := by
  intro hmem
  rcases List.mem_cons.mp hmem with hc | hc
  · exact hfresh 0 (Nat.zero_le _) hc.symm
  · rw [List.mem_map] at hc
    obtain ⟨j, hj, hje⟩ := hc
    rw [List.mem_range] at hj
    exact hfresh (j + 1) hj hje

/-- The postcondition of a successful `insert` at index `i` of a ring. -/
theorem insert_at_index {T : Type} (lay : NodeLayout) (h : Heap T) (L : ListObj)
    (ns : List Nat) (i : Nat) (v : T) (ptr : Nat)
    (hr : IsRing h L ns) (hi : i ≤ L.my_size) (hsz : L.my_size + 1 < SIZE_MOD)
    (ha : (L.my_node_allocator.allocate lay.sizeof_Node lay.alignof_Node h 1).2 = .ok ptr)
    (hfresh : ptr ∉ L.my_end :: ns) :
    (L.insert lay h (advance h (L.begin h) i) (some v)).2.2 = .ok { my_node := ptr } ∧
    IsRing (L.insert lay h (advance h (L.begin h) i) (some v)).1
      (L.insert lay h (advance h (L.begin h) i) (some v)).2.1
      (ns.take i ++ ptr :: ns.drop i) ∧
    (L.insert lay h (advance h (L.begin h) i) (some v)).2.1 =
      { L with my_size := L.my_size + 1 } ∧
    (L.insert lay h (advance h (L.begin h) i) (some v)).1.value = upd h.value ptr v ∧
    (∀ fuel, L.my_size + 1 ≤ fuel →
      (L.insert lay h (advance h (L.begin h) i) (some v)).2.1.forward
        (L.insert lay h (advance h (L.begin h) i) (some v)).1 fuel =
        some ((ns.map h.value).take i ++ v :: (ns.map h.value).drop i)) := by
  have hpos := position_of_isRing h L ns hr i hi
  have hsplit := List.take_append_drop i ns
  have hr2 : IsRing h L (ns.take i ++ ns.drop i) := by rw [hsplit]; exact hr
  have hfresh2 : ptr ∉ L.my_end :: (ns.take i ++ ns.drop i) := by rw [hsplit]; exact hfresh
  obtain ⟨h1, h2, h3, h4⟩ := insert_isRing lay h L (ns.take i) (ns.drop i)
    (advance h (L.begin h) i) v ptr hr2 hpos hsz ha hfresh2
  refine ⟨h1, h2, h3, h4, ?_⟩
  intro fuel hfuel
  have hf := forward_of_isRing _ _ _ h2 fuel (by rw [h3]; exact hfuel)
  rw [hf, h4]
  have hp1 : ptr ∉ ns.take i := fun hc => hfresh (List.mem_cons_of_mem _ (List.mem_of_mem_take hc))
  have hp2 : ptr ∉ ns.drop i := fun hc => hfresh (List.mem_cons_of_mem _ (List.mem_of_mem_drop hc))
  rw [List.map_append, List.map_cons, map_upd_of_not_mem _ _ _ _ hp1,
    map_upd_of_not_mem _ _ _ _ hp2, List.map_take, List.map_drop]
  simp [upd]

/-- The postcondition of `erase` at index `i` of a ring. -/
theorem erase_at_index {T : Type} (h : Heap T) (L : ListObj) (ns : List Nat) (i : Nat)
    (hr : IsRing h L ns) (hi : i < L.my_size) (hsz : L.my_size < SIZE_MOD) :
    IsRing (L.erase h (advance h (L.begin h) i)).1 (L.erase h (advance h (L.begin h) i)).2.1
      (ns.take i ++ ns.drop (i + 1)) ∧
    (L.erase h (advance h (L.begin h) i)).2.1.my_size + 1 = L.my_size ∧
    (L.erase h (advance h (L.begin h) i)).2.1.my_end = L.my_end ∧
    (L.erase h (advance h (L.begin h) i)).1.value = h.value ∧
    (ns.drop (i + 1) ++ [L.my_end]).head? =
      some (L.erase h (advance h (L.begin h) i)).2.2.my_node ∧
    (L.erase h (advance h (L.begin h) i)).2.2 = advance h (L.begin h) (i + 1) := by
  have hlen := hr.2.2
  have hilt : i < ns.length := by rw [← hlen]; exact hi
  have hpos := position_of_isRing h L ns hr i (Nat.le_of_lt hi)
  have hdrop : ns.drop i = ns[i] :: ns.drop (i + 1) := List.drop_eq_getElem_cons hilt
  rw [hdrop] at hpos
  simp only [List.cons_append, List.head?_cons, Option.some.injEq] at hpos
  have hsplit : ns.take i ++ ns[i] :: ns.drop (i + 1) = ns := by
    rw [← hdrop]
    exact List.take_append_drop i ns
  have hr2 : IsRing h L (ns.take i ++ ns[i] :: ns.drop (i + 1)) := by rw [hsplit]; exact hr
  have hit : advance h (L.begin h) i = { my_node := ns[i] } := by
    rw [iterator_eq_iff]
    exact hpos.symm
  obtain ⟨h1, h2, h3, h4, h5⟩ := erase_isRing h L (ns.take i) (ns.drop (i + 1)) ns[i] hr2 hsz
  rw [hit]
  refine ⟨h1, h2, h3, h4, h5, ?_⟩
  rw [(erase_eq h L { my_node := ns[i] }).1, advance_succ, hit]
  rfl

/-! ### Well-formedness is kept -/

theorem end_eq_advance {T : Type} (h : Heap T) (L : ListObj) (hwf : WellFormed h L) :
    L.it_end = advance h (L.begin h) L.my_size := hwf.1.symm

theorem prev_end_eq_advance {T : Type} (h : Heap T) (L : ListObj) (hwf : WellFormed h L)
    (hpos : 0 < L.my_size) : L.it_end.dec h = advance h (L.begin h) (L.my_size - 1) := by
  have hr := isRing_of_wellFormed h L hwf
  have hp := advance_prev_linked h _ L.my_end L.my_end L.my_size hr.2.1 (by simp)
  rw [show ({ my_node := L.my_end } : BasicIterator) = L.it_end from rfl, hwf.1] at hp
  rw [iterator_eq_iff]
  show h.my_prev L.my_end = _
  rw [show L.it_end.my_node = L.my_end from rfl] at hp
  rw [hp]
  have : L.my_size = (L.my_size - 1) + 1 := by omega
  rw [this]
  rfl

/-- An `insert` at a position of a well-formed list keeps it well-formed, whatever the
outcome, provided a node region it obtains is not on the ring. -/
theorem insert_wellFormed {T : Type} (lay : NodeLayout) (h : Heap T) (L : ListObj)
    (i : Nat) (arg : Option T) (hwf : WellFormed h L) (hi : i ≤ L.my_size)
    (hsz : L.my_size + 1 < SIZE_MOD)
    (hfresh : ∀ ptr,
      (L.my_node_allocator.allocate lay.sizeof_Node lay.alignof_Node h 1).2 = .ok ptr →
      ∀ j, j ≤ L.my_size → (advance h L.it_end j).my_node ≠ ptr) :
    WellFormed (L.insert lay h (advance h (L.begin h) i) arg).1
      (L.insert lay h (advance h (L.begin h) i) arg).2.1 := by
  have hr := isRing_of_wellFormed h L hwf
  have hfresh2 : ∀ ptr,
      (L.my_node_allocator.allocate lay.sizeof_Node lay.alignof_Node h 1).2 = .ok ptr →
      ptr ∉ L.my_end ::
        (List.range L.my_size).map (fun j => (advance h L.it_end (j + 1)).my_node) :=
    fun ptr ha => not_mem_ring_of_advance_ne h L ptr (hfresh ptr ha)
  cases hres : (L.insert lay h (advance h (L.begin h) i) arg).2.2 with
  | ok it =>
    obtain ⟨ha, v, hv⟩ := insert_ok_inv lay h L _ arg it hres
    subst hv
    obtain ⟨_, r2, _⟩ := insert_at_index lay h L _ i v it.my_node hr hi hsz ha
      (hfresh2 _ ha)
    exact wellFormed_of_isRing _ _ _ r2
  | error err =>
    obtain ⟨r1, r2, _⟩ := insert_error_isRing lay h L _ _ arg err hr hfresh2 hres
    rw [r1]
    exact wellFormed_of_isRing _ _ _ r2

/-- An `erase` of a value node of a well-formed list keeps it well-formed. -/
theorem erase_wellFormed {T : Type} (h : Heap T) (L : ListObj) (i : Nat)
    (hwf : WellFormed h L) (hi : i < L.my_size) (hsz : L.my_size < SIZE_MOD) :
    WellFormed (L.erase h (advance h (L.begin h) i)).1
      (L.erase h (advance h (L.begin h) i)).2.1 :=
  wellFormed_of_isRing _ _ _
    (erase_at_index h L _ i (isRing_of_wellFormed h L hwf) hi hsz).1

theorem create_isRing {T : Type} (h : Heap T) (e : Nat) (alloc : StackAllocator) :
    IsRing (ListObj.create h e alloc).1 (ListObj.create h e alloc).2 [] := by
  refine ⟨by simp, ?_, rfl⟩
  simp [Linked, ListObj.create, upd]

/-! ### The list on its arena -/

/-- The handle forwards to the storage it points to. -/
theorem handle_allocate_eq {T : Type} (a : StackAllocator) (sid sz al : Nat) (h : Heap T)
    (n : Nat) (hs : a.my_storage = some sid) :
    (a.allocate sz al h n).1.storage =
      upd h.storage sid ((h.storage sid).allocate ((n * sz) % SIZE_MOD) al).1 ∧
    (a.allocate sz al h n).2 =
      match ((h.storage sid).allocate ((n * sz) % SIZE_MOD) al).2 with
      | none => .error .bad_alloc
      | some p => .ok p := by
  unfold StackAllocator.allocate
  rw [hs]
  dsimp only
  split <;> exact ⟨rfl, rfl⟩

/-- A node allocation that fits and does not wrap around succeeds, at the aligned
cursor. -/
theorem node_allocate_ok {T : Type} (lay : NodeLayout) (h : Heap T) (a : StackAllocator)
    (sid : Nat) (hs : a.my_storage = some sid)
    (hcap : (h.storage sid).base + (h.storage sid).N < SIZE_MOD)
    (hw : alignUp (h.storage sid).my_used lay.alignof_Node + lay.sizeof_Node < SIZE_MOD)
    (hfit : alignUp (h.storage sid).my_used lay.alignof_Node + lay.sizeof_Node
      ≤ (h.storage sid).base + (h.storage sid).N) :
    (a.allocate lay.sizeof_Node lay.alignof_Node h 1).2 =
      .ok (alignUp (h.storage sid).my_used lay.alignof_Node) ∧
    (a.allocate lay.sizeof_Node lay.alignof_Node h 1).1.storage =
      upd h.storage sid { (h.storage sid) with
        my_used := alignUp (h.storage sid).my_used lay.alignof_Node + lay.sizeof_Node } := by
  obtain ⟨h1, h2⟩ := handle_allocate_eq a sid lay.sizeof_Node lay.alignof_Node h 1 hs
  have hmod : (1 * lay.sizeof_Node) % SIZE_MOD = lay.sizeof_Node := by
    rw [Nat.one_mul]
    exact Nat.mod_eq_of_lt (by omega)
  rw [hmod] at h1 h2
  rw [allocate_eq_of_placement_lt _ _ _ hcap hw, if_neg (by omega)] at h1 h2
  exact ⟨h2, h1⟩

/-- A node allocation that does not fit and does not wrap around raises `bad_alloc`. -/
theorem node_allocate_bad_alloc {T : Type} (lay : NodeLayout) (h : Heap T)
    (a : StackAllocator) (sid : Nat) (hs : a.my_storage = some sid)
    (hcap : (h.storage sid).base + (h.storage sid).N < SIZE_MOD)
    (hw : alignUp (h.storage sid).my_used lay.alignof_Node + lay.sizeof_Node < SIZE_MOD)
    (hfit : alignUp (h.storage sid).my_used lay.alignof_Node + lay.sizeof_Node
      > (h.storage sid).base + (h.storage sid).N) :
    (a.allocate lay.sizeof_Node lay.alignof_Node h 1).2 = .error .bad_alloc := by
  obtain ⟨_, h2⟩ := handle_allocate_eq a sid lay.sizeof_Node lay.alignof_Node h 1 hs
  have hmod : (1 * lay.sizeof_Node) % SIZE_MOD = lay.sizeof_Node := by
    rw [Nat.one_mul]
    exact Nat.mod_eq_of_lt (by omega)
  rw [hmod] at h2
  rw [allocate_eq_of_placement_lt _ _ _ hcap hw, if_pos hfit] at h2
  exact h2

/-- A successful node allocation without wrap-around returned the aligned cursor, and
the region fits. -/
theorem node_allocate_ok_inv {T : Type} (lay : NodeLayout) (h : Heap T) (a : StackAllocator)
    (sid ptr : Nat) (hs : a.my_storage = some sid)
    (hcap : (h.storage sid).base + (h.storage sid).N < SIZE_MOD)
    (hw : alignUp (h.storage sid).my_used lay.alignof_Node + lay.sizeof_Node < SIZE_MOD)
    (ha : (a.allocate lay.sizeof_Node lay.alignof_Node h 1).2 = .ok ptr) :
    ptr = alignUp (h.storage sid).my_used lay.alignof_Node ∧
    alignUp (h.storage sid).my_used lay.alignof_Node + lay.sizeof_Node
      ≤ (h.storage sid).base + (h.storage sid).N := by
  by_cases hfit : alignUp (h.storage sid).my_used lay.alignof_Node + lay.sizeof_Node
      ≤ (h.storage sid).base + (h.storage sid).N
  · have := (node_allocate_ok lay h a sid hs hcap hw hfit).1
    rw [this] at ha
    exact ⟨(Except.ok.inj ha).symm, hfit⟩
  · have := node_allocate_bad_alloc lay h a sid hs hcap hw (by omega)
    rw [this] at ha
    cases ha

/-- Why a node region is new: when the nodes at hand lie outside the unallocated part
of the arena and the placement does not wrap around, a successful node allocation
returns an address that is none of them. -/
theorem allocate_fresh_of_outsideFree {T : Type} (lay : NodeLayout) (h : Heap T)
    (a : StackAllocator) (sid ptr : Nat) (nodes : List Nat) (hs : a.my_storage = some sid)
    (hcap : (h.storage sid).base + (h.storage sid).N < SIZE_MOD)
    (hw : alignUp (h.storage sid).my_used lay.alignof_Node + lay.sizeof_Node < SIZE_MOD)
    (hpos : 0 < lay.sizeof_Node) (hout : OutsideFree (h.storage sid) nodes)
    (ha : (a.allocate lay.sizeof_Node lay.alignof_Node h 1).2 = .ok ptr) :
    ptr ∉ nodes := by
  obtain ⟨hp, hfit⟩ := node_allocate_ok_inv lay h a sid ptr hs hcap hw ha
  have hge := alignUp_ge (h.storage sid).my_used lay.alignof_Node
  intro hmem
  have := hout ptr hmem
  omega

/-- A `push_back` on a ring whose nodes lie outside the unallocated part of the arena,
when the node fits and nothing wraps around: the node is placed at the aligned cursor
and appended to the ring, and the ring still lies outside the unallocated part. -/
theorem push_back_on_arena {T : Type} (lay : NodeLayout) (h : Heap T) (L : ListObj)
    (sid : Nat) (ns : List Nat) (v : T)
    (hr : IsRing h L ns) (hs : L.my_node_allocator.my_storage = some sid)
    (hcap : (h.storage sid).base + (h.storage sid).N < SIZE_MOD)
    (hw : alignUp (h.storage sid).my_used lay.alignof_Node + lay.sizeof_Node < SIZE_MOD)
    (hpos : 0 < lay.sizeof_Node)
    (hout : OutsideFree (h.storage sid) (L.my_end :: ns))
    (hsz : L.my_size + 1 < SIZE_MOD)
    (hfit : alignUp (h.storage sid).my_used lay.alignof_Node + lay.sizeof_Node
      ≤ (h.storage sid).base + (h.storage sid).N) :
    (L.push_back lay h (some v)).2.2 =
      .ok { my_node := alignUp (h.storage sid).my_used lay.alignof_Node } ∧
    IsRing (L.push_back lay h (some v)).1 (L.push_back lay h (some v)).2.1
      (ns ++ [alignUp (h.storage sid).my_used lay.alignof_Node]) ∧
    (L.push_back lay h (some v)).2.1 = { L with my_size := L.my_size + 1 } ∧
    (L.push_back lay h (some v)).1.value =
      upd h.value (alignUp (h.storage sid).my_used lay.alignof_Node) v ∧
    (L.push_back lay h (some v)).1.storage =
      upd h.storage sid { (h.storage sid) with
        my_used := alignUp (h.storage sid).my_used lay.alignof_Node + lay.sizeof_Node } ∧
    OutsideFree { (h.storage sid) with
        my_used := alignUp (h.storage sid).my_used lay.alignof_Node + lay.sizeof_Node }
      (L.my_end :: (ns ++ [alignUp (h.storage sid).my_used lay.alignof_Node])) := by
  obtain ⟨ha, hst⟩ := node_allocate_ok lay h L.my_node_allocator sid hs hcap hw hfit
  have hge := alignUp_ge (h.storage sid).my_used lay.alignof_Node
  have hfresh : alignUp (h.storage sid).my_used lay.alignof_Node ∉ L.my_end :: (ns ++ []) := by
    rw [List.append_nil]
    intro hmem
    have := hout _ hmem
    omega
  have hr2 : IsRing h L (ns ++ []) := by rw [List.append_nil]; exact hr
  obtain ⟨r1, r2, r3, r4⟩ := insert_isRing lay h L ns [] L.it_end v _ hr2 rfl hsz ha hfresh
  have r5 := (insert_of_allocate_ok lay h L L.it_end v _ ha
    (fun hc => hfresh (by rw [hc]; exact List.mem_cons_self _ _))).2.2.2.2.2.2
  refine ⟨r1, r2, r3, r4, r5.trans hst, ?_⟩
  intro n hn
  show n < alignUp (h.storage sid).my_used lay.alignof_Node + lay.sizeof_Node ∨
    (h.storage sid).base + (h.storage sid).N ≤ n
  simp only [List.mem_cons, List.mem_append, List.mem_singleton, List.not_mem_nil,
    or_false] at hn
  rcases hn with hn | hn | hn
  · have := hout n (by rw [hn]; exact List.mem_cons_self _ _)
    omega
  · have := hout n (List.mem_cons_of_mem _ hn)
    omega
  · omega

/-- Pushing the values `vs` onto a ring that lies outside the unallocated part of its
arena: if every `push_back` succeeds, the ring has gained one node per value, in order.
 -/
theorem push_back_all_on_arena {T : Type} (lay : NodeLayout) (sid : Nat) (vs : List T) :
    ∀ (h : Heap T) (L : ListObj) (ns : List Nat),
    IsRing h L ns → L.my_node_allocator.my_storage = some sid →
    (h.storage sid).base + (h.storage sid).N + lay.alignof_Node + lay.sizeof_Node
      < SIZE_MOD →
    (h.storage sid).my_used ≤ (h.storage sid).base + (h.storage sid).N →
    0 < lay.sizeof_Node →
    OutsideFree (h.storage sid) (L.my_end :: ns) →
    L.my_size + ((h.storage sid).base + (h.storage sid).N - (h.storage sid).my_used)
      < SIZE_MOD →
    (ListObj.push_back_all lay vs h L).2.2 = .ok () →
    ∃ ps, IsRing (ListObj.push_back_all lay vs h L).1 (ListObj.push_back_all lay vs h L).2.1
        (ns ++ ps) ∧
      (ns ++ ps).map (ListObj.push_back_all lay vs h L).1.value = ns.map h.value ++ vs ∧
      (ListObj.push_back_all lay vs h L).2.1.my_size = L.my_size + vs.length := by
  induction vs with
  | nil =>
    intro h L ns hr _ _ _ _ _ _ _
    exact ⟨[], by simpa [ListObj.push_back_all] using hr, by simp [ListObj.push_back_all],
      by simp [ListObj.push_back_all]⟩
  | cons v vs ih =>
    intro h L ns hr hs hstat hc hpos hout hbound hok
    have hcap : (h.storage sid).base + (h.storage sid).N < SIZE_MOD := by omega
    have hw : alignUp (h.storage sid).my_used lay.alignof_Node + lay.sizeof_Node
        < SIZE_MOD := by
      have := alignUp_le_add (h.storage sid).my_used lay.alignof_Node
      omega
    cases hres : (L.push_back lay h (some v)).2.2 with
    | error err =>
      simp only [ListObj.push_back_all, hres] at hok
      cases hok
    | ok it =>
      simp only [ListObj.push_back_all, hres] at hok ⊢
      obtain ⟨ha, _⟩ := insert_ok_inv lay h L L.it_end (some v) it hres
      obtain ⟨_, hfit⟩ := node_allocate_ok_inv lay h L.my_node_allocator sid it.my_node hs
        hcap hw ha
      have hge := alignUp_ge (h.storage sid).my_used lay.alignof_Node
      obtain ⟨_, r2, r3, r4, r5, r6⟩ := push_back_on_arena lay h L sid ns v hr hs hcap hw
        hpos hout (by omega) hfit
      have hst : (L.push_back lay h (some v)).1.storage sid =
          { (h.storage sid) with
            my_used := alignUp (h.storage sid).my_used lay.alignof_Node + lay.sizeof_Node } := by
        rw [r5]
        simp [upd]
      have hnotin : alignUp (h.storage sid).my_used lay.alignof_Node ∉ ns := by
        intro hmem
        have := hout _ (List.mem_cons_of_mem _ hmem)
        omega
      obtain ⟨ps, q1, q2, q3⟩ := ih (L.push_back lay h (some v)).1
        (L.push_back lay h (some v)).2.1
        (ns ++ [alignUp (h.storage sid).my_used lay.alignof_Node]) r2
        (by rw [r3]; exact hs)
        (by rw [hst]; exact hstat)
        (by rw [hst]; exact hfit)
        hpos
        (by rw [hst, r3]; exact r6)
        (by rw [hst, r3]; show L.my_size + 1 + _ < SIZE_MOD; simp only; omega)
        hok
      refine ⟨alignUp (h.storage sid).my_used lay.alignof_Node :: ps, ?_, ?_, ?_⟩
      · rw [List.append_assoc] at q1
        exact q1
      · rw [List.append_assoc] at q2
        rw [show ns ++ alignUp (h.storage sid).my_used lay.alignof_Node :: ps =
          ns ++ ([alignUp (h.storage sid).my_used lay.alignof_Node] ++ ps) from rfl, q2, r4,
          List.map_append, map_upd_of_not_mem _ _ _ _ hnotin]
        simp [upd]
      · rw [q3, r3]
        simp only [List.length_cons]
        omega

/-- Restatement of `push_back_on_arena` with the storage named: `s` is the storage the list draws
from. -/
theorem push_back_fits {T : Type} (lay : NodeLayout) (h : Heap T) (L : ListObj)
    (sid : Nat) (ns : List Nat) (v : T) (s : StackStorage) (hst : h.storage sid = s)
    (hr : IsRing h L ns) (hs : L.my_node_allocator.my_storage = some sid)
    (hcap : s.base + s.N < SIZE_MOD)
    (hw : alignUp s.my_used lay.alignof_Node + lay.sizeof_Node < SIZE_MOD)
    (hpos : 0 < lay.sizeof_Node) (hout : OutsideFree s (L.my_end :: ns))
    (hsz : L.my_size + 1 < SIZE_MOD)
    (hfit : alignUp s.my_used lay.alignof_Node + lay.sizeof_Node ≤ s.base + s.N) :
    (L.push_back lay h (some v)).2.2 = .ok { my_node := alignUp s.my_used lay.alignof_Node } ∧
    IsRing (L.push_back lay h (some v)).1 (L.push_back lay h (some v)).2.1
      (ns ++ [alignUp s.my_used lay.alignof_Node]) ∧
    (L.push_back lay h (some v)).2.1 = { L with my_size := L.my_size + 1 } ∧
    (L.push_back lay h (some v)).1.value = upd h.value (alignUp s.my_used lay.alignof_Node) v ∧
    (L.push_back lay h (some v)).1.storage sid =
      { s with my_used := alignUp s.my_used lay.alignof_Node + lay.sizeof_Node } ∧
    OutsideFree { s with my_used := alignUp s.my_used lay.alignof_Node + lay.sizeof_Node }
      (L.my_end :: (ns ++ [alignUp s.my_used lay.alignof_Node])) := by
  subst hst
  obtain ⟨r1, r2, r3, r4, r5, r6⟩ := push_back_on_arena lay h L sid ns v hr hs hcap hw hpos
    hout hsz hfit
  refine ⟨r1, r2, r3, r4, ?_, r6⟩
  rw [r5]
  simp [upd]

/-- An `insert` whose node does not fit in the arena (nothing wrapping around) raises
`bad_alloc` and changes neither the list object nor any link or value. -/
theorem insert_exhausted {T : Type} (lay : NodeLayout) (h : Heap T) (L : ListObj)
    (sid : Nat) (pos : BasicIterator) (arg : Option T) (s : StackStorage)
    (hst : h.storage sid = s) (hs : L.my_node_allocator.my_storage = some sid)
    (hcap : s.base + s.N < SIZE_MOD)
    (hw : alignUp s.my_used lay.alignof_Node + lay.sizeof_Node < SIZE_MOD)
    (hfit : alignUp s.my_used lay.alignof_Node + lay.sizeof_Node > s.base + s.N) :
    (L.insert lay h pos arg).2.2 = .error .bad_alloc ∧
    (L.insert lay h pos arg).2.1 = L ∧
    (L.insert lay h pos arg).1.my_next = h.my_next ∧
    (L.insert lay h pos arg).1.my_prev = h.my_prev ∧
    (L.insert lay h pos arg).1.value = h.value := by
  subst hst
  have ha := node_allocate_bad_alloc lay h L.my_node_allocator sid hs hcap hw hfit
  have hh := allocate_heap L.my_node_allocator lay.sizeof_Node lay.alignof_Node h 1
  rw [insert_of_allocate_error lay h L pos arg _ ha]
  exact ⟨rfl, rfl, hh.1, hh.2.1, hh.2.2.1⟩

theorem alignUp_of_dvd (c a : Nat) (h : c % a = 0) : alignUp c a = c := by
  unfold alignUp
  rw [if_pos h]

/-- Scenario: an empty list on a fresh 64-byte arena at any address `base` with
`base + 80 ≤ 2^64`, with 24-byte nodes aligned to 8 bytes. The first two `push_back`
calls succeed, the third raises `bad_alloc` and leaves the list with its two elements. -/
theorem three_pushes_on_64_bytes {T : Type} (h0 : Heap T) (base e sid : Nat) (v1 v2 v3 : T)
    (htop : base + 80 ≤ SIZE_MOD) (he : e < base ∨ base + 64 ≤ e)
    (hst : h0.storage sid = StackStorage.init base 64) :
    (∃ it, ((ListObj.create h0 e { my_storage := some sid }).2.push_back
        { sizeof_Node := 24, alignof_Node := 8 }
        (ListObj.create h0 e { my_storage := some sid }).1 (some v1)).2.2 = .ok it) ∧
    (ListObj.push_back_all { sizeof_Node := 24, alignof_Node := 8 } [v1, v2]
        (ListObj.create h0 e { my_storage := some sid }).1
        (ListObj.create h0 e { my_storage := some sid }).2).2.2 = .ok () ∧
    ((ListObj.push_back_all { sizeof_Node := 24, alignof_Node := 8 } [v1, v2]
        (ListObj.create h0 e { my_storage := some sid }).1
        (ListObj.create h0 e { my_storage := some sid }).2).2.1.push_back
      { sizeof_Node := 24, alignof_Node := 8 }
      (ListObj.push_back_all { sizeof_Node := 24, alignof_Node := 8 } [v1, v2]
        (ListObj.create h0 e { my_storage := some sid }).1
        (ListObj.create h0 e { my_storage := some sid }).2).1 (some v3)).2.2
      = .error .bad_alloc ∧
    ((ListObj.push_back_all { sizeof_Node := 24, alignof_Node := 8 } [v1, v2]
        (ListObj.create h0 e { my_storage := some sid }).1
        (ListObj.create h0 e { my_storage := some sid }).2).2.1.push_back
      { sizeof_Node := 24, alignof_Node := 8 }
      (ListObj.push_back_all { sizeof_Node := 24, alignof_Node := 8 } [v1, v2]
        (ListObj.create h0 e { my_storage := some sid }).1
        (ListObj.create h0 e { my_storage := some sid }).2).1 (some v3)).2.1.size = 2 ∧
    (∀ fuel, 2 ≤ fuel →
      ((ListObj.push_back_all { sizeof_Node := 24, alignof_Node := 8 } [v1, v2]
          (ListObj.create h0 e { my_storage := some sid }).1
          (ListObj.create h0 e { my_storage := some sid }).2).2.1.push_back
        { sizeof_Node := 24, alignof_Node := 8 }
        (ListObj.push_back_all { sizeof_Node := 24, alignof_Node := 8 } [v1, v2]
          (ListObj.create h0 e { my_storage := some sid }).1
          (ListObj.create h0 e { my_storage := some sid }).2).1 (some v3)).2.1.forward
        ((ListObj.push_back_all { sizeof_Node := 24, alignof_Node := 8 } [v1, v2]
          (ListObj.create h0 e { my_storage := some sid }).1
          (ListObj.create h0 e { my_storage := some sid }).2).2.1.push_back
        { sizeof_Node := 24, alignof_Node := 8 }
        (ListObj.push_back_all { sizeof_Node := 24, alignof_Node := 8 } [v1, v2]
          (ListObj.create h0 e { my_storage := some sid }).1
          (ListObj.create h0 e { my_storage := some sid }).2).1 (some v3)).1 fuel
        = some [v1, v2]) := by
  have hr0 := create_isRing h0 e { my_storage := some sid }
  have hst0 : (ListObj.create h0 e { my_storage := some sid }).1.storage sid =
      StackStorage.init base 64 := hst
  generalize (ListObj.create h0 e { my_storage := some sid }).1 = hA at hr0 hst0 ⊢
  have hs0 : (ListObj.create h0 e { my_storage := some sid }).2.my_node_allocator.my_storage
      = some sid := rfl
  have he0 : (ListObj.create h0 e { my_storage := some sid }).2.my_end = e := rfl
  have hz0 : (ListObj.create h0 e { my_storage := some sid }).2.my_size = 0 := rfl
  generalize (ListObj.create h0 e { my_storage := some sid }).2 = LA at hr0 hs0 he0 hz0 ⊢
  have hp1a := alignUp_ge base 8
  have hp1b := alignUp_lt base 8 (by norm_num)
  have hp1c : alignUp base 8 % 8 = 0 := Nat.mod_eq_zero_of_dvd (alignUp_dvd base 8 (by norm_num))
  simp only [SIZE_MOD] at htop
  have hp1d : alignUp base 8 ≤ 18446744073709551536 :=
    alignUp_le_of_dvd base 8 18446744073709551536 (by norm_num) (by decide) (by omega)
  -- first push
  obtain ⟨a1, a2, a3, a4, a5, a6⟩ := push_back_fits { sizeof_Node := 24, alignof_Node := 8 }
    hA LA sid [] v1 (StackStorage.init base 64) hst0 hr0 hs0
    (by simp only [StackStorage.init, SIZE_MOD]; omega)
    (by simp only [StackStorage.init, SIZE_MOD]; omega) (by norm_num)
    (by
      intro n hn
      simp only [List.mem_singleton] at hn
      simp only [StackStorage.init]
      omega)
    (by simp only [SIZE_MOD]; omega)
    (by simp only [StackStorage.init]; omega)
  simp only [StackStorage.init] at a1 a2 a4 a5 a6
  have hpush1 : ListObj.push_back_all { sizeof_Node := 24, alignof_Node := 8 } [v1, v2] hA LA =
      ListObj.push_back_all { sizeof_Node := 24, alignof_Node := 8 } [v2]
        (LA.push_back { sizeof_Node := 24, alignof_Node := 8 } hA (some v1)).1
        (LA.push_back { sizeof_Node := 24, alignof_Node := 8 } hA (some v1)).2.1 := by
    simp only [ListObj.push_back_all, a1]
  have hs1 : (LA.push_back { sizeof_Node := 24, alignof_Node := 8 } hA
      (some v1)).2.1.my_node_allocator.my_storage = some sid := by rw [a3]; exact hs0
  have he1 : (LA.push_back { sizeof_Node := 24, alignof_Node := 8 } hA
      (some v1)).2.1.my_end = e := by rw [a3]; exact he0
  have hz1 : (LA.push_back { sizeof_Node := 24, alignof_Node := 8 } hA
      (some v1)).2.1.my_size = 1 := by rw [a3]; simp [hz0]
  refine ⟨⟨_, a1⟩, ?_⟩
  rw [hpush1]
  rw [he0] at a6
  generalize (LA.push_back { sizeof_Node := 24, alignof_Node := 8 } hA (some v1)).1 = hB
    at a2 a4 a5 ⊢
  generalize (LA.push_back { sizeof_Node := 24, alignof_Node := 8 } hA (some v1)).2.1 = LB
    at a2 hs1 he1 hz1 ⊢
  -- second push
  have hal2 : alignUp (alignUp base 8 + 24) 8 = alignUp base 8 + 24 :=
    alignUp_of_dvd _ _ (by omega)
  obtain ⟨b1, b2, b3, b4, b5, b6⟩ := push_back_fits { sizeof_Node := 24, alignof_Node := 8 }
    hB LB sid _ v2 _ a5 a2 hs1
    (by simp only [SIZE_MOD]; omega) (by simp only [SIZE_MOD]; omega) (by norm_num)
    (by rw [he1]; exact a6) (by simp only [SIZE_MOD]; omega)
    (by simp only [hal2]; omega)
  simp only [hal2] at b1 b2 b4 b5 b6
  have hpush2 : ListObj.push_back_all { sizeof_Node := 24, alignof_Node := 8 } [v2] hB LB =
      ((LB.push_back { sizeof_Node := 24, alignof_Node := 8 } hB (some v2)).1,
       (LB.push_back { sizeof_Node := 24, alignof_Node := 8 } hB (some v2)).2.1, .ok ()) := by
    simp only [ListObj.push_back_all, b1]
  have hs2 : (LB.push_back { sizeof_Node := 24, alignof_Node := 8 } hB
      (some v2)).2.1.my_node_allocator.my_storage = some sid := by rw [b3]; exact hs1
  have hz2 : (LB.push_back { sizeof_Node := 24, alignof_Node := 8 } hB
      (some v2)).2.1.my_size = 2 := by rw [b3]; simp [hz1]
  rw [hpush2]
  refine ⟨rfl, ?_⟩
  simp only
  have hne12 : alignUp base 8 + 24 ≠ alignUp base 8 := by omega
  have hvals : List.map (LB.push_back { sizeof_Node := 24, alignof_Node := 8 } hB
      (some v2)).1.value [alignUp base 8, alignUp base 8 + 24] = [v1, v2] := by
    rw [b4, a4]
    simp [upd]
  generalize (LB.push_back { sizeof_Node := 24, alignof_Node := 8 } hB (some v2)).1 = hC
    at b2 b5 hvals ⊢
  generalize (LB.push_back { sizeof_Node := 24, alignof_Node := 8 } hB (some v2)).2.1 = LC
    at b2 hs2 hz2 ⊢
  -- third push
  have hal3 : alignUp (alignUp base 8 + 24 + 24) 8 = alignUp base 8 + 24 + 24 :=
    alignUp_of_dvd _ _ (by omega)
  obtain ⟨c1, c2, c3, _, c5⟩ := insert_exhausted { sizeof_Node := 24, alignof_Node := 8 }
    hC LC sid LC.it_end (some v3) _ b5 hs2
    (by simp only [SIZE_MOD]; omega) (by simp only [SIZE_MOD]; omega)
    (by simp only [hal3]; omega)
  refine ⟨c1, ?_, ?_⟩
  · show (LC.insert _ hC LC.it_end (some v3)).2.1.my_size = 2
    rw [c2]
    exact hz2
  · intro fuel hfuel
    show (LC.insert _ hC LC.it_end (some v3)).2.1.forward
      (LC.insert _ hC LC.it_end (some v3)).1 fuel = some [v1, v2]
    rw [c2, forward_congr hC _ c3 c5 LC fuel,
      forward_of_isRing hC LC _ b2 fuel (by rw [hz2]; exact hfuel)]
    simpa using hvals

/-! ### Sequences of operations on an arena -/

/-- The two outcomes of a node allocation whose placement does not wrap around. -/
theorem node_allocate_cases {T : Type} (lay : NodeLayout) (h : Heap T) (a : StackAllocator)
    (sid : Nat) (hs : a.my_storage = some sid)
    (hcap : (h.storage sid).base + (h.storage sid).N < SIZE_MOD)
    (hw : alignUp (h.storage sid).my_used lay.alignof_Node + lay.sizeof_Node < SIZE_MOD) :
    (alignUp (h.storage sid).my_used lay.alignof_Node + lay.sizeof_Node
        ≤ (h.storage sid).base + (h.storage sid).N ∧
      (a.allocate lay.sizeof_Node lay.alignof_Node h 1).2 =
        .ok (alignUp (h.storage sid).my_used lay.alignof_Node) ∧
      (a.allocate lay.sizeof_Node lay.alignof_Node h 1).1.storage =
        upd h.storage sid { (h.storage sid) with
          my_used := alignUp (h.storage sid).my_used lay.alignof_Node + lay.sizeof_Node }) ∨
    (alignUp (h.storage sid).my_used lay.alignof_Node + lay.sizeof_Node
        > (h.storage sid).base + (h.storage sid).N ∧
      (a.allocate lay.sizeof_Node lay.alignof_Node h 1).2 = .error .bad_alloc ∧
      (a.allocate lay.sizeof_Node lay.alignof_Node h 1).1.storage =
        upd h.storage sid { (h.storage sid) with
          my_used := alignUp (h.storage sid).my_used lay.alignof_Node }) := by
  by_cases hfit : alignUp (h.storage sid).my_used lay.alignof_Node + lay.sizeof_Node
      ≤ (h.storage sid).base + (h.storage sid).N
  · left
    obtain ⟨h1, h2⟩ := node_allocate_ok lay h a sid hs hcap hw hfit
    exact ⟨hfit, h1, h2⟩
  · right
    have hgt : alignUp (h.storage sid).my_used lay.alignof_Node + lay.sizeof_Node
        > (h.storage sid).base + (h.storage sid).N := by omega
    refine ⟨hgt, node_allocate_bad_alloc lay h a sid hs hcap hw hgt, ?_⟩
    obtain ⟨h1, _⟩ := handle_allocate_eq a sid lay.sizeof_Node lay.alignof_Node h 1 hs
    have hmod : (1 * lay.sizeof_Node) % SIZE_MOD = lay.sizeof_Node := by
      rw [Nat.one_mul]
      exact Nat.mod_eq_of_lt (by omega)
    rw [hmod, allocate_eq_of_placement_lt _ _ _ hcap hw, if_pos hgt] at h1
    exact h1

theorem outsideFree_mono (s : StackStorage) (c : Nat) (nodes : List Nat)
    (hc : s.my_used ≤ c) (hout : OutsideFree s nodes) :
    OutsideFree { s with my_used := c } nodes := by
  intro n hn
  have := hout n hn
  show n < c ∨ s.base + s.N ≤ n
  omega

/-- An `insert` at a position of a list that sits properly on its arena leaves it so,
whatever the outcome. -/
theorem insert_onArena {T : Type} (lay : NodeLayout) (sid : Nat) (h : Heap T) (L : ListObj)
    (ns : List Nat) (i : Nat) (arg : Option T) (hinv : OnArena lay sid h L ns)
    (hi : i ≤ L.my_size) :
    ∃ ns1, OnArena lay sid (L.insert lay h (advance h (L.begin h) i) arg).1
      (L.insert lay h (advance h (L.begin h) i) arg).2.1 ns1 := by
  obtain ⟨hr, hs, hout, hcur, hcount, hstat, hpos, hapos⟩ := hinv
  have hM1 := alignUp_ge ((h.storage sid).base + (h.storage sid).N) lay.alignof_Node
  have hM2 := alignUp_lt ((h.storage sid).base + (h.storage sid).N) lay.alignof_Node hapos
  have hM3 := alignUp_dvd ((h.storage sid).base + (h.storage sid).N) lay.alignof_Node hapos
  have hle := alignUp_le_of_dvd (h.storage sid).my_used lay.alignof_Node _ hapos hM3 hcur
  have hge := alignUp_ge (h.storage sid).my_used lay.alignof_Node
  have hcap : (h.storage sid).base + (h.storage sid).N < SIZE_MOD := by omega
  have hw : alignUp (h.storage sid).my_used lay.alignof_Node + lay.sizeof_Node
      < SIZE_MOD := by omega
  rcases node_allocate_cases lay h L.my_node_allocator sid hs hcap hw with
    ⟨hfit, ha, hst⟩ | ⟨hfit, ha, hst⟩
  · have hfresh : alignUp (h.storage sid).my_used lay.alignof_Node ∉ L.my_end :: ns :=
      allocate_fresh_of_outsideFree lay h L.my_node_allocator sid _ _ hs hcap hw hpos hout ha
    have hstore : ∀ h1 : Heap T, h1.storage = upd h.storage sid { (h.storage sid) with
          my_used := alignUp (h.storage sid).my_used lay.alignof_Node + lay.sizeof_Node } →
        h1.storage sid = { (h.storage sid) with
          my_used := alignUp (h.storage sid).my_used lay.alignof_Node + lay.sizeof_Node } := by
      intro h1 h1s
      rw [h1s]
      simp [upd]
    cases arg with
    | some v =>
      obtain ⟨_, r2, r3, _, _⟩ := insert_at_index lay h L ns i v _ hr hi
        (by simp only [SIZE_MOD] at *; omega) ha hfresh
      have hne : alignUp (h.storage sid).my_used lay.alignof_Node ≠
          (advance h (L.begin h) i).my_node := by
        intro hc
        apply hfresh
        rw [hc]
        have hp := position_of_isRing h L ns hr i hi
        have := head_mem_ring L.my_end _ (ns.take i) (ns.drop i) hp
        rwa [List.take_append_drop] at this
      have r5 := (insert_of_allocate_ok lay h L _ v _ ha hne).2.2.2.2.2.2
      have hst2 := hstore _ (r5.trans hst)
      refine ⟨_, r2, by rw [r3]; exact hs, ?_, ?_, ?_, ?_, hpos, hapos⟩
      · rw [hst2, r3]
        intro n hn
        show n < alignUp (h.storage sid).my_used lay.alignof_Node + lay.sizeof_Node ∨
          (h.storage sid).base + (h.storage sid).N ≤ n
        simp only [List.mem_cons, List.mem_append] at hn
        have hold : n ∈ L.my_end :: ns → n < (h.storage sid).my_used ∨
            (h.storage sid).base + (h.storage sid).N ≤ n := hout n
        rcases hn with hn | hn | hn | hn
        · have := hold (by rw [hn]; exact List.mem_cons_self _ _)
          omega
        · have := hold (List.mem_cons_of_mem _ (List.mem_of_mem_take hn))
          omega
        · omega
        · have := hold (List.mem_cons_of_mem _ (List.mem_of_mem_drop hn))
          omega
      · rw [hst2]
        show alignUp (h.storage sid).my_used lay.alignof_Node + lay.sizeof_Node ≤
          alignUp ((h.storage sid).base + (h.storage sid).N) lay.alignof_Node
        omega
      · rw [hst2, r3]
        show L.my_size + 1 + (h.storage sid).base ≤
          alignUp (h.storage sid).my_used lay.alignof_Node + lay.sizeof_Node
        omega
      · rw [hst2]
        exact hstat
    | none =>
      obtain ⟨q1, q2, _, _, _, _, q7⟩ := insert_of_construct_error lay h L
        (advance h (L.begin h) i) _ ha
      obtain ⟨_, r2, _⟩ := insert_error_isRing lay h L ns (advance h (L.begin h) i)
        (none : Option T) _ hr
        (fun ptr hp => by
          rw [ha] at hp
          cases hp
          exact hfresh) q1
      have hst2 := hstore _ (q7.trans hst)
      refine ⟨ns, by rw [q2]; exact r2, by rw [q2]; exact hs, ?_, ?_, ?_, ?_, hpos, hapos⟩
      · rw [hst2, q2]
        exact outsideFree_mono _ _ _ (by omega) hout
      · rw [hst2]
        show alignUp (h.storage sid).my_used lay.alignof_Node + lay.sizeof_Node ≤
          alignUp ((h.storage sid).base + (h.storage sid).N) lay.alignof_Node
        omega
      · rw [hst2, q2]
        show L.my_size + (h.storage sid).base ≤
          alignUp (h.storage sid).my_used lay.alignof_Node + lay.sizeof_Node
        omega
      · rw [hst2]
        exact hstat
  · have hins := insert_of_allocate_error lay h L (advance h (L.begin h) i) arg _ ha
    have hh := allocate_heap L.my_node_allocator lay.sizeof_Node lay.alignof_Node h 1
    rw [hins]
    have hst2 : (L.my_node_allocator.allocate lay.sizeof_Node lay.alignof_Node h 1).1.storage
        sid = { (h.storage sid) with
          my_used := alignUp (h.storage sid).my_used lay.alignof_Node } := by
      rw [hst]
      simp [upd]
    refine ⟨ns, ⟨hr.1, ?_, hr.2.2⟩, hs, ?_, ?_, ?_, ?_, hpos, hapos⟩
    · exact Linked_frame h _ ns L.my_end L.my_end (fun x _ => by rw [hh.1])
        (fun y _ => by rw [hh.2.1]) hr.2.1
    · show OutsideFree ((L.my_node_allocator.allocate lay.sizeof_Node lay.alignof_Node h
        1).1.storage sid) _
      rw [hst2]
      exact outsideFree_mono _ _ _ hge hout
    · show ((L.my_node_allocator.allocate lay.sizeof_Node lay.alignof_Node h 1).1.storage
        sid).my_used ≤ _
      rw [hst2]
      exact hle
    · show L.my_size + ((L.my_node_allocator.allocate lay.sizeof_Node lay.alignof_Node h
        1).1.storage sid).base ≤ _
      rw [hst2]
      show L.my_size + (h.storage sid).base ≤ alignUp (h.storage sid).my_used lay.alignof_Node
      omega
    · show ((L.my_node_allocator.allocate lay.sizeof_Node lay.alignof_Node h 1).1.storage
        sid).base + _ + _ + _ ≤ _
      rw [hst2]
      exact hstat

/-- An `erase` of a value node of a list that sits properly on its arena leaves it so. -/
theorem erase_onArena {T : Type} (lay : NodeLayout) (sid : Nat) (h : Heap T) (L : ListObj)
    (ns : List Nat) (i : Nat) (hinv : OnArena lay sid h L ns) (hi : i < L.my_size) :
    ∃ ns1, OnArena lay sid (L.erase h (advance h (L.begin h) i)).1
      (L.erase h (advance h (L.begin h) i)).2.1 ns1 := by
  obtain ⟨hr, hs, hout, hcur, hcount, hstat, hpos, hapos⟩ := hinv
  have hM2 := alignUp_lt ((h.storage sid).base + (h.storage sid).N) lay.alignof_Node hapos
  obtain ⟨r1, r2, r3, _, _, _⟩ := erase_at_index h L ns i hr hi
    (by simp only [SIZE_MOD] at *; omega)
  have hst := (erase_eq h L (advance h (L.begin h) i)).2.2.2.2.2.2
  have hL := (erase_eq h L (advance h (L.begin h) i)).2.1
  refine ⟨_, r1, by rw [hL]; exact hs, ?_, by rw [hst]; exact hcur, ?_,
    by rw [hst]; exact hstat, hpos, hapos⟩
  · rw [hst, r3]
    intro n hn
    apply hout n
    simp only [List.mem_cons, List.mem_append] at hn ⊢
    rcases hn with hn | hn | hn
    · exact Or.inl hn
    · exact Or.inr (List.mem_of_mem_take hn)
    · exact Or.inr (List.mem_of_mem_drop hn)
  · rw [hst]
    omega

/-- One operation, called within its precondition, on a list that sits properly on its
arena leaves it so. -/
theorem step_onArena {T : Type} (lay : NodeLayout) (sid : Nat) (h : Heap T) (L : ListObj)
    (ns : List Nat) (op : ListOp T) (hinv : OnArena lay sid h L ns) (hop : op.Allowed L) :
    ∃ ns1, OnArena lay sid (L.step lay h op).1 (L.step lay h op).2 ns1 := by
  have hwf := wellFormed_of_isRing h L ns hinv.1
  cases op with
  | insert i arg => exact insert_onArena lay sid h L ns i arg hinv hop
  | push_back arg =>
    have := insert_onArena lay sid h L ns L.my_size arg hinv (Nat.le_refl _)
    rw [← end_eq_advance h L hwf] at this
    exact this
  | push_front arg => exact insert_onArena lay sid h L ns 0 arg hinv (Nat.zero_le _)
  | erase i => exact erase_onArena lay sid h L ns i hinv hop
  | pop_back =>
    have hpos : 0 < L.my_size := hop
    have := erase_onArena lay sid h L ns (L.my_size - 1) hinv (Nat.sub_lt hpos Nat.one_pos)
    rw [← prev_end_eq_advance h L hwf hpos] at this
    exact this
  | pop_front => exact erase_onArena lay sid h L ns 0 hinv hop

/-- Any sequence of operations, each called within its precondition, on a list that
sits properly on its arena leaves it so. -/
theorem steps_onArena {T : Type} (lay : NodeLayout) (sid : Nat) (ops : List (ListOp T)) :
    ∀ (h : Heap T) (L : ListObj) (ns : List Nat), OnArena lay sid h L ns →
    ListObj.AllAllowed lay ops h L →
    ∃ ns1, OnArena lay sid (ListObj.steps lay ops h L).1 (ListObj.steps lay ops h L).2 ns1 := by
  induction ops with
  | nil => intro h L ns hinv _; exact ⟨ns, hinv⟩
  | cons op ops ih =>
    intro h L ns hinv hall
    obtain ⟨ns1, h1⟩ := step_onArena lay sid h L ns op hinv hall.1
    exact ih _ _ ns1 h1 hall.2

/-- A default-constructed list on a storage whose cursor is within the buffer, with the
sentinel outside the unallocated part, sits properly on it. -/
theorem create_onArena {T : Type} (lay : NodeLayout) (sid : Nat) (h : Heap T) (e : Nat)
    (hrange : (h.storage sid).CursorInRange)
    (hstat : (h.storage sid).base + (h.storage sid).N + lay.alignof_Node + lay.sizeof_Node
      ≤ SIZE_MOD)
    (hpos : 0 < lay.sizeof_Node) (hapos : 0 < lay.alignof_Node)
    (he : e < (h.storage sid).my_used ∨ (h.storage sid).base + (h.storage sid).N ≤ e) :
    OnArena lay sid (ListObj.create h e { my_storage := some sid }).1
      (ListObj.create h e { my_storage := some sid }).2 [] := by
  have hM1 := alignUp_ge ((h.storage sid).base + (h.storage sid).N) lay.alignof_Node
  refine ⟨create_isRing h e _, rfl, ?_, ?_, ?_, hstat, hpos, hapos⟩
  · intro n hn
    simp only [List.mem_singleton] at hn
    rw [hn]
    exact he
  · show (h.storage sid).my_used ≤ _
    exact Nat.le_trans hrange.2 hM1
  · show 0 + (h.storage sid).base ≤ (h.storage sid).my_used
    have := hrange.1
    omega

/-! ### Failed calls and monotonicity of the cursor -/

/-- A failed call leaves the cursor on the aligned address, also when adding `bytes`
wrapped around: subtracting `bytes` again undoes the addition modulo `2^64`. -/
theorem allocate_none_cursor (s : StackStorage) (bytes alignment : Nat)
    (hb : bytes < SIZE_MOD) (hpad : alignUp s.my_used alignment < SIZE_MOD)
    (hfail : (s.allocate bytes alignment).2 = none) :
    (s.allocate bytes alignment).1 = { s with my_used := alignUp s.my_used alignment } := by
  unfold StackStorage.allocate at hfail ⊢
  unfold alignUp at hpad ⊢
  simp only [SIZE_MOD] at *
  by_cases hz : s.my_used % alignment = 0
  · simp only [hz, ne_eq, not_true_eq_false, if_false, if_true] at hfail hpad ⊢
    split
    · dsimp only
      congr 1
      omega
    · rename_i hle
      rw [if_neg hle] at hfail
      cases hfail
  · simp only [hz, ne_eq, not_false_eq_true, if_true, if_false] at hfail hpad ⊢
    rw [Nat.mod_eq_of_lt hpad] at hfail ⊢
    split
    · dsimp only
      congr 1
      omega
    · rename_i hle
      rw [if_neg hle] at hfail
      cases hfail

/-- One call that does not wrap around never moves the cursor back, whatever the
storage. -/
theorem allocate_mono (s : StackStorage) (bytes alignment : Nat)
    (hw : s.my_used + alignment + bytes < SIZE_MOD) :
    s.my_used ≤ (s.allocate bytes alignment).1.my_used := by
  have hmod : s.my_used % alignment ≤ s.my_used := Nat.mod_le _ _
  unfold StackStorage.allocate
  simp only [SIZE_MOD] at *
  by_cases hz : s.my_used % alignment = 0
  · simp only [hz, ne_eq, not_true_eq_false, if_false]
    rw [Nat.mod_eq_of_lt (show s.my_used + bytes < 18446744073709551616 by omega)]
    split
    · show s.my_used ≤ (s.my_used + bytes + 18446744073709551616 - bytes) % 18446744073709551616
      omega
    · show s.my_used ≤ s.my_used + bytes
      omega
  · simp only [hz, ne_eq, not_false_eq_true, if_true]
    have hlt : alignment - s.my_used % alignment ≤ alignment := Nat.sub_le _ _
    rw [Nat.mod_eq_of_lt (show s.my_used + (alignment - s.my_used % alignment)
        < 18446744073709551616 by omega),
      Nat.mod_eq_of_lt (show s.my_used + (alignment - s.my_used % alignment) + bytes
        < 18446744073709551616 by omega)]
    split
    · show s.my_used ≤ (s.my_used + (alignment - s.my_used % alignment) + bytes
        + 18446744073709551616 - bytes) % 18446744073709551616
      omega
    · show s.my_used ≤ s.my_used + (alignment - s.my_used % alignment) + bytes
      omega

/-- A sequence of calls none of which wraps around never moves the cursor back. -/
theorem run_mono (reqs : List (Nat × Nat)) : ∀ s : StackStorage, s.NoWrap reqs →
    s.my_used ≤ (s.run reqs).1.my_used := by
  induction reqs with
  | nil => intro s _; exact Nat.le_refl _
  | cons r rest ih =>
    intro s hw
    exact Nat.le_trans (allocate_mono s r.1 r.2 hw.1) (ih _ hw.2)

/-! ### Building a list next to other lists -/

theorem Linked_last {T : Type} (h : Heap T) (ns : List Nat) : ∀ (a b : Nat),
    Linked h a ns b → (a :: ns).getLast? = some (h.my_prev b) := by
  induction ns with
  | nil =>
    intro a b hl
    simp only [Linked] at hl
    simp [hl.2]
  | cons n ns ih =>
    intro a b hl
    simp only [Linked] at hl
    rw [List.getLast?_cons_cons]
    exact ih n b hl.2

theorem Linked_head {T : Type} (h : Heap T) (ns : List Nat) (a b : Nat)
    (hl : Linked h a ns b) : (ns ++ [b]).head? = some (h.my_next a) := by
  cases ns with
  | nil => simp only [Linked] at hl; simp [hl.1]
  | cons n ns => simp only [Linked] at hl; simp [hl.1.1]

theorem prev_end_mem {T : Type} (h : Heap T) (L : ListObj) (ns : List Nat)
    (hr : IsRing h L ns) : h.my_prev L.my_end ∈ L.my_end :: ns :=
  List.mem_of_getLast?_eq_some (Linked_last h ns L.my_end L.my_end hr.2.1)

theorem sameOn_refl {T : Type} (P : List Nat) (h : Heap T) : SameOn P h h :=
  fun _ _ => ⟨rfl, rfl, rfl⟩

theorem sameOn_trans {T : Type} (P : List Nat) (h h1 h2 : Heap T)
    (h01 : SameOn P h h1) (h12 : SameOn P h1 h2) : SameOn P h h2 := by
  intro x hx
  obtain ⟨a1, a2, a3⟩ := h01 x hx
  obtain ⟨b1, b2, b3⟩ := h12 x hx
  exact ⟨b1.trans a1, b2.trans a2, b3.trans a3⟩

theorem sameOn_subset {T : Type} (P Q : List Nat) (h h1 : Heap T)
    (hsub : ∀ x ∈ Q, x ∈ P) (hs : SameOn P h h1) : SameOn Q h h1 :=
  fun x hx => hs x (hsub x hx)

/-- A ring whose nodes are among addresses that kept their links and values is the same
ring with the same values. -/
theorem isRing_of_sameOn {T : Type} (P : List Nat) (h h1 : Heap T) (L : ListObj)
    (ns : List Nat) (hr : IsRing h L ns) (hsub : ∀ x ∈ L.my_end :: ns, x ∈ P)
    (hs : SameOn P h h1) :
    IsRing h1 L ns ∧ ns.map h1.value = ns.map h.value := by
  refine ⟨⟨hr.1, ?_, hr.2.2⟩, ?_⟩
  · refine Linked_frame h h1 ns L.my_end L.my_end ?_ ?_ hr.2.1
    · intro x hx
      exact (hs x (hsub x hx)).1
    · intro y hy
      refine (hs y (hsub y ?_)).2.1
      simp only [List.mem_append, List.mem_singleton] at hy
      rcases hy with hy | hy
      · exact List.mem_cons_of_mem _ hy
      · rw [hy]; exact List.mem_cons_self _ _
  · apply List.map_congr_left
    intro x hx
    exact (hs x (hsub x (List.mem_cons_of_mem _ hx))).2.2

/-- What `insert` does to the storages: what its node allocation does. -/
theorem insert_storage {T : Type} (lay : NodeLayout) (h : Heap T) (L : ListObj)
    (it : BasicIterator) (arg : Option T) :
    (L.insert lay h it arg).1.storage =
      (L.my_node_allocator.allocate lay.sizeof_Node lay.alignof_Node h 1).1.storage ∧
    (L.insert lay h it arg).1.destroyed = h.destroyed ∧
    (L.insert lay h it arg).2.1.my_end = L.my_end ∧
    (L.insert lay h it arg).2.1.my_allocator = L.my_allocator ∧
    (L.insert lay h it arg).2.1.my_node_allocator = L.my_node_allocator := by
  have hh := allocate_heap L.my_node_allocator lay.sizeof_Node lay.alignof_Node h 1
  unfold ListObj.insert
  generalize L.my_node_allocator.allocate lay.sizeof_Node lay.alignof_Node h 1 = r at hh ⊢
  obtain ⟨h1, res⟩ := r
  cases res with
  | error e => exact ⟨rfl, hh.2.2.2, rfl, rfl, rfl⟩
  | ok ptr =>
    cases arg with
    | none => exact ⟨rfl, hh.2.2.2, rfl, rfl, rfl⟩
    | some v => exact ⟨rfl, hh.2.2.2, rfl, rfl, rfl⟩

/-- What a node allocation through a handle on `sid` does to the storages. -/
theorem handle_allocate_storage {T : Type} (a : StackAllocator) (sid sz al : Nat)
    (h : Heap T) (n : Nat) (hs : a.my_storage = some sid) :
    (∀ s2, s2 ≠ sid → (a.allocate sz al h n).1.storage s2 = h.storage s2) ∧
    ((a.allocate sz al h n).1.storage sid).base = (h.storage sid).base ∧
    ((a.allocate sz al h n).1.storage sid).N = (h.storage sid).N := by
  obtain ⟨h1, _⟩ := handle_allocate_eq a sid sz al h n hs
  have hb := allocate_base (h.storage sid) ((n * sz) % SIZE_MOD) al
  rw [h1]
  refine ⟨?_, ?_, ?_⟩
  · intro s2 hne
    simp [upd, hne]
  · simp only [upd, if_true]
    exact hb.1
  · simp only [upd, if_true]
    exact hb.2

/-- The invariant `Builds` after a step that moved the cursor of `sid` forward to `X`
and left on the ring only old nodes and nodes taken from the unallocated part. -/
theorem builds_step {T : Type} (lay : NodeLayout) (sid : Nat) (P : List Nat)
    (h h1 : Heap T) (C C1 : ListObj) (cs cs1 : List Nat) (X : Nat)
    (hb : Builds lay sid P h C cs) (hr1 : IsRing h1 C1 cs1)
    (hal : C1.my_node_allocator = C.my_node_allocator) (he : C1.my_end = C.my_end)
    (hst : h1.storage sid = { (h.storage sid) with my_used := X })
    (hX1 : (h.storage sid).my_used ≤ X)
    (hX2 : X ≤ alignUp ((h.storage sid).base + (h.storage sid).N) lay.alignof_Node)
    (hcnt : C1.my_size + (h.storage sid).base ≤ X)
    (hnew : ∀ n ∈ cs1, n ∈ cs ∨
      ((h.storage sid).my_used ≤ n ∧ n < X ∧ n < (h.storage sid).base + (h.storage sid).N)) :
    Builds lay sid P h1 C1 cs1 := by
  obtain ⟨⟨hr, hs, hout, hcur, hcount, hstat, hpos, hapos⟩, hP, hdisj⟩ := hb
  refine ⟨⟨hr1, by rw [hal]; exact hs, ?_, ?_, ?_, ?_, hpos, hapos⟩, ?_, ?_⟩
  · rw [hst, he]
    intro n hn
    show n < X ∨ (h.storage sid).base + (h.storage sid).N ≤ n
    rcases List.mem_cons.mp hn with hn | hn
    · have := hout n (by rw [hn]; exact List.mem_cons_self _ _)
      omega
    · rcases hnew n hn with hold | hfree
      · have := hout n (List.mem_cons_of_mem _ hold)
        omega
      · exact Or.inl hfree.2.1
  · rw [hst]
    exact hX2
  · rw [hst]
    exact hcnt
  · rw [hst]
    exact hstat
  · rw [hst]
    exact outsideFree_mono _ _ _ hX1 hP
  · intro x hx hmem
    rw [he] at hmem
    rcases List.mem_cons.mp hmem with hc | hc
    · exact hdisj x hx (by rw [hc]; exact List.mem_cons_self _ _)
    · rcases hnew x hc with hold | hfree
      · exact hdisj x hx (List.mem_cons_of_mem _ hold)
      · have := hP x hx
        omega

/-- One `push_back` on a list that sits properly on its arena next to other nodes `P`:
the nodes `P` keep their links and values, only the storage `sid` changes and its
cursor does not move back; either the element was built and the new node, taken from
the buffer at the aligned cursor, is appended to the ring, or the call raised and the
ring is as before. It raises only when the constructor throws or the node does not
fit. -/
theorem push_back_builds {T : Type} (lay : NodeLayout) (sid : Nat) (P : List Nat)
    (h : Heap T) (C : ListObj) (cs : List Nat) (arg : Option T)
    (hb : Builds lay sid P h C cs) :
    SameOn P h (C.push_back lay h arg).1 ∧
    (C.push_back lay h arg).1.destroyed = h.destroyed ∧
    (∀ s2, s2 ≠ sid → (C.push_back lay h arg).1.storage s2 = h.storage s2) ∧
    ((C.push_back lay h arg).1.storage sid).base = (h.storage sid).base ∧
    ((C.push_back lay h arg).1.storage sid).N = (h.storage sid).N ∧
    (h.storage sid).my_used ≤ ((C.push_back lay h arg).1.storage sid).my_used ∧
    ((∃ v, arg = some v ∧
        (C.push_back lay h arg).2.2 =
          .ok { my_node := alignUp (h.storage sid).my_used lay.alignof_Node } ∧
        Builds lay sid P (C.push_back lay h arg).1 (C.push_back lay h arg).2.1
          (cs ++ [alignUp (h.storage sid).my_used lay.alignof_Node]) ∧
        (C.push_back lay h arg).2.1 = { C with my_size := C.my_size + 1 } ∧
        (C.push_back lay h arg).1.value =
          upd h.value (alignUp (h.storage sid).my_used lay.alignof_Node) v ∧
        alignUp (h.storage sid).my_used lay.alignof_Node ∉ C.my_end :: cs ∧
        alignUp (h.storage sid).my_used lay.alignof_Node ∉ P ∧
        (h.storage sid).base ≤ alignUp (h.storage sid).my_used lay.alignof_Node ∧
        alignUp (h.storage sid).my_used lay.alignof_Node + lay.sizeof_Node ≤
          (h.storage sid).base + (h.storage sid).N ∧
        ((C.push_back lay h arg).1.storage sid).my_used =
          alignUp (h.storage sid).my_used lay.alignof_Node + lay.sizeof_Node) ∨
      (∃ err, (C.push_back lay h arg).2.2 = .error err ∧
        (C.push_back lay h arg).2.1 = C ∧
        Builds lay sid P (C.push_back lay h arg).1 C cs ∧
        (C.push_back lay h arg).1.value = h.value ∧
        (arg = none ∨
          alignUp (h.storage sid).my_used lay.alignof_Node + lay.sizeof_Node >
            (h.storage sid).base + (h.storage sid).N))) := by
  have hb0 := hb
  obtain ⟨⟨hr, hs, hout, hcur, hcount, hstat, hpos, hapos⟩, hP, hdisj⟩ := hb
  have hM1 := alignUp_ge ((h.storage sid).base + (h.storage sid).N) lay.alignof_Node
  have hM2 := alignUp_lt ((h.storage sid).base + (h.storage sid).N) lay.alignof_Node hapos
  have hM3 := alignUp_dvd ((h.storage sid).base + (h.storage sid).N) lay.alignof_Node hapos
  have hle := alignUp_le_of_dvd (h.storage sid).my_used lay.alignof_Node _ hapos hM3 hcur
  have hge := alignUp_ge (h.storage sid).my_used lay.alignof_Node
  have hcap : (h.storage sid).base + (h.storage sid).N < SIZE_MOD := by omega
  have hw : alignUp (h.storage sid).my_used lay.alignof_Node + lay.sizeof_Node
      < SIZE_MOD := by omega
  have hsz : C.my_size + 1 < SIZE_MOD := by omega
  obtain ⟨g1, g2, g3, g4, g5⟩ := insert_storage lay h C C.it_end arg
  obtain ⟨k1, k2, k3⟩ := handle_allocate_storage C.my_node_allocator sid lay.sizeof_Node
    lay.alignof_Node h 1 hs
  have hpb : C.push_back lay h arg = C.insert lay h C.it_end arg := rfl
  rw [hpb]
  have hstore : ∀ X : Nat,
      (C.my_node_allocator.allocate lay.sizeof_Node lay.alignof_Node h 1).1.storage =
        upd h.storage sid { (h.storage sid) with my_used := X } →
      (C.insert lay h C.it_end arg).1.storage sid = { (h.storage sid) with my_used := X } := by
    intro X hX
    rw [g1, hX]
    simp [upd]
  have hpe := prev_end_mem h C cs hr
  refine ⟨?_, g2, ?_, ?_, ?_, ?_, ?_⟩
  rotate_left
  · intro s2 hne
    rw [g1]
    exact k1 s2 hne
  · rw [g1]
    exact k2
  · rw [g1]
    exact k3
  · rcases node_allocate_cases lay h C.my_node_allocator sid hs hcap hw with
      ⟨_, _, hst⟩ | ⟨_, _, hst⟩
    · rw [hstore _ hst]
      show (h.storage sid).my_used ≤ alignUp (h.storage sid).my_used lay.alignof_Node
        + lay.sizeof_Node
      omega
    · rw [hstore _ hst]
      exact hge
  · rcases node_allocate_cases lay h C.my_node_allocator sid hs hcap hw with
      ⟨hfit, ha, hst⟩ | ⟨hfit, ha, hst⟩
    · have hfresh : alignUp (h.storage sid).my_used lay.alignof_Node ∉ C.my_end :: cs :=
        allocate_fresh_of_outsideFree lay h C.my_node_allocator sid _ _ hs hcap hw hpos hout ha
      have hfreshP : alignUp (h.storage sid).my_used lay.alignof_Node ∉ P :=
        allocate_fresh_of_outsideFree lay h C.my_node_allocator sid _ _ hs hcap hw hpos hP ha
      have hst2 := hstore _ hst
      cases arg with
      | some v =>
        left
        obtain ⟨r1, r2, r3, r4, _, _⟩ := push_back_on_arena lay h C sid cs v hr hs hcap hw
          hpos hout hsz hfit
        rw [hpb] at r1 r2 r3 r4
        refine ⟨v, rfl, r1, ?_, r3, r4, hfresh, hfreshP, by omega, hfit, ?_⟩
        · refine builds_step lay sid P h _ C _ cs _ _ hb0 r2 g5 g3 hst2 (by omega)
            (by omega) (by rw [r3]; show C.my_size + 1 + _ ≤ _; omega) ?_
          intro n hn
          rcases List.mem_append.mp hn with hn | hn
          · exact Or.inl hn
          · right
            rw [List.mem_singleton] at hn
            omega
        · rw [hst2]
      | none =>
        right
        obtain ⟨q1, q2, _, _, q5, _, _⟩ := insert_of_construct_error lay h C C.it_end _ ha
        obtain ⟨_, r2, _⟩ := insert_error_isRing lay h C cs C.it_end (none : Option T) _ hr
          (fun ptr hp => by
            rw [ha] at hp
            cases hp
            exact hfresh) q1
        refine ⟨_, q1, q2, ?_, q5, Or.inl rfl⟩
        refine builds_step lay sid P h _ C C cs cs _ hb0 r2 rfl rfl hst2 (by omega)
          (by omega) (by omega) (fun n hn => Or.inl hn)
    · right
      have hst2 := hstore _ hst
      have hins := insert_of_allocate_error lay h C C.it_end arg _ ha
      have hh := allocate_heap C.my_node_allocator lay.sizeof_Node lay.alignof_Node h 1
      have hres : (C.insert lay h C.it_end arg).2.2 = .error .bad_alloc := by rw [hins]
      have hobj : (C.insert lay h C.it_end arg).2.1 = C := by rw [hins]
      have hval : (C.insert lay h C.it_end arg).1.value = h.value := by
        rw [hins]; exact hh.2.2.1
      have hring : IsRing (C.insert lay h C.it_end arg).1 C cs := by
        rw [hins]
        refine ⟨hr.1, ?_, hr.2.2⟩
        exact Linked_frame h _ cs C.my_end C.my_end (fun x _ => by rw [hh.1])
          (fun y _ => by rw [hh.2.1]) hr.2.1
      refine ⟨_, hres, hobj, ?_, hval, Or.inr hfit⟩
      exact builds_step lay sid P h _ C C cs cs _ hb0 hring rfl rfl hst2 hge hle (by omega)
        (fun n hn => Or.inl hn)
  · -- the nodes of `P` are not written
    intro x hx
    have hxe : x ≠ C.my_end := fun hc => hdisj x hx (by rw [hc]; exact List.mem_cons_self _ _)
    have hxp : x ≠ h.my_prev C.my_end := fun hc => hdisj x hx (by rw [hc]; exact hpe)
    rcases node_allocate_cases lay h C.my_node_allocator sid hs hcap hw with
      ⟨hfit, ha, hst⟩ | ⟨hfit, ha, hst⟩
    · have hfresh : alignUp (h.storage sid).my_used lay.alignof_Node ∉ C.my_end :: cs :=
        allocate_fresh_of_outsideFree lay h C.my_node_allocator sid _ _ hs hcap hw hpos hout ha
      have hfreshP : alignUp (h.storage sid).my_used lay.alignof_Node ∉ P :=
        allocate_fresh_of_outsideFree lay h C.my_node_allocator sid _ _ hs hcap hw hpos hP ha
      have hxa : x ≠ alignUp (h.storage sid).my_used lay.alignof_Node :=
        fun hc => hfreshP (hc ▸ hx)
      cases arg with
      | some v =>
        obtain ⟨_, _, hn, hp, hv, _, _⟩ := insert_of_allocate_ok lay h C C.it_end v _ ha
          (fun hc => hfresh (by rw [hc]; exact List.mem_cons_self _ _))
        rw [hn, hp, hv]
        simp only [upd, ListObj.it_end]
        simp [hxe, hxp, hxa]
      | none =>
        obtain ⟨_, _, hn, hp, hv, _, _⟩ := insert_of_construct_error lay h C C.it_end _ ha
        rw [hn, hp, hv]
        simp [upd, hxa]
    · have hins := insert_of_allocate_error lay h C C.it_end arg _ ha
      have hh := allocate_heap C.my_node_allocator lay.sizeof_Node lay.alignof_Node h 1
      rw [hins]
      exact ⟨by rw [hh.1], by rw [hh.2.1], by rw [hh.2.2.1]⟩

/-- One `pop_back` on a ring that ends with the node `x`: the ring loses `x`, which is
destroyed once; the values, the storages and every link outside the ring stay; the
iterator returned is `end()`. -/
theorem pop_back_ring {T : Type} (h : Heap T) (L : ListObj) (cs : List Nat) (x : Nat)
    (hr : IsRing h L (cs ++ [x])) (hsz : L.my_size < SIZE_MOD) :
    IsRing (L.pop_back h).1 (L.pop_back h).2.1 cs ∧
    (L.pop_back h).2.1 = { L with my_size := cs.length } ∧
    (L.pop_back h).1.value = h.value ∧
    (L.pop_back h).1.destroyed = x :: h.destroyed ∧
    (L.pop_back h).1.storage = h.storage ∧
    (L.pop_back h).2.2 = L.it_end ∧
    (∀ y, y ∉ L.my_end :: (cs ++ [x]) →
      (L.pop_back h).1.my_next y = h.my_next y ∧ (L.pop_back h).1.my_prev y = h.my_prev y) := by
  have hlast := Linked_last h (cs ++ [x]) L.my_end L.my_end hr.2.1
  have hx : h.my_prev L.my_end = x := by
    rw [← List.cons_append, List.getLast?_append] at hlast
    simpa using hlast.symm
  have hpb : L.pop_back h = L.erase h { my_node := x } := by
    unfold ListObj.pop_back BasicIterator.dec ListObj.it_end
    rw [hx]
  rw [hpb]
  obtain ⟨r1, r2, r3, r4, r5⟩ := erase_isRing h L cs [] x hr hsz
  obtain ⟨e1, e2, e3, e4, e5, e6, e7⟩ := erase_eq h L { my_node := x }
  obtain ⟨a1, a2⟩ := Linked_at h L.my_end x cs [] hr.2.1
  have hnx : h.my_next x = L.my_end := by simpa using a1.symm
  have hpx : h.my_prev x ∈ L.my_end :: cs := List.mem_of_getLast?_eq_some a2
  rw [List.append_nil] at r1
  have hlen : (L.erase h { my_node := x }).2.1.my_size = cs.length := r1.2.2
  refine ⟨r1, ?_, r4, e6, e7, ?_, ?_⟩
  · rw [e2] at hlen ⊢
    simp only at hlen
    rw [hlen]
  · rw [iterator_eq_iff]
    simpa using r5.symm
  · intro y hy
    have hy1 : y ≠ h.my_prev x := by
      intro hc
      apply hy
      rw [hc]
      rcases List.mem_cons.mp hpx with hq | hq
      · rw [hq]; exact List.mem_cons_self _ _
      · exact List.mem_cons_of_mem _ (List.mem_append_left _ hq)
    have hy2 : y ≠ h.my_next x := by
      intro hc
      apply hy
      rw [hc, hnx]
      exact List.mem_cons_self _ _
    rw [e3 y, e4 y]
    simp [hy1, hy2]

/-- The loop `while (my_size) pop_back()` on a ring: every node of the ring is destroyed
once, the first node of the ring last; the sentinel is left linked to itself with size
zero; the values, the storages and every link outside the ring stay. -/
theorem pop_all_ring {T : Type} (ps : List Nat) : ∀ (h : Heap T) (L : ListObj),
    IsRing h L ps → L.my_size < SIZE_MOD →
    IsRing (L.pop_all h).1 (L.pop_all h).2 [] ∧
    (L.pop_all h).2 = { L with my_size := 0 } ∧
    (L.pop_all h).1.value = h.value ∧
    (L.pop_all h).1.destroyed = ps ++ h.destroyed ∧
    (L.pop_all h).1.storage = h.storage ∧
    (∀ y, y ∉ L.my_end :: ps →
      (L.pop_all h).1.my_next y = h.my_next y ∧ (L.pop_all h).1.my_prev y = h.my_prev y) := by
  induction ps using List.reverseRecOn with
  | nil =>
    intro h L hr _
    have h0 : L.my_size = 0 := hr.2.2
    have hp : L.pop_all h = (h, L) := by
      unfold ListObj.pop_all
      rw [h0]
      rfl
    rw [hp]
    refine ⟨hr, ?_, rfl, rfl, rfl, fun y _ => ⟨rfl, rfl⟩⟩
    cases L
    simp only at h0
    simp [h0]
  | append_singleton cs x ih =>
    intro h L hr hsz
    obtain ⟨p1, p2, p3, p4, p5, _, p7⟩ := pop_back_ring h L cs x hr hsz
    have hlen : L.my_size = cs.length + 1 := by
      rw [hr.2.2]
      simp
    have hp : L.pop_all h = (L.pop_back h).2.1.pop_all (L.pop_back h).1 := by
      have hsz2 : (L.pop_back h).2.1.my_size = cs.length := by rw [p2]
      unfold ListObj.pop_all
      rw [hlen, hsz2]
      simp only [ListObj.pop_while]
      rw [if_neg (by omega)]
    have hsz1 : (L.pop_back h).2.1.my_size < SIZE_MOD := by
      rw [p2]
      show cs.length < SIZE_MOD
      omega
    obtain ⟨q1, q2, q3, q4, q5, q6⟩ := ih (L.pop_back h).1 (L.pop_back h).2.1 p1 hsz1
    rw [hp]
    refine ⟨q1, ?_, by rw [q3, p3], ?_, by rw [q5, p5], ?_⟩
    · rw [q2, p2]
    · rw [q4, p4]
      simp
    · intro y hy
      have hy1 : y ∉ (L.pop_back h).2.1.my_end :: cs := by
        rw [p2]
        intro hc
        apply hy
        rcases List.mem_cons.mp hc with hq | hq
        · rw [hq]; exact List.mem_cons_self _ _
        · exact List.mem_cons_of_mem _ (List.mem_append_left _ hq)
      obtain ⟨z1, z2⟩ := q6 y hy1
      obtain ⟨w1, w2⟩ := p7 y hy
      exact ⟨z1.trans w1, z2.trans w2⟩

/-- Two heaps in which the list has the same ring have the same node at every
position. -/
theorem advance_eq_of_isRing {T : Type} (h h1 : Heap T) (L L1 : ListObj) (ns : List Nat)
    (hr : IsRing h L ns) (hr1 : IsRing h1 L1 ns) (he : L1.my_end = L.my_end) (i : Nat)
    (hi : i ≤ L.my_size) :
    advance h1 (L1.begin h1) i = advance h (L.begin h) i := by
  have p := position_of_isRing h L ns hr i hi
  have p1 := position_of_isRing h1 L1 ns hr1 i (by rw [hr1.2.2, ← hr.2.2]; exact hi)
  rw [he, p] at p1
  rw [iterator_eq_iff]
  exact (Option.some.inj p1).symm


/-! ### The cursor of a storage under the list operations -/

theorem advances_refl (lay : NodeLayout) (s : StackStorage) (hr : Roomy lay s) :
    Advances lay s s :=
  ⟨rfl, rfl, Nat.le_refl _, hr⟩

theorem advances_trans (lay : NodeLayout) (s s1 s2 : StackStorage)
    (h1 : Advances lay s s1) (h2 : Advances lay s1 s2) : Advances lay s s2 :=
  ⟨h2.1.trans h1.1, h2.2.1.trans h1.2.1, Nat.le_trans h1.2.2.1 h2.2.2.1, h2.2.2.2⟩

theorem advances_of_eq (lay : NodeLayout) (s s1 : StackStorage) (hr : Roomy lay s)
    (he : s1 = s) : Advances lay s s1 := by
  subst he
  exact advances_refl lay _ hr

/-- What `insert`, whatever its outcome, does to a storage that can place nodes: the
cursor does not move back; and when the list draws from that storage and the call
succeeds, the cursor has advanced by at least `sizeof(Node)` and is inside the buffer. -/
theorem insert_advances {T : Type} (lay : NodeLayout) (h : Heap T) (L : ListObj)
    (it : BasicIterator) (arg : Option T) (sid : Nat) (hroom : Roomy lay (h.storage sid)) :
    Advances lay (h.storage sid) ((L.insert lay h it arg).1.storage sid) ∧
    (L.my_node_allocator.my_storage = some sid →
      succeeded (L.insert lay h it arg).2.2 = true →
      (h.storage sid).my_used + lay.sizeof_Node
        ≤ ((L.insert lay h it arg).1.storage sid).my_used ∧
      ((L.insert lay h it arg).1.storage sid).my_used
        ≤ (h.storage sid).base + (h.storage sid).N) := by
  have hroom0 := hroom
  obtain ⟨hcur, hstat, hapos⟩ := hroom
  have hM1 := alignUp_ge ((h.storage sid).base + (h.storage sid).N) lay.alignof_Node
  have hM2 := alignUp_lt ((h.storage sid).base + (h.storage sid).N) lay.alignof_Node hapos
  have hM3 := alignUp_dvd ((h.storage sid).base + (h.storage sid).N) lay.alignof_Node hapos
  have hle := alignUp_le_of_dvd (h.storage sid).my_used lay.alignof_Node _ hapos hM3 hcur
  have hge := alignUp_ge (h.storage sid).my_used lay.alignof_Node
  have hcap : (h.storage sid).base + (h.storage sid).N < SIZE_MOD := by omega
  have hw : alignUp (h.storage sid).my_used lay.alignof_Node + lay.sizeof_Node
      < SIZE_MOD := by omega
  have g1 := (insert_storage lay h L it arg).1
  cases hs : L.my_node_allocator.my_storage with
  | none =>
    have hal : L.my_node_allocator.allocate lay.sizeof_Node lay.alignof_Node h 1 =
        (h, .error .null_storage) := by
      unfold StackAllocator.allocate
      rw [hs]
    rw [g1, hal]
    exact ⟨advances_refl lay _ hroom0, fun hc => by cases hc⟩
  | some s2 =>
    by_cases h2 : s2 = sid
    · rw [h2] at hs
      rcases node_allocate_cases lay h L.my_node_allocator sid hs hcap hw with
        ⟨hfit, ha, hst⟩ | ⟨hfit, ha, hst⟩
      · have hst2 : (L.insert lay h it arg).1.storage sid = { (h.storage sid) with
            my_used := alignUp (h.storage sid).my_used lay.alignof_Node + lay.sizeof_Node } := by
          rw [g1, hst]
          simp [upd]
        rw [hst2]
        refine ⟨⟨rfl, rfl, ?_, ?_, hstat, hapos⟩, fun _ _ => ⟨?_, ?_⟩⟩
        · show (h.storage sid).my_used ≤
            alignUp (h.storage sid).my_used lay.alignof_Node + lay.sizeof_Node
          omega
        · show alignUp (h.storage sid).my_used lay.alignof_Node + lay.sizeof_Node ≤
            alignUp ((h.storage sid).base + (h.storage sid).N) lay.alignof_Node
          omega
        · show (h.storage sid).my_used + lay.sizeof_Node ≤
            alignUp (h.storage sid).my_used lay.alignof_Node + lay.sizeof_Node
          omega
        · exact hfit
      · have hst2 : (L.insert lay h it arg).1.storage sid = { (h.storage sid) with
            my_used := alignUp (h.storage sid).my_used lay.alignof_Node } := by
          rw [g1, hst]
          simp [upd]
        have hins := insert_of_allocate_error lay h L it arg _ ha
        refine ⟨?_, fun _ hsucc => ?_⟩
        · rw [hst2]
          exact ⟨rfl, rfl, hge, hle, hstat, hapos⟩
        · rw [hins] at hsucc
          cases hsucc
    · have k1 := (handle_allocate_storage L.my_node_allocator s2 lay.sizeof_Node
        lay.alignof_Node h 1 hs).1 sid (fun hc => h2 hc.symm)
      rw [g1, k1]
      exact ⟨advances_refl lay _ hroom0, fun hc => absurd (Option.some.inj hc) h2⟩

/-- What one operation of a list does to a storage that can place nodes. -/
theorem step_advances {T : Type} (lay : NodeLayout) (h : Heap T) (L : ListObj)
    (o : ListOp T) (sid : Nat) (hroom : Roomy lay (h.storage sid)) :
    Advances lay (h.storage sid) ((L.step lay h o).1.storage sid) ∧
    (L.my_node_allocator.my_storage = some sid → L.inserts lay h o = true →
      (h.storage sid).my_used + lay.sizeof_Node ≤ ((L.step lay h o).1.storage sid).my_used ∧
      ((L.step lay h o).1.storage sid).my_used
        ≤ (h.storage sid).base + (h.storage sid).N) := by
  cases o with
  | insert i arg => exact insert_advances lay h L _ arg sid hroom
  | push_back arg => exact insert_advances lay h L _ arg sid hroom
  | push_front arg => exact insert_advances lay h L _ arg sid hroom
  | erase i =>
    refine ⟨advances_of_eq lay _ _ hroom ?_, fun _ hc => by cases hc⟩
    show (L.erase h _).1.storage sid = _
    rw [(erase_eq h L _).2.2.2.2.2.2]
  | pop_back =>
    refine ⟨advances_of_eq lay _ _ hroom ?_, fun _ hc => by cases hc⟩
    show (L.erase h _).1.storage sid = _
    rw [(erase_eq h L _).2.2.2.2.2.2]
  | pop_front =>
    refine ⟨advances_of_eq lay _ _ hroom ?_, fun _ hc => by cases hc⟩
    show (L.erase h _).1.storage sid = _
    rw [(erase_eq h L _).2.2.2.2.2.2]

/-- The arena bounds the insertions: along any sequence of operations by any lists,
the cursor of a storage that can place nodes has advanced by at least `sizeof(Node)`
for every successful insertion by a list drawing from it, and such an insertion leaves
the cursor inside the buffer. -/
theorem insertions_bound {T : Type} (lay : NodeLayout) (sid : Nat)
    (ops : List (Nat × ListOp T)) : ∀ w : World T, Roomy lay (w.1.storage sid) →
    Advances lay (w.1.storage sid) ((World.applyAll lay ops w).1.storage sid) ∧
    (w.1.storage sid).my_used + lay.sizeof_Node * World.insertions lay sid ops w
      ≤ ((World.applyAll lay ops w).1.storage sid).my_used ∧
    (0 < World.insertions lay sid ops w →
      (w.1.storage sid).my_used + lay.sizeof_Node * World.insertions lay sid ops w
        ≤ (w.1.storage sid).base + (w.1.storage sid).N) := by
  induction ops with
  | nil =>
    intro w hroom
    exact ⟨advances_refl lay _ hroom, by simp [World.applyAll, World.insertions],
      by simp [World.insertions]⟩
  | cons p ps ih =>
    intro w hroom
    obtain ⟨s1, s2⟩ := step_advances lay w.1 (w.2 p.1) p.2 sid hroom
    have hw1 : (w.apply lay p.1 p.2).1 = ((w.2 p.1).step lay w.1 p.2).1 := rfl
    obtain ⟨i1, i2, i3⟩ := ih (w.apply lay p.1 p.2) (by rw [hw1]; exact s1.2.2.2)
    rw [hw1] at i1 i2 i3
    simp only [World.applyAll, World.insertions]
    refine ⟨advances_trans lay _ _ _ s1 i1, ?_, ?_⟩
    · split_ifs with hc
      · obtain ⟨t1, t2⟩ := s2 hc.1 hc.2
        rw [Nat.mul_add, Nat.mul_one]
        omega
      · have := s1.2.2.1
        rw [Nat.zero_add]
        omega
    · intro hpos
      have hb := s1.1
      have hn := s1.2.1
      split_ifs with hc
      · obtain ⟨t1, t2⟩ := s2 hc.1 hc.2
        rw [Nat.mul_add, Nat.mul_one]
        rcases Nat.eq_zero_or_pos (World.insertions lay sid ps (w.apply lay p.1 p.2)) with
          hz | hp
        · rw [hz]
          omega
        · have := i3 hp
          rw [hb, hn] at this
          omega
      · rw [if_neg hc, Nat.zero_add] at hpos
        rw [Nat.zero_add]
        have h3 := i3 hpos
        have := s1.2.2.1
        rw [hb, hn] at h3
        omega


theorem pop_while_storage {T : Type} (fuel : Nat) : ∀ (h : Heap T) (L : ListObj),
    (ListObj.pop_while fuel h L).1.storage = h.storage := by
  induction fuel with
  | zero => intro h L; rfl
  | succ fuel ih =>
    intro h L
    simp only [ListObj.pop_while]
    split_ifs
    · rfl
    · rw [ih]
      exact (erase_eq h L _).2.2.2.2.2.2

/-- The counting loop of `push_back` calls never moves a cursor back. -/
theorem push_back_n_advances {T : Type} (lay : NodeLayout) (args : Nat → Option T)
    (sid : Nat) (n : Nat) : ∀ (i : Nat) (h : Heap T) (L : ListObj),
    Roomy lay (h.storage sid) →
    Advances lay (h.storage sid) ((ListObj.push_back_n lay args n i h L).1.storage sid) := by
  induction n with
  | zero =>
    intro i h L hroom
    exact advances_refl lay _ hroom
  | succ n ih =>
    intro i h L hroom
    have q := (insert_advances lay h L L.it_end (args i) sid hroom).1
    cases hres : (L.push_back lay h (args i)).2.2 with
    | error err =>
      simp only [ListObj.push_back_n, hres]
      exact q
    | ok it =>
      simp only [ListObj.push_back_n, hres]
      exact advances_trans lay _ _ _ q (ih _ _ _ q.2.2.2)

theorem create_n_advances {T : Type} (lay : NodeLayout) (h : Heap T) (e : Nat)
    (alloc : StackAllocator) (n : Nat) (args : Nat → Option T) (sid : Nat)
    (hroom : Roomy lay (h.storage sid)) :
    Advances lay (h.storage sid) ((ListObj.create_n lay h e alloc n args).1.storage sid) := by
  have q := push_back_n_advances lay args sid n 0 (ListObj.create h e alloc).1
    (ListObj.create h e alloc).2 hroom
  unfold ListObj.create_n
  dsimp only
  cases hres : (ListObj.push_back_n lay args n 0 (ListObj.create h e alloc).1
      (ListObj.create h e alloc).2).2.2 with
  | ok u => exact q
  | error err =>
    dsimp only
    rw [show ∀ (h1 : Heap T) (L1 : ListObj), (L1.pop_all h1).1.storage = h1.storage from
      fun h1 L1 => pop_while_storage _ h1 L1]
    exact q

/-- The copy loop never moves a cursor back. -/
theorem copy_loop_advances {T : Type} (lay : NodeLayout) (cp : Nat → T → Option T)
    (that : ListObj) (sid : Nat) (fuel : Nat) :
    ∀ (i : Nat) (it : BasicIterator) (h : Heap T) (L : ListObj)
      (r : Heap T × ListObj × Except Raised Unit),
    ListObj.copy_loop lay cp that fuel i it h L = some r →
    Roomy lay (h.storage sid) → Advances lay (h.storage sid) (r.1.storage sid) := by
  induction fuel with
  | zero =>
    intro i it h L r hr hroom
    simp only [ListObj.copy_loop] at hr
    split_ifs at hr
    cases hr
    exact advances_refl lay _ hroom
  | succ fuel ih =>
    intro i it h L r hr hroom
    simp only [ListObj.copy_loop] at hr
    split_ifs at hr
    · cases hr
      exact advances_refl lay _ hroom
    · have q := (insert_advances lay h L L.it_end (cp i (it.deref h)) sid hroom).1
      cases hres : (L.push_back lay h (cp i (it.deref h))).2.2 with
      | error err =>
        simp only [hres] at hr
        cases hr
        exact q
      | ok p =>
        simp only [hres] at hr
        exact advances_trans lay _ _ _ q (ih _ _ _ _ r hr q.2.2.2)

theorem copy_from_other_advances {T : Type} (lay : NodeLayout) (cp : Nat → T → Option T)
    (h : Heap T) (L that : ListObj) (fuel : Nat) (sid : Nat)
    (r : Heap T × ListObj × Except Raised Unit)
    (hr : ListObj.copy_from_other lay cp h L that fuel = some r)
    (hroom : Roomy lay (h.storage sid)) :
    Advances lay (h.storage sid) (r.1.storage sid) := by
  unfold ListObj.copy_from_other at hr
  cases hloop : ListObj.copy_loop lay cp that fuel 0 (that.it_end.inc h) h L with
  | none => simp only [hloop] at hr; cases hr
  | some r1 =>
    have q := copy_loop_advances lay cp that sid fuel 0 _ h L r1 hloop hroom
    simp only [hloop] at hr
    cases hres : r1.2.2 with
    | ok u =>
      simp only [hres] at hr
      cases hr
      exact q
    | error err =>
      simp only [hres] at hr
      cases hr
      show Advances lay _ ((r1.2.1.pop_all r1.1).1.storage sid)
      rw [show (r1.2.1.pop_all r1.1).1.storage = r1.1.storage from pop_while_storage _ _ _]
      exact q

theorem copy_create_with_advances {T : Type} (lay : NodeLayout) (cp : Nat → T → Option T)
    (h : Heap T) (e : Nat) (that : ListObj) (allocator : StackAllocator) (fuel : Nat)
    (sid : Nat) (r : Heap T × ListObj × Except Raised Unit)
    (hr : ListObj.copy_create_with lay cp h e that allocator fuel = some r)
    (hroom : Roomy lay (h.storage sid)) :
    Advances lay (h.storage sid) (r.1.storage sid) := by
  unfold ListObj.copy_create_with at hr
  dsimp only at hr
  cases hc : ListObj.copy_from_other lay cp (ListObj.create h e allocator).1
      (ListObj.create h e allocator).2 that fuel with
  | none => simp only [hc] at hr; cases hr
  | some r1 =>
    have q := copy_from_other_advances lay cp _ _ that fuel sid r1 hc hroom
    simp only [hc] at hr
    cases hres : r1.2.2 with
    | ok u =>
      simp only [hres] at hr
      cases hr
      exact q
    | error err =>
      simp only [hres] at hr
      cases hr
      show Advances lay _ ((r1.2.1.pop_all r1.1).1.storage sid)
      rw [show (r1.2.1.pop_all r1.1).1.storage = r1.1.storage from pop_while_storage _ _ _]
      exact q

theorem assign_advances {T : Type} (lay : NodeLayout) (cp : Nat → T → Option T)
    (h : Heap T) (L that : ListObj) (tmp fuel : Nat) (sid : Nat)
    (r : Heap T × ListObj × Except Raised Unit)
    (hr : ListObj.assign lay cp h L that tmp fuel = some r)
    (hroom : Roomy lay (h.storage sid)) :
    Advances lay (h.storage sid) (r.1.storage sid) := by
  unfold ListObj.assign at hr
  split_ifs at hr with hne
  · cases hc : ListObj.copy_create_with lay cp h tmp that L.my_allocator fuel with
    | none => simp only [hc] at hr; cases hr
    | some r1 =>
      have q := copy_create_with_advances lay cp h tmp that L.my_allocator fuel sid r1 hc hroom
      simp only [hc] at hr
      cases hres : r1.2.2 with
      | error err =>
        simp only [hres] at hr
        cases hr
        exact q
      | ok u =>
        simp only [hres] at hr
        cases hr
        show Advances lay _ (((L.swap r1.1 r1.2.1).2.2.pop_all (L.swap r1.1 r1.2.1).1).1.storage
          sid)
        rw [show ((L.swap r1.1 r1.2.1).2.2.pop_all (L.swap r1.1 r1.2.1).1).1.storage =
          (L.swap r1.1 r1.2.1).1.storage from pop_while_storage _ _ _]
        exact q
  · cases hr
    exact advances_refl lay _ hroom

/-- No statement moves the cursor of a storage that can place nodes back. -/
theorem cmd_step_advances {T : Type} (lay : NodeLayout) (sid : Nat) (c : Cmd T)
    (w w1 : World T) (hstep : c.step lay w = some w1) (hroom : Roomy lay (w.1.storage sid)) :
    Advances lay (w.1.storage sid) (w1.1.storage sid) := by
  cases c with
  | op k o =>
    simp only [Cmd.step, Option.some.injEq] at hstep
    subst hstep
    exact (step_advances lay w.1 (w.2 k) o sid hroom).1
  | create k e alloc =>
    simp only [Cmd.step, Option.some.injEq] at hstep
    subst hstep
    exact advances_refl lay _ hroom
  | create_n k e alloc n args =>
    have q := create_n_advances lay w.1 e alloc n args sid hroom
    simp only [Cmd.step] at hstep
    cases hres : (ListObj.create_n lay w.1 e alloc n args).2.2 with
    | ok u =>
      simp only [hres, Option.some.injEq] at hstep
      subst hstep
      exact q
    | error err =>
      simp only [hres, Option.some.injEq] at hstep
      subst hstep
      exact q
  | copy_create k e src cp fuel =>
    simp only [Cmd.step] at hstep
    cases hc : ListObj.copy_create lay cp w.1 e (w.2 src) fuel with
    | none => simp only [hc] at hstep; cases hstep
    | some r =>
      have q := copy_create_with_advances lay cp w.1 e (w.2 src) _ fuel sid r hc hroom
      simp only [hc] at hstep
      cases hres : r.2.2 with
      | ok u =>
        simp only [hres, Option.some.injEq] at hstep
        subst hstep
        exact q
      | error err =>
        simp only [hres, Option.some.injEq] at hstep
        subst hstep
        exact q
  | assign k src tmp cp fuel =>
    simp only [Cmd.step] at hstep
    cases hc : ListObj.assign lay cp w.1 (w.2 k) (w.2 src) tmp fuel with
    | none => simp only [hc] at hstep; cases hstep
    | some r =>
      have q := assign_advances lay cp w.1 (w.2 k) (w.2 src) tmp fuel sid r hc hroom
      simp only [hc, Option.some.injEq] at hstep
      subst hstep
      exact q
  | destroy k =>
    simp only [Cmd.step, Option.some.injEq] at hstep
    subst hstep
    show Advances lay _ (((w.2 k).pop_all w.1).1.storage sid)
    rw [show ((w.2 k).pop_all w.1).1.storage = w.1.storage from pop_while_storage _ _ _]
    exact advances_refl lay _ hroom

/-- No sequence of statements moves the cursor of a storage that can place nodes
back. -/
theorem run_advances {T : Type} (lay : NodeLayout) (sid : Nat) (cs : List (Cmd T)) :
    ∀ (w w1 : World T), World.run lay cs w = some w1 → Roomy lay (w.1.storage sid) →
    Advances lay (w.1.storage sid) (w1.1.storage sid) := by
  induction cs with
  | nil =>
    intro w w1 hrun hroom
    simp only [World.run, Option.some.injEq] at hrun
    subst hrun
    exact advances_refl lay _ hroom
  | cons c cs ih =>
    intro w w1 hrun hroom
    simp only [World.run] at hrun
    cases hstep : c.step lay w with
    | none => simp only [hstep] at hrun; cases hrun
    | some w2 =>
      simp only [hstep] at hrun
      have q := cmd_step_advances lay sid c w w2 hstep hroom
      exact advances_trans lay _ _ _ q (ih w2 w1 hrun q.2.2.2)


/-! ### The constructors and their roll-back -/

/-- A list constructed at `e`, outside the unallocated part of its arena and away from
the nodes `P`, sits properly on the arena, next to `P`. -/
theorem create_builds {T : Type} (lay : NodeLayout) (sid : Nat) (P : List Nat) (h : Heap T)
    (e : Nat) (alloc : StackAllocator) (hs : alloc.my_storage = some sid)
    (hroom : Roomy lay (h.storage sid)) (hpos : 0 < lay.sizeof_Node)
    (hbase : (h.storage sid).base ≤ (h.storage sid).my_used)
    (he : e < (h.storage sid).my_used ∨ (h.storage sid).base + (h.storage sid).N ≤ e)
    (hP : OutsideFree (h.storage sid) P) (heP : e ∉ P) :
    Builds lay sid P (ListObj.create h e alloc).1 (ListObj.create h e alloc).2 [] ∧
    SameOn P h (ListObj.create h e alloc).1 := by
  obtain ⟨hcur, hstat, hapos⟩ := hroom
  refine ⟨⟨⟨create_isRing h e alloc, hs, ?_, hcur, ?_, hstat, hpos, hapos⟩, hP, ?_⟩, ?_⟩
  · intro n hn
    rw [List.mem_singleton.mp hn]
    exact he
  · show 0 + (h.storage sid).base ≤ (h.storage sid).my_used
    omega
  · intro x hx hc
    rw [List.mem_singleton.mp hc] at hx
    exact heP hx
  · intro x hx
    have hxe : x ≠ e := fun hc => heP (hc ▸ hx)
    simp [ListObj.create, upd, hxe]

/-- The counting loop of `push_back` calls on a list that sits properly on its arena
next to the nodes `P`: it appends new nodes `ps` to the ring and leaves `P` alone; when
it raises, fewer than `n` nodes were appended. -/
theorem push_back_n_builds {T : Type} (lay : NodeLayout) (sid : Nat) (P : List Nat)
    (args : Nat → Option T) (n : Nat) :
    ∀ (i : Nat) (h : Heap T) (C : ListObj) (cs : List Nat), Builds lay sid P h C cs →
    ∃ ps, Builds lay sid P (ListObj.push_back_n lay args n i h C).1
        (ListObj.push_back_n lay args n i h C).2.1 (cs ++ ps) ∧
      SameOn P h (ListObj.push_back_n lay args n i h C).1 ∧
      (ListObj.push_back_n lay args n i h C).1.destroyed = h.destroyed ∧
      (∀ s2, s2 ≠ sid → (ListObj.push_back_n lay args n i h C).1.storage s2 = h.storage s2) ∧
      (ListObj.push_back_n lay args n i h C).2.1.my_end = C.my_end ∧
      (ListObj.push_back_n lay args n i h C).2.1.my_allocator = C.my_allocator ∧
      ((ListObj.push_back_n lay args n i h C).2.2 = .ok () → ps.length = n) ∧
      (∀ err, (ListObj.push_back_n lay args n i h C).2.2 = .error err → ps.length < n) := by
  induction n with
  | zero =>
    intro i h C cs hb
    refine ⟨[], ?_, sameOn_refl P h, rfl, fun _ _ => rfl, rfl, rfl, fun _ => rfl, ?_⟩
    · rw [List.append_nil]
      exact hb
    · intro err hc
      cases hc
  | succ n ih =>
    intro i h C cs hb
    obtain ⟨hsame, hdes, hoth, _, _, _, hcase⟩ := push_back_builds lay sid P h C cs (args i) hb
    rcases hcase with ⟨v, _, hres, hb1, hobj, _, _, _, _, _, _⟩ | ⟨err, hres, hobj, hb1, _, _⟩
    · obtain ⟨ps, q1, q2, q3, q4, q5, q6, q7, q8⟩ := ih (i + 1) _ _ _ hb1
      simp only [ListObj.push_back_n, hres]
      refine ⟨alignUp (h.storage sid).my_used lay.alignof_Node :: ps, ?_,
        sameOn_trans P _ _ _ hsame q2, by rw [q3, hdes], ?_, by rw [q5, hobj],
        by rw [q6, hobj], ?_, ?_⟩
      · rw [List.append_assoc] at q1
        exact q1
      · intro s2 hne
        rw [q4 s2 hne, hoth s2 hne]
      · intro hok
        rw [List.length_cons, q7 hok]
      · intro err herr
        rw [List.length_cons]
        exact Nat.succ_lt_succ (q8 err herr)
    · simp only [ListObj.push_back_n, hres]
      refine ⟨[], ?_, hsame, hdes, hoth, by rw [hobj], by rw [hobj], ?_, ?_⟩
      · rw [List.append_nil, hobj]
        exact hb1
      · intro hc
        cases hc
      · intro _ _
        exact Nat.succ_pos _


/-- The loop `while (my_size) pop_back()` on a list that sits on its arena next to the
nodes `P`: the list is emptied, its sentinel linked to itself, each of its nodes
destroyed once, and `P` left alone. -/
theorem rollback_builds {T : Type} (lay : NodeLayout) (sid : Nat) (P : List Nat)
    (h : Heap T) (C : ListObj) (cs : List Nat) (hb : Builds lay sid P h C cs) :
    (C.pop_all h).2 = { C with my_size := 0 } ∧
    (C.pop_all h).1.my_next C.my_end = C.my_end ∧
    (C.pop_all h).1.my_prev C.my_end = C.my_end ∧
    (C.pop_all h).1.destroyed = cs ++ h.destroyed ∧
    (C.pop_all h).1.storage = h.storage ∧
    SameOn P h (C.pop_all h).1 ∧ (C.my_end :: cs).Nodup ∧
    (C.pop_all h).1.value = h.value ∧
    (∀ y, y ∉ C.my_end :: cs → (C.pop_all h).1.my_next y = h.my_next y ∧
      (C.pop_all h).1.my_prev y = h.my_prev y) := by
  obtain ⟨⟨hr, hs, hout, hcur, hcount, hstat, hpos, hapos⟩, hP, hdisj⟩ := hb
  have hM2 := alignUp_lt ((h.storage sid).base + (h.storage sid).N) lay.alignof_Node hapos
  have hsz : C.my_size < SIZE_MOD := by omega
  obtain ⟨p1, p2, p3, p4, p5, p6⟩ := pop_all_ring cs h C hr hsz
  have hl := p1.2.1
  rw [p2] at hl
  simp only [Linked] at hl
  refine ⟨p2, hl.1, hl.2, p4, p5, ?_, hr.1, p3, p6⟩
  intro x hx
  obtain ⟨z1, z2⟩ := p6 x (hdisj x hx)
  exact ⟨z1, z2, by rw [p3]⟩

/-- The copy loop from the position `it` of the source list `S`, whose nodes are among
`P`, into a list that sits properly on its arena next to `P`: with fuel for the nodes
left, it returns; it appends new nodes `ps`, all inside the buffer, and leaves `P`
alone. When it returns normally every node left was copied; when it raises, fewer
were. It returns normally when every copy yields the value copied and the arena has
room for the nodes left. -/
theorem copy_loop_builds {T : Type} (lay : NodeLayout) (sid : Nat) (P : List Nat)
    (cp : Nat → T → Option T) (S : ListObj) (rest : List Nat) :
    ∀ (done : List Nat) (fuel i : Nat) (it : BasicIterator) (h : Heap T) (C : ListObj)
      (cs : List Nat),
    IsRing h S (done ++ rest) → (∀ x ∈ S.my_end :: (done ++ rest), x ∈ P) →
    Builds lay sid P h C cs →
    (rest ++ [S.my_end]).head? = some it.my_node → rest.length ≤ fuel →
    ∃ r ps, ListObj.copy_loop lay cp S fuel i it h C = some r ∧
      Builds lay sid P r.1 r.2.1 (cs ++ ps) ∧ SameOn P h r.1 ∧
      r.1.destroyed = h.destroyed ∧
      (∀ s2, s2 ≠ sid → r.1.storage s2 = h.storage s2) ∧
      r.2.1.my_end = C.my_end ∧ r.2.1.my_allocator = C.my_allocator ∧
      (∀ x ∈ cs, r.1.value x = h.value x) ∧
      (∀ p ∈ ps, (h.storage sid).base ≤ p ∧
        p + lay.sizeof_Node ≤ (h.storage sid).base + (h.storage sid).N) ∧
      (r.2.2 = .ok () → ps.length = rest.length ∧
        ((∀ j v, cp j v = some v) → ps.map r.1.value = rest.map h.value)) ∧
      (∀ err, r.2.2 = .error err → ps.length < rest.length) ∧
      ((∀ j v, cp j v = some v) → lay.alignof_Node ∣ lay.sizeof_Node →
        alignUp (h.storage sid).my_used lay.alignof_Node + rest.length * lay.sizeof_Node
          ≤ (h.storage sid).base + (h.storage sid).N → r.2.2 = .ok ()) := by
  induction rest with
  | nil =>
    intro done fuel i it h C cs _ _ hb hit _
    have hit2 : it = S.it_end := by
      rw [iterator_eq_iff]
      simpa using hit.symm
    refine ⟨(h, C, .ok ()), [], ?_, ?_, sameOn_refl P h, rfl, fun _ _ => rfl, rfl, rfl,
      fun _ _ => rfl, ?_, fun _ => ⟨rfl, fun _ => rfl⟩, ?_, fun _ _ _ => rfl⟩
    · cases fuel <;> simp [ListObj.copy_loop, hit2]
    · rw [List.append_nil]
      exact hb
    · intro p hp
      cases hp
    · intro err hc
      cases hc
  | cons x rest ih =>
    intro done fuel i it h C cs hr hsub hb hit hfuel
    have hitx : it.my_node = x := by simpa using hit.symm
    have hxe : x ≠ S.my_end := by
      intro hc
      have := (List.nodup_cons.mp hr.1).1
      apply this
      rw [← hc]
      exact List.mem_append_right _ (List.mem_cons_self _ _)
    have hne : it ≠ S.it_end := by
      intro hc
      apply hxe
      rw [← hitx, hc]
      rfl
    obtain ⟨fuel1, rfl⟩ : ∃ f, fuel = f + 1 := ⟨fuel - 1, by
      rw [List.length_cons] at hfuel
      omega⟩
    have hxP : x ∈ P := hsub x (List.mem_cons_of_mem _ (List.mem_append_right _
      (List.mem_cons_self _ _)))
    have hderef : it.deref h = h.value x := by
      unfold BasicIterator.deref
      rw [hitx]
    have hapos : 0 < lay.alignof_Node := hb.1.2.2.2.2.2.2.2
    obtain ⟨hsame, hdes, hoth, hbase, hN, _, hcase⟩ :=
      push_back_builds lay sid P h C cs (cp i (it.deref h)) hb
    rcases hcase with ⟨v, harg, hres, hb1, hobj, hval, hfr, _, hlo, hhi, hcur⟩ |
      ⟨err, hres, hobj, hb1, hval2, hwhy⟩
    · -- the node was copied
      obtain ⟨hr2, hvals⟩ := isRing_of_sameOn P h _ S _ hr hsub hsame
      have hnext : (C.push_back lay h (cp i (it.deref h))).1.my_next x = h.my_next x :=
        (hsame x hxP).1
      have hit2 : (rest ++ [S.my_end]).head? =
          some (it.inc (C.push_back lay h (cp i (it.deref h))).1).my_node := by
        unfold BasicIterator.inc
        rw [hitx]
        simp only
        rw [hnext]
        exact (Linked_at h S.my_end x done rest hr.2.1).1
      have hr3 : IsRing (C.push_back lay h (cp i (it.deref h))).1 S ((done ++ [x]) ++ rest) := by
        rw [List.append_assoc]
        exact hr2
      have hsub3 : ∀ y ∈ S.my_end :: ((done ++ [x]) ++ rest), y ∈ P := by
        rw [List.append_assoc]
        exact hsub
      obtain ⟨r, ps, q1, q2, q3, q4, q5, q6, q7, q8, q9, q10, q11, q12⟩ :=
        ih (done ++ [x]) fuel1 (i + 1) _ _ _ _ hr3 hsub3 hb1 hit2
          (by rw [List.length_cons] at hfuel; omega)
      have hpv : r.1.value (alignUp (h.storage sid).my_used lay.alignof_Node) = v := by
        rw [q8 _ (List.mem_append_right _ (List.mem_singleton_self _)), hval]
        simp [upd]
      refine ⟨r, alignUp (h.storage sid).my_used lay.alignof_Node :: ps, ?_, ?_,
        sameOn_trans P _ _ _ hsame q3, by rw [q4, hdes], ?_, by rw [q6, hobj],
        by rw [q7, hobj], ?_, ?_, ?_, ?_, ?_⟩
      · simp only [ListObj.copy_loop, if_neg hne, hres]
        exact q1
      · rw [List.append_assoc] at q2
        exact q2
      · intro s2 hne2
        rw [q5 s2 hne2, hoth s2 hne2]
      · intro y hy
        rw [q8 y (List.mem_append_left _ hy), hval]
        have : y ≠ alignUp (h.storage sid).my_used lay.alignof_Node :=
          fun hc => hfr (hc ▸ List.mem_cons_of_mem _ hy)
        simp [upd, this]
      · intro p hp
        rcases List.mem_cons.mp hp with hp | hp
        · rw [hp]
          exact ⟨hlo, hhi⟩
        · have := q9 p hp
          rw [hbase, hN] at this
          exact this
      · intro hok
        obtain ⟨t1, t2⟩ := q10 hok
        refine ⟨by rw [List.length_cons, List.length_cons, t1], ?_⟩
        intro hcp
        rw [List.map_cons, List.map_cons, hpv, t2 hcp]
        have hv : v = h.value x := by
          have := hcp i (it.deref h)
          rw [harg, hderef] at this
          exact Option.some.inj this
        rw [hv]
        congr 1
        apply List.map_congr_left
        intro y hy
        exact (hsame y (hsub y (List.mem_cons_of_mem _ (List.mem_append_right _
          (List.mem_cons_of_mem _ hy))))).2.2
      · intro err herr
        rw [List.length_cons, List.length_cons]
        exact Nat.succ_lt_succ (q11 err herr)
      · intro hcp hdiv hroom
        apply q12 hcp hdiv
        rw [hbase, hN, hcur]
        have hd : lay.alignof_Node ∣
            alignUp (h.storage sid).my_used lay.alignof_Node + lay.sizeof_Node :=
          Nat.dvd_add (alignUp_dvd _ _ hapos) hdiv
        rw [alignUp_of_dvd _ _ (Nat.mod_eq_zero_of_dvd hd)]
        rw [List.length_cons, Nat.add_mul, Nat.one_mul] at hroom
        omega
    · -- the `push_back` raised
      refine ⟨((C.push_back lay h (cp i (it.deref h))).1,
        (C.push_back lay h (cp i (it.deref h))).2.1, .error err), [], ?_, ?_, hsame, hdes,
        hoth, by rw [hobj], by rw [hobj], ?_, ?_, ?_, ?_, ?_⟩
      · simp only [ListObj.copy_loop, if_neg hne, hres]
      · rw [List.append_nil, hobj]
        exact hb1
      · intro y _
        show (C.push_back lay h (cp i (it.deref h))).1.value y = h.value y
        rw [hval2]
      · intro p hp
        cases hp
      · intro hc
        cases hc
      · intro _ _
        rw [List.length_cons]
        exact Nat.succ_pos _
      · intro hcp hdiv hroom
        exfalso
        rcases hwhy with hnone | hnofit
        · rw [hcp] at hnone
          cases hnone
        · rw [List.length_cons, Nat.add_mul, Nat.one_mul] at hroom
          omega


theorem pop_all_of_size_zero {T : Type} (h : Heap T) (L : ListObj) (h0 : L.my_size = 0) :
    L.pop_all h = (h, L) := by
  unfold ListObj.pop_all
  rw [h0]
  rfl

/-- The constructor `List(that, allocator)` at `e`, for a source list `S` whose nodes are
among `P`, on an arena that can place nodes: with fuel for the nodes of `S` it returns.
`P` is left alone and only the storage `sid` changes. When it returns normally, the new
list sits on the arena with as many nodes as `S`, inside the buffer, holding the values
of `S` if every copy yields the value copied, and nothing was destroyed. When it raises,
the nodes `ps` built so far, fewer than `S` has, were each destroyed once and the
sentinel is linked to itself with size zero. It returns normally when every copy yields
the value copied and the arena has room. -/
theorem copy_create_with_builds {T : Type} (lay : NodeLayout) (sid : Nat) (P : List Nat)
    (cp : Nat → T → Option T) (h : Heap T) (e : Nat) (S : ListObj) (ss : List Nat)
    (allocator : StackAllocator) (fuel : Nat)
    (hrS : IsRing h S ss) (hsub : ∀ x ∈ S.my_end :: ss, x ∈ P)
    (hs : allocator.my_storage = some sid)
    (hroom : Roomy lay (h.storage sid)) (hpos : 0 < lay.sizeof_Node)
    (hbase : (h.storage sid).base ≤ (h.storage sid).my_used)
    (he : e < (h.storage sid).my_used ∨ (h.storage sid).base + (h.storage sid).N ≤ e)
    (hP : OutsideFree (h.storage sid) P) (heP : e ∉ P) (hfuel : ss.length ≤ fuel) :
    ∃ r ps, ListObj.copy_create_with lay cp h e S allocator fuel = some r ∧
      SameOn P h r.1 ∧ (∀ s2, s2 ≠ sid → r.1.storage s2 = h.storage s2) ∧
      r.2.1.my_end = e ∧ r.2.1.my_allocator = allocator ∧
      r.2.1.my_node_allocator.my_storage = some sid ∧
      (r.2.2 = .ok () → Builds lay sid P r.1 r.2.1 ps ∧ ps.length = ss.length ∧
        ((∀ j v, cp j v = some v) → ps.map r.1.value = ss.map h.value) ∧
        r.1.destroyed = h.destroyed ∧
        (∀ p ∈ ps, (h.storage sid).base ≤ p ∧
          p + lay.sizeof_Node ≤ (h.storage sid).base + (h.storage sid).N)) ∧
      (∀ err, r.2.2 = .error err → r.2.1.my_size = 0 ∧ r.1.my_next e = e ∧
        r.1.my_prev e = e ∧ (e :: ps).Nodup ∧ ps.length < ss.length ∧
        r.1.destroyed = ps ++ h.destroyed) ∧
      ((∀ j v, cp j v = some v) → lay.alignof_Node ∣ lay.sizeof_Node →
        alignUp (h.storage sid).my_used lay.alignof_Node + ss.length * lay.sizeof_Node
          ≤ (h.storage sid).base + (h.storage sid).N → r.2.2 = .ok ()) := by
  obtain ⟨hb0, hsame0⟩ := create_builds lay sid P h e allocator hs hroom hpos hbase he hP heP
  obtain ⟨hrS1, hv1⟩ := isRing_of_sameOn P h _ S ss hrS hsub hsame0
  have hhead : (ss ++ [S.my_end]).head? =
      some (S.it_end.inc (ListObj.create h e allocator).1).my_node := by
    have h1 := Linked_head h ss S.my_end S.my_end hrS.2.1
    have h2 : (ListObj.create h e allocator).1.my_next S.my_end = h.my_next S.my_end :=
      (hsame0 S.my_end (hsub _ (List.mem_cons_self _ _))).1
    rw [h1]
    unfold BasicIterator.inc ListObj.it_end
    simp only
    rw [h2]
  obtain ⟨r, ps, q1, q2, q3, q4, q5, q6, q7, _, q9, q10, q11, q12⟩ :=
    copy_loop_builds lay sid P cp S ss [] fuel 0 _ _ _ [] hrS1
      (by simpa using hsub) hb0 hhead hfuel
  rw [List.nil_append] at q2
  have hst0 : (ListObj.create h e allocator).1.storage = h.storage := rfl
  have hd0 : (ListObj.create h e allocator).1.destroyed = h.destroyed := rfl
  have hval0 : (ListObj.create h e allocator).1.value = h.value := rfl
  have hna : r.2.1.my_node_allocator.my_storage = some sid := q2.1.2.1
  rw [hst0] at q5 q9 q12
  rw [hd0] at q4
  rw [hval0] at q10
  cases hres : r.2.2 with
  | ok u =>
    refine ⟨(r.1, r.2.1, .ok ()), ps, ?_, sameOn_trans P _ _ _ hsame0 q3, q5, q6, q7, hna,
      ?_, ?_, ?_⟩
    · unfold ListObj.copy_create_with ListObj.copy_from_other
      simp only [q1, hres]
    · intro _
      obtain ⟨t1, t2⟩ := q10 hres
      exact ⟨q2, t1, t2, q4, q9⟩
    · intro err hc
      cases hc
    · intro _ _ _
      rfl
  | error err =>
    obtain ⟨b1, b2, b3, b4, b5, b6, b7, _, _⟩ := rollback_builds lay sid P r.1 r.2.1 ps q2
    have hz : (r.2.1.pop_all r.1).2.my_size = 0 := by rw [b1]
    have hdest : (r.2.1.pop_all r.1).2.destroy (r.2.1.pop_all r.1).1 =
        ((r.2.1.pop_all r.1).1, (r.2.1.pop_all r.1).2) :=
      pop_all_of_size_zero _ _ hz
    refine ⟨((r.2.1.pop_all r.1).1, (r.2.1.pop_all r.1).2, .error err), ps, ?_,
      sameOn_trans P _ _ _ (sameOn_trans P _ _ _ hsame0 q3) b6, ?_, ?_, ?_, ?_, ?_, ?_, ?_⟩
    · unfold ListObj.copy_create_with ListObj.copy_from_other
      simp only [q1, hres, hdest]
    · intro s2 hne
      show (r.2.1.pop_all r.1).1.storage s2 = _
      rw [b5, q5 s2 hne]
    · show (r.2.1.pop_all r.1).2.my_end = e
      rw [b1]
      exact q6
    · show (r.2.1.pop_all r.1).2.my_allocator = allocator
      rw [b1]
      exact q7
    · show (r.2.1.pop_all r.1).2.my_node_allocator.my_storage = some sid
      rw [b1]
      exact hna
    · intro hc
      cases hc
    · intro err2 _
      rw [q6] at b2 b3 b7
      exact ⟨hz, b2, b3, b7, q11 err hres, by
        show (r.2.1.pop_all r.1).1.destroyed = _
        rw [b4, q4]⟩
    · intro hcp hdiv hrm
      have := q12 hcp hdiv hrm
      rw [hres] at this
      cases this


/-- The value nodes of a ring are the nodes the list is seen to have. -/
theorem nodes_of_isRing {T : Type} (h : Heap T) (L : ListObj) (ns : List Nat)
    (hr : IsRing h L ns) : L.nodes h = ns := by
  obtain ⟨_, hl, hlen⟩ := hr
  apply List.ext_getElem?
  intro i
  unfold ListObj.nodes
  by_cases hi : i < ns.length
  · have h1 := advance_linked h ns L.my_end L.my_end (i + 1) hl (by omega)
    rw [List.getElem?_cons_succ, List.getElem?_append_left hi] at h1
    rw [h1, List.getElem?_map, List.getElem?_range (by rw [hlen]; exact hi)]
    rfl
  · rw [List.getElem?_eq_none (by
        rw [List.length_map, List.length_range, hlen]
        omega), List.getElem?_eq_none (by omega)]

/-- A list that is a ring is well-formed, has these nodes, and forward iteration yields
their values. -/
theorem facts_of_isRing {T : Type} (h : Heap T) (L : ListObj) (ns : List Nat)
    (hr : IsRing h L ns) :
    WellFormed h L ∧ L.nodes h = ns ∧
    ∀ fuel, L.size ≤ fuel → L.forward h fuel = some (ns.map h.value) :=
  ⟨wellFormed_of_isRing h L ns hr, nodes_of_isRing h L ns hr,
    fun fuel hf => forward_of_isRing h L ns hr fuel hf⟩

/-- A well-formed list is the ring of its nodes. -/
theorem isRing_nodes {T : Type} (h : Heap T) (L : ListObj) (hwf : WellFormed h L) :
    IsRing h L (L.nodes h) := isRing_of_wellFormed h L hwf


/-- The counting constructors at `e` on an arena that can place nodes: when the loop
raises after building the nodes `ps`, fewer than asked for, the constructor raises the
same error with each node of `ps` destroyed once, the sentinel linked to itself and the
size zero. -/
theorem create_n_rollback {T : Type} (lay : NodeLayout) (sid : Nat) (h : Heap T) (e : Nat)
    (alloc : StackAllocator) (k : Nat) (args : Nat → Option T) (err : Raised)
    (hs : alloc.my_storage = some sid)
    (hroom : Roomy lay (h.storage sid)) (hpos : 0 < lay.sizeof_Node)
    (hbase : (h.storage sid).base ≤ (h.storage sid).my_used)
    (he : e < (h.storage sid).my_used ∨ (h.storage sid).base + (h.storage sid).N ≤ e)
    (herr : (ListObj.create_n lay h e alloc k args).2.2 = .error err) :
    ∃ ps : List Nat, ps.length < k ∧ (e :: ps).Nodup ∧
      (ListObj.push_back_n lay args k 0 (ListObj.create h e alloc).1
        (ListObj.create h e alloc).2).2.2 = .error err ∧
      IsRing (ListObj.push_back_n lay args k 0 (ListObj.create h e alloc).1
          (ListObj.create h e alloc).2).1
        (ListObj.push_back_n lay args k 0 (ListObj.create h e alloc).1
          (ListObj.create h e alloc).2).2.1 ps ∧
      (ListObj.create_n lay h e alloc k args).2.1.my_size = 0 ∧
      (ListObj.create_n lay h e alloc k args).2.1.my_end = e ∧
      (ListObj.create_n lay h e alloc k args).1.my_next e = e ∧
      (ListObj.create_n lay h e alloc k args).1.my_prev e = e ∧
      (ListObj.create_n lay h e alloc k args).1.destroyed = ps ++ h.destroyed := by
  obtain ⟨hb0, _⟩ := create_builds lay sid [] h e alloc hs hroom hpos hbase he
    (fun _ hn => by cases hn) (fun hc => by cases hc)
  obtain ⟨ps, q1, _, q3, _, q5, _, _, q8⟩ :=
    push_back_n_builds lay sid [] args k 0 _ _ [] hb0
  rw [List.nil_append] at q1
  obtain ⟨b1, b2, b3, b4, _, _, b7, _, _⟩ := rollback_builds lay sid [] _ _ ps q1
  have hd0 : (ListObj.create h e alloc).1.destroyed = h.destroyed := rfl
  have he0 : (ListObj.create h e alloc).2.my_end = e := rfl
  rw [q5, he0] at b2 b3 b7
  unfold ListObj.create_n at herr ⊢
  dsimp only at herr ⊢
  cases hres : (ListObj.push_back_n lay args k 0 (ListObj.create h e alloc).1
      (ListObj.create h e alloc).2).2.2 with
  | ok u =>
    rw [hres] at herr
    cases herr
  | error err2 =>
    rw [hres] at herr
    simp only [Except.error.injEq] at herr
    subst herr
    refine ⟨ps, q8 _ hres, b7, rfl, q1.1.1, ?_, ?_, b2, b3, ?_⟩
    · show (ListObj.pop_all _ _).2.my_size = 0
      rw [b1]
    · show (ListObj.pop_all _ _).2.my_end = e
      rw [b1]
      exact q5.trans he0
    · show (ListObj.pop_all _ _).1.destroyed = _
      rw [b4, q3, hd0]


/-- The counting constructors raise exactly when their loop of `push_back` calls raises,
and raise the same error. -/
theorem create_n_error_iff {T : Type} (lay : NodeLayout) (h : Heap T) (e : Nat)
    (alloc : StackAllocator) (k : Nat) (args : Nat → Option T) (err : Raised) :
    (ListObj.create_n lay h e alloc k args).2.2 = .error err ↔
    (ListObj.push_back_n lay args k 0 (ListObj.create h e alloc).1
      (ListObj.create h e alloc).2).2.2 = .error err := by
  unfold ListObj.create_n
  dsimp only
  cases hres : (ListObj.push_back_n lay args k 0 (ListObj.create h e alloc).1
      (ListObj.create h e alloc).2).2.2 with
  | ok u =>
    constructor
    · intro hc
      cases hc
    · intro hc
      cases hc
  | error err2 => exact Iff.rfl

/-- The constructor `List(that, allocator)` at `e` and its copy loop, for a source list
`S` whose nodes are among `P`, on an arena that can place nodes: with fuel for the nodes
of `S` both return, and the constructor raises exactly when the loop raises, with the
same error. When the loop raises with the nodes `ps` on the ring of the new list, fewer
than `S` has, the constructor leaves each node of `ps` destroyed once, the sentinel
linked to itself and the size zero; `P` is left alone. -/
theorem copy_create_with_rollback {T : Type} (lay : NodeLayout) (sid : Nat) (P : List Nat)
    (cp : Nat → T → Option T) (h : Heap T) (e : Nat) (S : ListObj) (ss : List Nat)
    (allocator : StackAllocator) (fuel : Nat)
    (hrS : IsRing h S ss) (hsub : ∀ x ∈ S.my_end :: ss, x ∈ P)
    (hs : allocator.my_storage = some sid)
    (hroom : Roomy lay (h.storage sid)) (hpos : 0 < lay.sizeof_Node)
    (hbase : (h.storage sid).base ≤ (h.storage sid).my_used)
    (he : e < (h.storage sid).my_used ∨ (h.storage sid).base + (h.storage sid).N ≤ e)
    (hP : OutsideFree (h.storage sid) P) (heP : e ∉ P) (hfuel : ss.length ≤ fuel) :
    ∃ rl r ps,
      ListObj.copy_loop lay cp S fuel 0 (S.it_end.inc (ListObj.create h e allocator).1)
        (ListObj.create h e allocator).1 (ListObj.create h e allocator).2 = some rl ∧
      ListObj.copy_create_with lay cp h e S allocator fuel = some r ∧
      IsRing rl.1 rl.2.1 ps ∧
      (∀ err, r.2.2 = .error err ↔ rl.2.2 = .error err) ∧
      SameOn P h r.1 ∧
      (∀ err, rl.2.2 = .error err → r.2.1.my_size = 0 ∧ r.1.my_next e = e ∧
        r.1.my_prev e = e ∧ (e :: ps).Nodup ∧ ps.length < ss.length ∧
        r.1.destroyed = ps ++ h.destroyed) := by
  obtain ⟨hb0, hsame0⟩ := create_builds lay sid P h e allocator hs hroom hpos hbase he hP heP
  obtain ⟨hrS1, _⟩ := isRing_of_sameOn P h _ S ss hrS hsub hsame0
  have hhead : (ss ++ [S.my_end]).head? =
      some (S.it_end.inc (ListObj.create h e allocator).1).my_node := by
    have h1 := Linked_head h ss S.my_end S.my_end hrS.2.1
    have h2 : (ListObj.create h e allocator).1.my_next S.my_end = h.my_next S.my_end :=
      (hsame0 S.my_end (hsub _ (List.mem_cons_self _ _))).1
    rw [h1]
    unfold BasicIterator.inc ListObj.it_end
    simp only
    rw [h2]
  obtain ⟨rl, ps, q1, q2, q3, q4, _, q6, _, _, _, _, q11, _⟩ :=
    copy_loop_builds lay sid P cp S ss [] fuel 0 _ _ _ [] hrS1
      (by simpa using hsub) hb0 hhead hfuel
  rw [List.nil_append] at q2
  have hd0 : (ListObj.create h e allocator).1.destroyed = h.destroyed := rfl
  rw [hd0] at q4
  cases hres : rl.2.2 with
  | ok u =>
    refine ⟨rl, (rl.1, rl.2.1, .ok ()), ps, q1, ?_, q2.1.1, ?_,
      sameOn_trans P _ _ _ hsame0 q3, ?_⟩
    · unfold ListObj.copy_create_with ListObj.copy_from_other
      simp only [q1, hres]
    · intro err
      rw [hres]
    · intro err hc
      rw [hres] at hc
      cases hc
  | error err0 =>
    obtain ⟨b1, b2, b3, b4, _, b6, b7, _, _⟩ := rollback_builds lay sid P rl.1 rl.2.1 ps q2
    have hz : (rl.2.1.pop_all rl.1).2.my_size = 0 := by rw [b1]
    have hdest : (rl.2.1.pop_all rl.1).2.destroy (rl.2.1.pop_all rl.1).1 =
        ((rl.2.1.pop_all rl.1).1, (rl.2.1.pop_all rl.1).2) :=
      pop_all_of_size_zero _ _ hz
    refine ⟨rl, ((rl.2.1.pop_all rl.1).1, (rl.2.1.pop_all rl.1).2, .error err0), ps, q1, ?_,
      q2.1.1, fun err => by rw [hres],
      sameOn_trans P _ _ _ (sameOn_trans P _ _ _ hsame0 q3) b6, ?_⟩
    · unfold ListObj.copy_create_with ListObj.copy_from_other
      simp only [q1, hres, hdest]
    · intro err herr
      rw [q6] at b2 b3 b7
      have he0 : (ListObj.create h e allocator).2.my_end = e := rfl
      rw [he0] at b2 b3 b7
      exact ⟨hz, b2, b3, b7, q11 err herr, by
        show (rl.2.1.pop_all rl.1).1.destroyed = _
        rw [b4, q4]⟩

/-! ### Swapping two rings -/

/-- A chain from `n` through `rest` to `a` is, after its last node `l` was pointed to `b`
instead and `b` pointed back to `l`, a chain from `n` through `rest` to `b`. -/
theorem Linked_seg_reanchor {T : Type} (h h1 : Heap T) (a b l : Nat) (rest : List Nat) :
    ∀ n : Nat, Linked h n rest a → (n :: rest).Nodup → (n :: rest).getLast? = some l →
    (∀ x ∈ n :: rest, h1.my_next x = if x = l then b else h.my_next x) →
    (∀ y ∈ rest, h1.my_prev y = h.my_prev y) → h1.my_prev b = l →
    Linked h1 n rest b := by
  induction rest with
  | nil =>
    intro n _ _ hlast hn _ hpb
    have hl : l = n := by simpa using hlast.symm
    simp only [Linked]
    refine ⟨?_, by rw [hpb, hl]⟩
    rw [hn n (List.mem_singleton_self _), hl, if_pos rfl]
  | cons m rest ih =>
    intro n hl hnd hlast hn hp hpb
    simp only [Linked] at hl ⊢
    rw [List.getLast?_cons_cons] at hlast
    have hlm : l ∈ m :: rest := List.mem_of_getLast?_eq_some hlast
    have hnl : n ≠ l := fun hc => (List.nodup_cons.mp hnd).1 (hc ▸ hlm)
    refine ⟨⟨?_, ?_⟩, ih m hl.2 (List.nodup_cons.mp hnd).2 hlast
      (fun x hx => hn x (List.mem_cons_of_mem _ hx))
      (fun y hy => hp y (List.mem_cons_of_mem _ hy)) hpb⟩
    · rw [hn n (List.mem_cons_self _ _), if_neg hnl]
      exact hl.1.1
    · rw [hp m (List.mem_cons_self _ _)]
      exact hl.1.2

/-- A ring around the sentinel `a` becomes a ring around the sentinel `b` when the
neighbours of `a` are pointed to `b` and `b` is given the links `a` had (or is linked to
itself when the ring has no node). -/
theorem Linked_reanchor {T : Type} (h h1 : Heap T) (a b : Nat) (ns : List Nat)
    (hl : Linked h a ns a) (hnd : (a :: ns).Nodup)
    (hn : ∀ x ∈ ns, h1.my_next x = if x = h.my_prev a then b else h.my_next x)
    (hp : ∀ x ∈ ns, h1.my_prev x = if x = h.my_next a then b else h.my_prev x)
    (hnb : h1.my_next b = if ns = [] then b else h.my_next a)
    (hpb : h1.my_prev b = if ns = [] then b else h.my_prev a) :
    Linked h1 b ns b := by
  cases ns with
  | nil =>
    simp only [Linked]
    rw [if_pos rfl] at hnb hpb
    exact ⟨hnb, hpb⟩
  | cons n rest =>
    have hlast := Linked_last h (n :: rest) a a hl
    rw [List.getLast?_cons_cons] at hlast
    simp only [Linked] at hl ⊢
    rw [if_neg (List.cons_ne_nil _ _)] at hnb hpb
    have hnd2 := (List.nodup_cons.mp hnd).2
    refine ⟨⟨by rw [hnb]; exact hl.1.1, ?_⟩, ?_⟩
    · rw [hp n (List.mem_cons_self _ _), if_pos hl.1.1.symm]
    · refine Linked_seg_reanchor h h1 a b (h.my_prev a) rest n hl.2 hnd2 hlast hn ?_ hpb
      intro y hy
      have hyn : y ≠ h.my_next a := by
        rw [hl.1.1]
        exact fun hc => (List.nodup_cons.mp hnd2).1 (hc ▸ hy)
      rw [hp y (List.mem_cons_of_mem _ hy), if_neg hyn]

/-- The neighbours of the sentinel of a ring: the sentinel itself when the ring has no
node, nodes of the ring otherwise. -/
theorem ring_ends {T : Type} (h : Heap T) (L : ListObj) (ns : List Nat)
    (hr : IsRing h L ns) :
    (ns = [] → h.my_next L.my_end = L.my_end ∧ h.my_prev L.my_end = L.my_end) ∧
    (ns ≠ [] → h.my_next L.my_end ∈ ns ∧ h.my_prev L.my_end ∈ ns) := by
  obtain ⟨_, hl, _⟩ := hr
  have h1 := Linked_head h ns L.my_end L.my_end hl
  have h2 := Linked_last h ns L.my_end L.my_end hl
  constructor
  · intro hnil
    subst hnil
    simp only [Linked] at hl
    exact hl
  · intro hne
    constructor
    · rw [List.head?_append_of_ne_nil _ hne] at h1
      exact List.mem_of_mem_head? h1
    · obtain ⟨n, rest, rfl⟩ := List.exists_cons_of_ne_nil hne
      rw [List.getLast?_cons_cons] at h2
      exact List.mem_of_getLast?_eq_some h2

/-- The links after `swap`, when the sentinel of `that` is not a neighbour of the
sentinel of the list. -/
theorem swap_links {T : Type} (h : Heap T) (X Y : ListObj)
    (h1 : Y.my_end ≠ h.my_next X.my_end) (h2 : Y.my_end ≠ h.my_prev X.my_end) :
    (∀ z, (X.swap h Y).1.my_next z =
      if z = Y.my_end then
        (if X.my_end = h.my_prev Y.my_end then X.my_end
          else if X.my_end = h.my_prev X.my_end then Y.my_end else h.my_next X.my_end)
      else if z = X.my_end then
        (if Y.my_end = h.my_prev Y.my_end then X.my_end else h.my_next Y.my_end)
      else if z = h.my_prev Y.my_end then X.my_end
      else if z = h.my_prev X.my_end then Y.my_end else h.my_next z) ∧
    (∀ z, (X.swap h Y).1.my_prev z =
      if z = Y.my_end then
        (if X.my_end = h.my_next Y.my_end then X.my_end
          else if X.my_end = h.my_next X.my_end then Y.my_end else h.my_prev X.my_end)
      else if z = X.my_end then
        (if Y.my_end = h.my_next Y.my_end then X.my_end else h.my_prev Y.my_end)
      else if z = h.my_next Y.my_end then X.my_end
      else if z = h.my_next X.my_end then Y.my_end else h.my_prev z) := by
  constructor
  · intro z
    simp only [ListObj.swap, upd, if_neg h1, if_neg h2]
  · intro z
    simp only [ListObj.swap, upd, if_neg h1, if_neg h2]


/-- What `swap` does to two rings with no node in common: each list object gets the
nodes of the other, in the same order, around its own sentinel, together with the size
and the handles of the other; values, storages and every link outside the two rings
stay. -/
theorem swap_rings {T : Type} (h : Heap T) (X Y : ListObj) (xs ys : List Nat)
    (hX : IsRing h X xs) (hY : IsRing h Y ys)
    (hdis : ∀ z ∈ X.my_end :: xs, z ∉ Y.my_end :: ys) :
    IsRing (X.swap h Y).1 (X.swap h Y).2.1 ys ∧ IsRing (X.swap h Y).1 (X.swap h Y).2.2 xs ∧
    (X.swap h Y).2.1 = { X with my_allocator := Y.my_allocator,
                                my_node_allocator := Y.my_node_allocator,
                                my_size := Y.my_size } ∧
    (X.swap h Y).2.2 = { Y with my_allocator := X.my_allocator,
                                my_node_allocator := X.my_node_allocator,
                                my_size := X.my_size } ∧
    (X.swap h Y).1.value = h.value ∧ (X.swap h Y).1.storage = h.storage ∧
    (X.swap h Y).1.destroyed = h.destroyed ∧
    (∀ z, z ∉ X.my_end :: xs → z ∉ Y.my_end :: ys →
      (X.swap h Y).1.my_next z = h.my_next z ∧ (X.swap h Y).1.my_prev z = h.my_prev z) := by
  obtain ⟨ex1, ex2⟩ := ring_ends h X xs hX
  obtain ⟨ey1, ey2⟩ := ring_ends h Y ys hY
  have hef : X.my_end ≠ Y.my_end :=
    fun hc => hdis _ (List.mem_cons_self _ _) (by rw [hc]; exact List.mem_cons_self _ _)
  have hfe : Y.my_end ≠ X.my_end := fun hc => hef hc.symm
  have hexs : X.my_end ∉ xs := (List.nodup_cons.mp hX.1).1
  have hfys : Y.my_end ∉ ys := (List.nodup_cons.mp hY.1).1
  have hfxs : Y.my_end ∉ xs :=
    fun hc => hdis _ (List.mem_cons_of_mem _ hc) (List.mem_cons_self _ _)
  have heys : X.my_end ∉ ys :=
    fun hc => hdis _ (List.mem_cons_self _ _) (List.mem_cons_of_mem _ hc)
  -- the neighbours of the two sentinels lie on their rings
  have hne_mem : h.my_next X.my_end ∈ X.my_end :: xs := by
    rcases xs.eq_nil_or_concat with hnil | ⟨l, q, hq⟩
    · rw [(ex1 hnil).1]; exact List.mem_cons_self _ _
    · exact List.mem_cons_of_mem _ (ex2 (by rw [hq]; simp)).1
  have hpe_mem : h.my_prev X.my_end ∈ X.my_end :: xs := prev_end_mem h X xs hX
  have hnf_mem : h.my_next Y.my_end ∈ Y.my_end :: ys := by
    rcases ys.eq_nil_or_concat with hnil | ⟨l, q, hq⟩
    · rw [(ey1 hnil).1]; exact List.mem_cons_self _ _
    · exact List.mem_cons_of_mem _ (ey2 (by rw [hq]; simp)).1
  have hpf_mem : h.my_prev Y.my_end ∈ Y.my_end :: ys := prev_end_mem h Y ys hY
  have h1 : Y.my_end ≠ h.my_next X.my_end :=
    fun hc => hdis _ hne_mem (by rw [← hc]; exact List.mem_cons_self _ _)
  have h2 : Y.my_end ≠ h.my_prev X.my_end :=
    fun hc => hdis _ hpe_mem (by rw [← hc]; exact List.mem_cons_self _ _)
  have h3 : X.my_end ≠ h.my_next Y.my_end :=
    fun hc => hdis _ (List.mem_cons_self _ _) (by rw [hc]; exact hnf_mem)
  have h4 : X.my_end ≠ h.my_prev Y.my_end :=
    fun hc => hdis _ (List.mem_cons_self _ _) (by rw [hc]; exact hpf_mem)
  obtain ⟨hn, hp⟩ := swap_links h X Y h1 h2
  refine ⟨⟨?_, ?_, hY.2.2⟩, ⟨?_, ?_, hX.2.2⟩, rfl, rfl, rfl, rfl, rfl, ?_⟩
  · exact List.nodup_cons.mpr ⟨heys, (List.nodup_cons.mp hY.1).2⟩
  · -- the nodes of `Y` around the sentinel of `X`
    refine Linked_reanchor h _ Y.my_end X.my_end ys hY.2.1 hY.1 ?_ ?_ ?_ ?_
    · intro x hx
      have a1 : x ≠ Y.my_end := fun hc => hfys (hc ▸ hx)
      have a2 : x ≠ X.my_end := fun hc => heys (hc ▸ hx)
      have a3 : x ≠ h.my_prev X.my_end :=
        fun hc => hdis _ hpe_mem (by rw [← hc]; exact List.mem_cons_of_mem _ hx)
      rw [hn x]
      simp only [if_neg a1, if_neg a2, if_neg a3]
    · intro x hx
      have a1 : x ≠ Y.my_end := fun hc => hfys (hc ▸ hx)
      have a2 : x ≠ X.my_end := fun hc => heys (hc ▸ hx)
      have a3 : x ≠ h.my_next X.my_end :=
        fun hc => hdis _ hne_mem (by rw [← hc]; exact List.mem_cons_of_mem _ hx)
      rw [hp x]
      simp only [if_neg a1, if_neg a2, if_neg a3]
    · rw [hn X.my_end, if_neg hef, if_pos rfl]
      by_cases hnil : ys = []
      · rw [if_pos hnil, if_pos (ey1 hnil).2.symm]
      · have : Y.my_end ≠ h.my_prev Y.my_end := fun hc => hfys (hc ▸ (ey2 hnil).2)
        rw [if_neg hnil, if_neg this]
    · rw [hp X.my_end, if_neg hef, if_pos rfl]
      by_cases hnil : ys = []
      · rw [if_pos hnil, if_pos (ey1 hnil).1.symm]
      · have : Y.my_end ≠ h.my_next Y.my_end := fun hc => hfys (hc ▸ (ey2 hnil).1)
        rw [if_neg hnil, if_neg this]
  · exact List.nodup_cons.mpr ⟨hfxs, (List.nodup_cons.mp hX.1).2⟩
  · -- the nodes of `X` around the sentinel of `Y`
    refine Linked_reanchor h _ X.my_end Y.my_end xs hX.2.1 hX.1 ?_ ?_ ?_ ?_
    · intro x hx
      have a1 : x ≠ Y.my_end := fun hc => hfxs (hc ▸ hx)
      have a2 : x ≠ X.my_end := fun hc => hexs (hc ▸ hx)
      have a3 : x ≠ h.my_prev Y.my_end :=
        fun hc => hdis _ (List.mem_cons_of_mem _ hx) (by rw [hc]; exact hpf_mem)
      rw [hn x]
      simp only [if_neg a1, if_neg a2, if_neg a3]
    · intro x hx
      have a1 : x ≠ Y.my_end := fun hc => hfxs (hc ▸ hx)
      have a2 : x ≠ X.my_end := fun hc => hexs (hc ▸ hx)
      have a3 : x ≠ h.my_next Y.my_end :=
        fun hc => hdis _ (List.mem_cons_of_mem _ hx) (by rw [hc]; exact hnf_mem)
      rw [hp x]
      simp only [if_neg a1, if_neg a2, if_neg a3]
    · rw [hn Y.my_end, if_pos rfl, if_neg h4]
      by_cases hnil : xs = []
      · rw [if_pos hnil, if_pos (ex1 hnil).2.symm]
      · have : X.my_end ≠ h.my_prev X.my_end := fun hc => hexs (hc ▸ (ex2 hnil).2)
        rw [if_neg hnil, if_neg this]
    · rw [hp Y.my_end, if_pos rfl, if_neg h3]
      by_cases hnil : xs = []
      · rw [if_pos hnil, if_pos (ex1 hnil).1.symm]
      · have : X.my_end ≠ h.my_next X.my_end := fun hc => hexs (hc ▸ (ex2 hnil).1)
        rw [if_neg hnil, if_neg this]
  · intro z hzx hzy
    have a1 : z ≠ Y.my_end := fun hc => hzy (by rw [hc]; exact List.mem_cons_self _ _)
    have a2 : z ≠ X.my_end := fun hc => hzx (by rw [hc]; exact List.mem_cons_self _ _)
    have a3 : z ≠ h.my_prev Y.my_end := fun hc => hzy (by rw [hc]; exact hpf_mem)
    have a4 : z ≠ h.my_prev X.my_end := fun hc => hzx (by rw [hc]; exact hpe_mem)
    have a5 : z ≠ h.my_next Y.my_end := fun hc => hzy (by rw [hc]; exact hnf_mem)
    have a6 : z ≠ h.my_next X.my_end := fun hc => hzx (by rw [hc]; exact hne_mem)
    rw [hn z, hp z]
    simp only [if_neg a1, if_neg a2, if_neg a3, if_neg a4, if_neg a5, if_neg a6, and_self]


/-! ### Copy assignment -/

/-- The assignment `L = S` for two rings with no node in common, `L` holding a handle to
an arena `sid` that can place nodes, the local copy placed at `tmp`: with fuel for the
nodes of `S` it returns. `S` keeps its ring, links and values; only the storage `sid`
changes; `L` keeps its sentinel and its handle. When it raises, `L` is as before, with its
ring, links and values. When it returns normally, `L` has a ring of as many new nodes as
`S` has, inside the buffer of `sid`, holding the values of `S` if every copy yields the
value copied, and the old nodes of `L` were each destroyed once. It returns normally
when every copy yields the value copied and the arena has room. -/
theorem assign_builds {T : Type} (lay : NodeLayout) (sid : Nat) (cp : Nat → T → Option T)
    (h : Heap T) (L S : ListObj) (ns ss : List Nat) (tmp fuel : Nat)
    (hrL : IsRing h L ns) (hrS : IsRing h S ss)
    (hdis : ∀ z ∈ L.my_end :: ns, z ∉ S.my_end :: ss)
    (hs : L.my_allocator.my_storage = some sid)
    (hroomy : Roomy lay (h.storage sid)) (hpos : 0 < lay.sizeof_Node)
    (hbase : (h.storage sid).base ≤ (h.storage sid).my_used)
    (hsz : L.my_size < SIZE_MOD)
    (htmp : tmp < (h.storage sid).my_used ∨ (h.storage sid).base + (h.storage sid).N ≤ tmp)
    (htL : tmp ∉ L.my_end :: ns) (htS : tmp ∉ S.my_end :: ss)
    (hPL : OutsideFree (h.storage sid) (L.my_end :: ns))
    (hPS : OutsideFree (h.storage sid) (S.my_end :: ss))
    (hfuel : ss.length ≤ fuel) :
    ∃ r, ListObj.assign lay cp h L S tmp fuel = some r ∧
      IsRing r.1 S ss ∧ ss.map r.1.value = ss.map h.value ∧
      SameOn (S.my_end :: ss) h r.1 ∧
      (∀ s2, s2 ≠ sid → r.1.storage s2 = h.storage s2) ∧
      r.2.1.my_end = L.my_end ∧ r.2.1.my_allocator = L.my_allocator ∧
      (∀ err, r.2.2 = .error err → r.2.1 = L ∧ IsRing r.1 L ns ∧
        ns.map r.1.value = ns.map h.value ∧ SameOn (L.my_end :: ns) h r.1) ∧
      (r.2.2 = .ok () → ∃ ps, IsRing r.1 r.2.1 ps ∧ ps.length = ss.length ∧
        ((∀ j v, cp j v = some v) → ps.map r.1.value = ss.map h.value) ∧
        (∀ p ∈ ps, (h.storage sid).base ≤ p ∧
          p + lay.sizeof_Node ≤ (h.storage sid).base + (h.storage sid).N) ∧
        r.1.destroyed = ns ++ h.destroyed) ∧
      ((∀ j v, cp j v = some v) → lay.alignof_Node ∣ lay.sizeof_Node →
        alignUp (h.storage sid).my_used lay.alignof_Node + ss.length * lay.sizeof_Node
          ≤ (h.storage sid).base + (h.storage sid).N → r.2.2 = .ok ()) := by
  have hne : L.my_end ≠ S.my_end :=
    fun hc => hdis _ (List.mem_cons_self _ _) (by rw [hc]; exact List.mem_cons_self _ _)
  have hsubS : ∀ x ∈ S.my_end :: ss, x ∈ (S.my_end :: ss) ++ (L.my_end :: ns) :=
    fun x hx => List.mem_append_left _ hx
  have hsubL : ∀ x ∈ L.my_end :: ns, x ∈ (S.my_end :: ss) ++ (L.my_end :: ns) :=
    fun x hx => List.mem_append_right _ hx
  have hP : OutsideFree (h.storage sid) ((S.my_end :: ss) ++ (L.my_end :: ns)) := by
    intro n hn
    rcases List.mem_append.mp hn with hn | hn
    · exact hPS n hn
    · exact hPL n hn
  have htP : tmp ∉ (S.my_end :: ss) ++ (L.my_end :: ns) := by
    intro hc
    rcases List.mem_append.mp hc with hc | hc
    · exact htS hc
    · exact htL hc
  obtain ⟨r, ps, q1, q2, q3, q4, q5, _, q7, _, q9⟩ :=
    copy_create_with_builds lay sid _ cp h tmp S ss L.my_allocator fuel hrS hsubS hs hroomy
      hpos hbase htmp hP htP hfuel
  obtain ⟨hrS1, hvS1⟩ := isRing_of_sameOn _ h r.1 S ss hrS hsubS q2
  obtain ⟨hrL1, hvL1⟩ := isRing_of_sameOn _ h r.1 L ns hrL hsubL q2
  cases hres : r.2.2 with
  | error err =>
    refine ⟨(r.1, L, .error err), ?_, hrS1, hvS1, sameOn_subset _ _ _ _ hsubS q2, q3, rfl,
      rfl, ?_, ?_, ?_⟩
    · unfold ListObj.assign
      rw [if_pos hne]
      simp only [q1, hres]
    · intro _ _
      exact ⟨rfl, hrL1, hvL1, sameOn_subset _ _ _ _ hsubL q2⟩
    · intro hc
      cases hc
    · intro hcp hdiv hroom
      have := q9 hcp hdiv hroom
      rw [hres] at this
      cases this
  | ok u =>
    obtain ⟨t1, t2, t3, t4, t5⟩ := q7 hres
    have hdis2 : ∀ z ∈ L.my_end :: ns, z ∉ r.2.1.my_end :: ps :=
      fun z hz => t1.2.2 z (hsubL z hz)
    obtain ⟨s1, s2, s3, s4, s5, s6, s7, s8⟩ := swap_rings r.1 L r.2.1 ns ps hrL1 t1.1.1 hdis2
    have hsz2 : (L.swap r.1 r.2.1).2.2.my_size < SIZE_MOD := by
      rw [s4]
      exact hsz
    obtain ⟨_, _, p3, p4, p5, p6⟩ := pop_all_ring ns _ _ s2 hsz2
    have hend2 : (L.swap r.1 r.2.1).2.2.my_end = tmp := by
      rw [s4]
      exact q4
    have hend1 : (L.swap r.1 r.2.1).2.1.my_end = L.my_end := by rw [s3]
    rw [hend2] at p6
    have hcnd : (r.2.1.my_end :: ps).Nodup := t1.1.1.1
    rw [q4] at hcnd hdis2
    -- the new ring of `L` is not touched by the destruction of the old nodes
    have hsame1 : SameOn ((L.swap r.1 r.2.1).2.1.my_end :: ps) (L.swap r.1 r.2.1).1
        ((L.swap r.1 r.2.1).2.2.pop_all (L.swap r.1 r.2.1).1).1 := by
      intro x hx
      rw [hend1] at hx
      have hxn : x ∉ tmp :: ns := by
        intro hc
        rcases List.mem_cons.mp hx with hx | hx
        · rw [hx] at hc
          rcases List.mem_cons.mp hc with hc | hc
          · exact htL (by rw [← hc]; exact List.mem_cons_self _ _)
          · exact (List.nodup_cons.mp hrL.1).1 hc
        · rcases List.mem_cons.mp hc with hc | hc
          · exact (List.nodup_cons.mp hcnd).1 (hc ▸ hx)
          · exact hdis2 x (List.mem_cons_of_mem _ hc) (List.mem_cons_of_mem _ hx)
      obtain ⟨z1, z2⟩ := p6 x hxn
      exact ⟨z1, z2, by rw [p3]⟩
    obtain ⟨hrF, hvF⟩ := isRing_of_sameOn _ _ _ _ ps s1 (fun x hx => hx) hsame1
    -- the source list is touched neither by `swap` nor by the destruction
    have hsameS : SameOn (S.my_end :: ss) h
        ((L.swap r.1 r.2.1).2.2.pop_all (L.swap r.1 r.2.1).1).1 := by
      intro x hx
      have hx1 : x ∉ L.my_end :: ns := fun hc => hdis x hc hx
      have hx2 : x ∉ tmp :: ps := by
        have := t1.2.2 x (hsubS x hx)
        rw [q4] at this
        exact this
      have hx3 : x ∉ tmp :: ns := by
        intro hc
        rcases List.mem_cons.mp hc with hc | hc
        · exact htS (hc ▸ hx)
        · exact hx1 (List.mem_cons_of_mem _ hc)
      obtain ⟨a1, a2, a3⟩ := q2 x (hsubS x hx)
      obtain ⟨b1, b2⟩ := s8 x hx1 (by rw [q4]; exact hx2)
      obtain ⟨c1, c2⟩ := p6 x hx3
      exact ⟨c1.trans (b1.trans a1), c2.trans (b2.trans a2), by rw [p3, s5, a3]⟩
    obtain ⟨hrSF, hvSF⟩ := isRing_of_sameOn _ h _ S ss hrS (fun x hx => hx) hsameS
    refine ⟨(((L.swap r.1 r.2.1).2.2.pop_all (L.swap r.1 r.2.1).1).1, (L.swap r.1 r.2.1).2.1,
      .ok ()), ?_, hrSF, hvSF, hsameS, ?_, hend1, ?_, ?_, ?_, fun _ _ _ => rfl⟩
    · unfold ListObj.assign
      rw [if_pos hne]
      simp only [q1, hres]
      rfl
    · intro s2 hne2
      show ((L.swap r.1 r.2.1).2.2.pop_all (L.swap r.1 r.2.1).1).1.storage s2 = _
      rw [p5, s6, q3 s2 hne2]
    · show (L.swap r.1 r.2.1).2.1.my_allocator = L.my_allocator
      rw [s3]
      exact q5
    · intro err hc
      cases hc
    · intro _
      refine ⟨ps, hrF, t2, ?_, t5, ?_⟩
      · intro hcp
        show ps.map ((L.swap r.1 r.2.1).2.2.pop_all (L.swap r.1 r.2.1).1).1.value = _
        rw [p3, s5]
        exact t3 hcp
      · show ((L.swap r.1 r.2.1).2.2.pop_all (L.swap r.1 r.2.1).1).1.destroyed = _
        rw [p4, s7, t4]

/-! ## The claims -/

/-- C1: the success postcondition of `StackStorage::allocate` evaluated on a fresh
64-byte storage at address 4096 for the request `bytes = 2^64 - 8`, `alignment = 8`:
the call returns address 4096 as a success, but the region `[4096, 4096 + bytes)`
does not end inside `[base, base + N]` and the cursor afterwards is 4088, which is
neither `p + bytes` nor at least the cursor before the call. -/
theorem allocate_success_postcondition_fails_on_wrap :
    (StackStorage.init 4096 64).allocate 18446744073709551608 8 =
      ({ base := 4096, N := 64, my_used := 4088 }, some 4096) ∧
    (∃ k, 8 = 2 ^ k) ∧
    ¬ (4096 + 18446744073709551608 ≤ 4096 + 64) ∧
    (4088 : Nat) ≠ 4096 + 18446744073709551608 ∧
    (4088 : Nat) < (StackStorage.init 4096 64).my_used := by
  refine ⟨by decide, ⟨3, by norm_num⟩, by decide, by decide, by decide⟩

/-- C2: `StackStorage::allocate` evaluated on a fresh 64-byte storage at address 4096
for the request `bytes = 2^64 - 1` (representable in `size_t`), `alignment = 1`: the
aligned placement `alignUp(c, alignment) + bytes`, as a mathematical integer, is greater
than `base + N`, yet no `bad_alloc` is raised: the call returns address 4096. -/
theorem allocate_accepts_oversized_request_on_wrap :
    (18446744073709551615 : Nat) < SIZE_MOD ∧ (∃ k, 1 = 2 ^ k) ∧
    alignUp (StackStorage.init 4096 64).my_used 1 + 18446744073709551615 >
      (StackStorage.init 4096 64).base + (StackStorage.init 4096 64).N ∧
    ((StackStorage.init 4096 64).allocate 18446744073709551615 1).2 = some 4096 := by
  refine ⟨by decide, ⟨0, by norm_num⟩, by decide, by decide⟩

/-- C3 (counterexample): on a fresh 4-byte storage at address 4104 the single call
`allocate(1, 16)` fails, and afterwards the cursor is 4112, outside
`[base, base + N] = [4104, 4108]`. -/
theorem cursor_leaves_range_after_failed_call :
    (∀ r ∈ [((1 : Nat), (16 : Nat))], ∃ k, r.2 = 2 ^ k) ∧
    ((StackStorage.init 4104 4).run [(1, 16)]).2 = [none] ∧
    ((StackStorage.init 4104 4).run [(1, 16)]).1.my_used = 4112 ∧
    ¬ ((StackStorage.init 4104 4).run [(1, 16)]).1.CursorInRange := by
  refine ⟨?_, by decide, by decide, ?_⟩
  · intro r hr
    simp only [List.mem_singleton] at hr
    subst hr
    exact ⟨4, by norm_num⟩
  · intro h
    have h2 := h.2
    revert h2
    decide

/-- C3 (amended): starting from a freshly constructed `StackStorage`, after every finite
sequence of `allocate` calls with power-of-two alignments in which no call wraps around
`size_t`, the cursor is at least `base` and less than `base + N` plus the largest
alignment requested, and it lies in `[base, base + N]` whenever the last call
succeeded. -/
theorem cursor_range_amended (base N : Nat) (reqs : List (Nat × Nat))
    (hcap : base + N < SIZE_MOD)
    (hpow : ∀ r ∈ reqs, ∃ k, r.2 = 2 ^ k)
    (hw : (StackStorage.init base N).NoWrap reqs) :
    base ≤ ((StackStorage.init base N).run reqs).1.my_used ∧
    ((StackStorage.init base N).run reqs).1.my_used < base + N + maxAlign reqs ∧
    (∀ p, ((StackStorage.init base N).run reqs).2.getLast? = some (some p) →
      ((StackStorage.init base N).run reqs).1.CursorInRange) := by
  have hmax := maxAlign_pow2 reqs hpow
  have hpos : 0 < maxAlign reqs := by
    obtain ⟨k, hk⟩ := hmax
    rw [hk]
    exact Nat.pos_pow_of_pos k (by norm_num)
  have hal : ∀ r ∈ reqs, 0 < r.2 ∧ r.2 ∣ alignUp (base + N) (maxAlign reqs) := by
    intro r hr
    obtain ⟨k, hk⟩ := hpow r hr
    refine ⟨by rw [hk]; exact Nat.pos_pow_of_pos k (by norm_num), ?_⟩
    exact Nat.dvd_trans (pow2_dvd_of_le r.2 (maxAlign reqs) ⟨k, hk⟩ hmax (maxAlign_ge reqs r hr))
      (alignUp_dvd (base + N) (maxAlign reqs) hpos)
  have hM1 := alignUp_ge (base + N) (maxAlign reqs)
  have hM2 := alignUp_lt (base + N) (maxAlign reqs) hpos
  have hb := run_base reqs (StackStorage.init base N)
  have h := run_cursor_bounds (alignUp (base + N) (maxAlign reqs)) reqs
    (StackStorage.init base N) hcap hw hal hM1
    (show base ≤ alignUp (base + N) (maxAlign reqs) by omega)
  refine ⟨h.1, Nat.lt_of_le_of_lt h.2.1 hM2, ?_⟩
  intro p hp
  refine ⟨?_, ?_⟩
  · rw [hb.1]
    exact h.1
  · rw [hb.1, hb.2]
    exact h.2.2 p hp

/-- Witness of `cursor_range_amended`: a fresh 64-byte storage at address 4096 and the
calls `allocate(24, 8)`, `allocate(100, 16)` (fails), `allocate(8, 8)`. -/
theorem cursor_range_amended_witness :
    4096 ≤ ((StackStorage.init 4096 64).run [(24, 8), (100, 16), (8, 8)]).1.my_used ∧
    ((StackStorage.init 4096 64).run [(24, 8), (100, 16), (8, 8)]).1.my_used
      < 4096 + 64 + maxAlign [(24, 8), (100, 16), (8, 8)] ∧
    (∀ p, ((StackStorage.init 4096 64).run [(24, 8), (100, 16), (8, 8)]).2.getLast?
        = some (some p) →
      ((StackStorage.init 4096 64).run [(24, 8), (100, 16), (8, 8)]).1.CursorInRange) :=
  cursor_range_amended 4096 64 [(24, 8), (100, 16), (8, 8)] (by decide)
    (by
      intro r hr
      simp only [List.mem_cons, List.mem_singleton, List.not_mem_nil, or_false] at hr
      rcases hr with h | h | h
      · exact ⟨3, by rw [h]; norm_num⟩
      · exact ⟨4, by rw [h]; norm_num⟩
      · exact ⟨3, by rw [h]; norm_num⟩)
    (by
      refine ⟨by decide, by decide, by decide, trivial⟩)

/-- C4: three `allocate` calls on a fresh 64-byte storage at address 4096, namely
`(8, 8)`, `(2^64 - 8, 8)` and `(8, 8)`, all succeed; the second wraps the cursor back to
4096, so the first and the third call return the same region `[4096, 4104)`: two
regions returned by distinct successful calls overlap. -/
theorem regions_overlap_after_wrap :
    (StackStorage.init 4096 64).regions [(8, 8), (18446744073709551608, 8), (8, 8)] =
      [(4096, 8), (4104, 18446744073709551608), (4096, 8)] ∧
    ((StackStorage.init 4096 64).run [(8, 8), (18446744073709551608, 8), (8, 8)]).2 =
      [some 4096, some 4104, some 4096] ∧
    ¬ Disjoint 4096 8 4096 8 ∧
    ¬ ((StackStorage.init 4096 64).regions
        [(8, 8), (18446744073709551608, 8), (8, 8)]).Pairwise
      (fun a b => Disjoint a.1 a.2 b.1 b.2) := by
  have hov : ¬ Disjoint 4096 8 4096 8 := fun h => h 4096 (by decide)
  have hreg : (StackStorage.init 4096 64).regions
      [(8, 8), (18446744073709551608, 8), (8, 8)] =
      [(4096, 8), (4104, 18446744073709551608), (4096, 8)] := by decide
  refine ⟨hreg, by decide, hov, ?_⟩
  rw [hreg]
  intro h
  have h1 := (List.pairwise_cons.mp h).1 (4096, 8) (by simp)
  exact hov h1

/-- C5: `List::insert` postcondition. For a well-formed list with forward sequence `xs`,
the position at index `i` (a value node, or `end()` for `i = size()`) and a value `v`:
if `insert(position, v)` succeeds, returning `it`, with a node that was not already on
the ring, then `size()` has grown by exactly one, forward iteration yields `xs` with `v`
inserted immediately before index `i`, the iterator returned is the node now at index
`i` and dereferences to `v`, and the list is well-formed. (`hsz`: the `size_t` counter
does not wrap.) -/
theorem insert_postcondition {T : Type} (lay : NodeLayout) (h : Heap T) (L : ListObj)
    (i : Nat) (v : T) (xs : List T) (h1 : Heap T) (L1 : ListObj) (it : BasicIterator)
    (hwf : WellFormed h L) (hxs : L.forward h L.size = some xs) (hi : i ≤ L.size)
    (hsz : L.size + 1 < SIZE_MOD)
    (hins : L.insert lay h (advance h (L.begin h) i) (some v) = (h1, L1, .ok it))
    (hfresh : ∀ j, j ≤ L.size → advance h L.it_end j ≠ it) :
    L1.size = L.size + 1 ∧
    (∀ fuel, L1.size ≤ fuel → L1.forward h1 fuel = some (xs.take i ++ v :: xs.drop i)) ∧
    advance h1 (L1.begin h1) i = it ∧ it.deref h1 = v ∧ WellFormed h1 L1 := by
  have hres : (L.insert lay h (advance h (L.begin h) i) (some v)).2.2 = .ok it := by rw [hins]
  obtain ⟨ha, _⟩ := insert_ok_inv lay h L _ _ it hres
  have hr := isRing_of_wellFormed h L hwf
  have hfresh2 := not_mem_ring_of_advance_ne h L it.my_node
    (fun j hj hc => hfresh j hj ((iterator_eq_iff _ _).mpr hc))
  have hx := forward_of_isRing h L _ hr L.my_size (Nat.le_refl _)
  have hxeq := Option.some.inj (hxs.symm.trans hx)
  obtain ⟨_, r2, r3, r4, r5⟩ := insert_at_index lay h L _ i v it.my_node hr hi hsz ha hfresh2
  rw [hins] at r2 r3 r4 r5
  simp only at r2 r3 r4 r5
  have hsize : L1.my_size = L.my_size + 1 := by rw [r3]
  refine ⟨hsize, ?_, ?_, ?_, wellFormed_of_isRing h1 L1 _ r2⟩
  · intro fuel hfuel
    rw [hxeq]
    exact r5 fuel (by rw [← hsize]; exact hfuel)
  · have hp := position_of_isRing h1 L1 _ r2 i (by rw [hsize]; exact Nat.le_succ_of_le hi)
    have hlen : (List.take i ((List.range L.my_size).map
        (fun j => (advance h L.it_end (j + 1)).my_node))).length = i := by
      rw [List.length_take, List.length_map, List.length_range]
      exact Nat.min_eq_left hi
    rw [List.drop_left' hlen] at hp
    simp only [List.cons_append, List.head?_cons, Option.some.injEq] at hp
    rw [iterator_eq_iff]
    exact hp.symm
  · show h1.value it.my_node = v
    rw [r4]
    simp [upd]

/-- Witness of `insert_postcondition`: inserting 15 at index 1 of the example list
10, 20, 30 links the new node 4168 between the nodes of 10 and 20. -/
theorem insert_postcondition_witness :
    exInsert.2.1.size = exThree.2.1.size + 1 ∧
    (∀ fuel, exInsert.2.1.size ≤ fuel →
      exInsert.2.1.forward exInsert.1 fuel = some [10, 15, 20, 30]) ∧
    advance exInsert.1 (exInsert.2.1.begin exInsert.1) 1 = { my_node := 4168 } ∧
    BasicIterator.deref exInsert.1 { my_node := 4168 } = 15 ∧
    WellFormed exInsert.1 exInsert.2.1 :=
  insert_postcondition exLayout exThree.1 exThree.2.1 1 15 [10, 20, 30]
    exInsert.1 exInsert.2.1 { my_node := 4168 }
    (by decide) (by decide) (by decide) (by decide) rfl (by decide)

/-- C6: `List::erase` postcondition. For a well-formed list with forward sequence `xs`
and the value node at index `i < size()`: `erase(position)` decreases `size()` by exactly
one, forward iteration yields `xs` without its element at index `i`, and the iterator
returned is the node that was `position.next`: it is `end()` if `i` was the last index
and otherwise dereferences to `xs[i+1]`. The list stays well-formed. -/
theorem erase_postcondition {T : Type} (h : Heap T) (L : ListObj) (i : Nat) (xs : List T)
    (h1 : Heap T) (L1 : ListObj) (it : BasicIterator)
    (hwf : WellFormed h L) (hxs : L.forward h L.size = some xs) (hi : i < L.size)
    (hsz : L.size < SIZE_MOD)
    (her : L.erase h (advance h (L.begin h) i) = (h1, L1, it)) :
    L1.size + 1 = L.size ∧
    (∀ fuel, L1.size ≤ fuel → L1.forward h1 fuel = some (xs.take i ++ xs.drop (i + 1))) ∧
    it = (advance h (L.begin h) i).inc h ∧
    (i + 1 = L.size → it = L1.end_) ∧
    (i + 1 < L.size → xs[i + 1]? = some (it.deref h1)) ∧
    WellFormed h1 L1 := by
  have hr := isRing_of_wellFormed h L hwf
  have hx := forward_of_isRing h L _ hr L.my_size (Nat.le_refl _)
  have hxeq := Option.some.inj (hxs.symm.trans hx)
  obtain ⟨r1, r2, r3, r4, r5, r6⟩ := erase_at_index h L _ i hr hi hsz
  rw [her] at r1 r2 r3 r4 r5 r6
  simp only at r1 r2 r3 r4 r5 r6
  have hlen : ((List.range L.my_size).map
      (fun j => (advance h L.it_end (j + 1)).my_node)).length = L.my_size := by simp
  refine ⟨r2, ?_, ?_, ?_, ?_, wellFormed_of_isRing h1 L1 _ r1⟩
  · intro fuel hfuel
    rw [forward_of_isRing h1 L1 _ r1 fuel hfuel, r4, hxeq, List.map_append, List.map_take,
      List.map_drop]
  · rw [r6, advance_succ]
  · intro hlast
    have hd : List.drop (i + 1) ((List.range L.my_size).map
        (fun j => (advance h L.it_end (j + 1)).my_node)) = [] := by
      apply List.drop_eq_nil_of_le
      rw [hlen]
      exact Nat.le_of_eq hlast.symm
    rw [hd] at r5
    simp only [List.nil_append, List.head?_cons, Option.some.injEq] at r5
    rw [iterator_eq_iff]
    show it.my_node = L1.my_end
    rw [r3]
    exact r5.symm
  · intro hlt
    have hlt2 : i + 1 < ((List.range L.my_size).map
        (fun j => (advance h L.it_end (j + 1)).my_node)).length := by rw [hlen]; exact hlt
    rw [List.drop_eq_getElem_cons hlt2] at r5
    simp only [List.cons_append, List.head?_cons, Option.some.injEq] at r5
    rw [hxeq, List.getElem?_map, List.getElem?_eq_getElem hlt2, Option.map_some', r5]
    show some (h.value it.my_node) = some (h1.value it.my_node)
    rw [r4]

/-- Witness of `erase_postcondition`: erasing the iterator to 20 in the example list
10, 20, 30 leaves 10, 30 and returns the iterator to 30. -/
theorem erase_postcondition_witness :
    exErase.2.1.size + 1 = exThree.2.1.size ∧
    (∀ fuel, exErase.2.1.size ≤ fuel → exErase.2.1.forward exErase.1 fuel = some [10, 30]) ∧
    exErase.2.2 = (advance exThree.1 (exThree.2.1.begin exThree.1) 1).inc exThree.1 ∧
    (1 + 1 = exThree.2.1.size → exErase.2.2 = exErase.2.1.end_) ∧
    (1 + 1 < exThree.2.1.size → [10, 20, 30][1 + 1]? = some (exErase.2.2.deref exErase.1)) ∧
    WellFormed exErase.1 exErase.2.1 :=
  erase_postcondition exThree.1 exThree.2.1 1 [10, 20, 30] exErase.1 exErase.2.1 exErase.2.2
    (by decide) (by decide) (by decide) (by decide) rfl

/-- C7: well-formedness is an invariant. It holds for a default-constructed list, and for
a well-formed list it is kept by `insert` at any position of the list, by `push_back` and
`push_front`, whatever their outcome (success, `bad_alloc`, a throwing constructor), and
by `erase`, `pop_back`, `pop_front` applied to a value node. (`hfresh`: a node region
obtained from the arena is not already on the ring; `hsz`: the `size_t` counter does not
wrap.) Both hold by themselves along the runs of the program: after any sequence of
these operations, each called within its precondition, on a default-constructed list
drawing from a storage whose cursor is in range, whose buffer ends at least
`alignof(Node) + sizeof(Node)` below `2^64` and does not hold the sentinel in its
unallocated part, the list is well-formed. -/
theorem wellFormed_invariant {T : Type} (lay : NodeLayout) (h : Heap T) (L : ListObj)
    (hwf : WellFormed h L) (hsz : L.size + 1 < SIZE_MOD)
    (hfresh : ∀ ptr,
      (L.my_node_allocator.allocate lay.sizeof_Node lay.alignof_Node h 1).2 = .ok ptr →
      ∀ j, j ≤ L.size → (advance h L.it_end j).my_node ≠ ptr) :
    (∀ (e : Nat) (alloc : StackAllocator),
      WellFormed (ListObj.create h e alloc).1 (ListObj.create h e alloc).2) ∧
    (∀ (i : Nat) (arg : Option T), i ≤ L.size →
      WellFormed (L.insert lay h (advance h (L.begin h) i) arg).1
        (L.insert lay h (advance h (L.begin h) i) arg).2.1) ∧
    (∀ arg : Option T,
      WellFormed (L.push_back lay h arg).1 (L.push_back lay h arg).2.1) ∧
    (∀ arg : Option T,
      WellFormed (L.push_front lay h arg).1 (L.push_front lay h arg).2.1) ∧
    (∀ i : Nat, i < L.size →
      WellFormed (L.erase h (advance h (L.begin h) i)).1
        (L.erase h (advance h (L.begin h) i)).2.1) ∧
    (0 < L.size → WellFormed (L.pop_back h).1 (L.pop_back h).2.1) ∧
    (0 < L.size → WellFormed (L.pop_front h).1 (L.pop_front h).2.1) ∧
    (∀ (h0 : Heap T) (e sid : Nat) (ops : List (ListOp T)),
      (h0.storage sid).CursorInRange →
      (h0.storage sid).base + (h0.storage sid).N + lay.alignof_Node + lay.sizeof_Node
        ≤ SIZE_MOD →
      0 < lay.sizeof_Node → 0 < lay.alignof_Node →
      (e < (h0.storage sid).my_used ∨ (h0.storage sid).base + (h0.storage sid).N ≤ e) →
      ListObj.AllAllowed lay ops (ListObj.create h0 e { my_storage := some sid }).1
        (ListObj.create h0 e { my_storage := some sid }).2 →
      WellFormed
        (ListObj.steps lay ops (ListObj.create h0 e { my_storage := some sid }).1
          (ListObj.create h0 e { my_storage := some sid }).2).1
        (ListObj.steps lay ops (ListObj.create h0 e { my_storage := some sid }).1
          (ListObj.create h0 e { my_storage := some sid }).2).2) := by
  have hsz2 : L.my_size < SIZE_MOD := Nat.lt_of_succ_lt hsz
  refine ⟨?_, ?_, ?_, ?_, ?_, ?_, ?_, ?_⟩
  rotate_left 7
  · intro h0 e sid ops hrange hstat hpos hapos he hall
    obtain ⟨ns1, hinv⟩ := steps_onArena lay sid ops _ _ []
      (create_onArena lay sid h0 e hrange hstat hpos hapos he) hall
    exact wellFormed_of_isRing _ _ ns1 hinv.1
  · intro e alloc
    exact wellFormed_of_isRing _ _ _ (create_isRing h e alloc)
  · intro i arg hi
    exact insert_wellFormed lay h L i arg hwf hi hsz hfresh
  · intro arg
    have := insert_wellFormed lay h L L.my_size arg hwf (Nat.le_refl _) hsz hfresh
    rw [← end_eq_advance h L hwf] at this
    exact this
  · intro arg
    exact insert_wellFormed lay h L 0 arg hwf (Nat.zero_le _) hsz hfresh
  · intro i hi
    exact erase_wellFormed h L i hwf hi hsz2
  · intro hpos
    have := erase_wellFormed h L (L.my_size - 1) hwf (Nat.sub_lt hpos Nat.one_pos) hsz2
    rw [← prev_end_eq_advance h L hwf hpos] at this
    exact this
  · intro hpos
    exact erase_wellFormed h L 0 hwf hpos hsz2

/-- Witness of `wellFormed_invariant`: the example list 10, 20, 30. -/
theorem wellFormed_invariant_witness :
    (∀ (e : Nat) (alloc : StackAllocator),
      WellFormed (ListObj.create exThree.1 e alloc).1 (ListObj.create exThree.1 e alloc).2) ∧
    (∀ (i : Nat) (arg : Option Nat), i ≤ exThree.2.1.size →
      WellFormed
        (exThree.2.1.insert exLayout exThree.1
          (advance exThree.1 (exThree.2.1.begin exThree.1) i) arg).1
        (exThree.2.1.insert exLayout exThree.1
          (advance exThree.1 (exThree.2.1.begin exThree.1) i) arg).2.1) ∧
    (∀ arg : Option Nat,
      WellFormed (exThree.2.1.push_back exLayout exThree.1 arg).1
        (exThree.2.1.push_back exLayout exThree.1 arg).2.1) ∧
    (∀ arg : Option Nat,
      WellFormed (exThree.2.1.push_front exLayout exThree.1 arg).1
        (exThree.2.1.push_front exLayout exThree.1 arg).2.1) ∧
    (∀ i : Nat, i < exThree.2.1.size →
      WellFormed (exThree.2.1.erase exThree.1
          (advance exThree.1 (exThree.2.1.begin exThree.1) i)).1
        (exThree.2.1.erase exThree.1
          (advance exThree.1 (exThree.2.1.begin exThree.1) i)).2.1) ∧
    (0 < exThree.2.1.size →
      WellFormed (exThree.2.1.pop_back exThree.1).1 (exThree.2.1.pop_back exThree.1).2.1) ∧
    (0 < exThree.2.1.size →
      WellFormed (exThree.2.1.pop_front exThree.1).1 (exThree.2.1.pop_front exThree.1).2.1) ∧
    WellFormed (ListObj.steps exLayout exOps exEmpty.1 exEmpty.2).1
      (ListObj.steps exLayout exOps exEmpty.1 exEmpty.2).2 :=
  have w := wellFormed_invariant exLayout exThree.1 exThree.2.1 (by decide) (by decide)
    (by
      intro ptr ha
      have h2 : (exThree.2.1.my_node_allocator.allocate exLayout.sizeof_Node
          exLayout.alignof_Node exThree.1 1).2 = .ok 4168 := rfl
      rw [h2] at ha
      cases ha
      decide)
  ⟨w.1, w.2.1, w.2.2.1, w.2.2.2.1, w.2.2.2.2.1, w.2.2.2.2.2.1, w.2.2.2.2.2.2.1,
    w.2.2.2.2.2.2.2 exHeap 100 7 exOps ⟨by decide, by decide⟩ (by decide) (by decide)
      (by decide) (by decide) (by decide)⟩

/-- C8: strong exception guarantee of `insert` on capacity exhaustion. If the node
allocation raises `bad_alloc`, then `insert` at any position, `push_back` and
`push_front` raise `bad_alloc` and leave the list object, its size, every link, every
value and the forward sequence as they were. Concretely, on a fresh arena of capacity 64
at any address `base`, aligned or not, at which a `StackStorage<64>` can live (it is
8-aligned and 72 bytes long, so `base + 80 ≤ 2^64`), the sentinel being outside the
buffer, with 24-byte nodes aligned to 8: the first two `push_back` calls succeed, the
third raises `bad_alloc`, and then `size() == 2` and forward iteration yields the first
two elements. -/
theorem insert_strong_guarantee_on_exhaustion {T : Type} (lay : NodeLayout) (h : Heap T)
    (L : ListObj) (pos : BasicIterator) (arg : Option T)
    (hfail : (L.my_node_allocator.allocate lay.sizeof_Node lay.alignof_Node h 1).2 =
      .error .bad_alloc) :
    RaisedUnchanged h L (L.insert lay h pos arg) ∧
    RaisedUnchanged h L (L.push_back lay h arg) ∧
    RaisedUnchanged h L (L.push_front lay h arg) ∧
    (∀ (h0 : Heap T) (base e sid : Nat) (v1 v2 v3 : T),
      base + 80 ≤ SIZE_MOD → (e < base ∨ base + 64 ≤ e) →
      h0.storage sid = StackStorage.init base 64 →
      (twoPushes h0 e sid v1 v2).2.2 = .ok () ∧
      (thirdPush h0 e sid v1 v2 v3).2.2 = .error .bad_alloc ∧
      (thirdPush h0 e sid v1 v2 v3).2.1.size = 2 ∧
      (∀ fuel, 2 ≤ fuel →
        (thirdPush h0 e sid v1 v2 v3).2.1.forward (thirdPush h0 e sid v1 v2 v3).1 fuel =
          some [v1, v2])) := by
  have hh := allocate_heap L.my_node_allocator lay.sizeof_Node lay.alignof_Node h 1
  have key : ∀ it : BasicIterator, RaisedUnchanged h L (L.insert lay h it arg) := by
    intro it
    rw [insert_of_allocate_error lay h L it arg _ hfail]
    exact ⟨rfl, rfl, rfl, hh.1, hh.2.1, hh.2.2.1,
      fun fuel => forward_congr h _ hh.1 hh.2.2.1 L fuel⟩
  refine ⟨key pos, key L.it_end, key (L.begin h), ?_⟩
  intro h0 base e sid v1 v2 v3 htop he hst
  exact (three_pushes_on_64_bytes h0 base e sid v1 v2 v3 htop he hst).2

/-- Witness of `insert_strong_guarantee_on_exhaustion`: the example list 1, 2, 3, 4, 5 has
used 120 of the 128 bytes of its arena, so a sixth node cannot be allocated; and the
scenario on a 64-byte arena at the unaligned address 4099. -/
theorem insert_strong_guarantee_on_exhaustion_witness :
    RaisedUnchanged exFull.1 exFull.2.1
      (exFull.2.1.insert exLayout exFull.1 (exFull.2.1.begin exFull.1) (some 6)) ∧
    RaisedUnchanged exFull.1 exFull.2.1 (exFull.2.1.push_back exLayout exFull.1 (some 6)) ∧
    RaisedUnchanged exFull.1 exFull.2.1 (exFull.2.1.push_front exLayout exFull.1 (some 6)) ∧
    ((twoPushes exHeap64 100 7 1 2).2.2 = .ok () ∧
      (thirdPush exHeap64 100 7 1 2 3).2.2 = .error .bad_alloc ∧
      (thirdPush exHeap64 100 7 1 2 3).2.1.size = 2 ∧
      (∀ fuel, 2 ≤ fuel →
        (thirdPush exHeap64 100 7 1 2 3).2.1.forward (thirdPush exHeap64 100 7 1 2 3).1 fuel =
          some [1, 2])) :=
  ⟨(insert_strong_guarantee_on_exhaustion exLayout exFull.1 exFull.2.1
      (exFull.2.1.begin exFull.1) (some 6) rfl).1,
    (insert_strong_guarantee_on_exhaustion exLayout exFull.1 exFull.2.1
      (exFull.2.1.begin exFull.1) (some 6) rfl).2.1,
    (insert_strong_guarantee_on_exhaustion exLayout exFull.1 exFull.2.1
      (exFull.2.1.begin exFull.1) (some 6) rfl).2.2.1,
    (insert_strong_guarantee_on_exhaustion exLayout exFull.1 exFull.2.1
      (exFull.2.1.begin exFull.1) (some 6) rfl).2.2.2 exHeap64 4099 100 7 1 2 3
      (by decide) (by decide) rfl⟩

/-- For every list, `rbegin()` and `rend()` are the same reverse iterator, and so are
`crbegin()` and `crend()`: the reverse loops stop before their first iteration. -/
theorem backward_eq_nil {T : Type} (h : Heap T) (L : ListObj) (fuel : Nat) :
    L.rbegin = L.rend ∧ L.crbegin = L.crend ∧
    L.backward h fuel = some [] ∧ L.cbackward h fuel = some [] := by
  refine ⟨rfl, rfl, ?_, ?_⟩
  · unfold ListObj.backward
    rw [show L.rbegin = L.rend from rfl]
    cases fuel <;> simp [rtraverse]
  · unfold ListObj.cbackward
    rw [show L.crbegin = L.crend from rfl]
    cases fuel <;> simp [rtraverse]

/-- C9: reverse iteration evaluated on the list obtained by pushing 1, 2, 3 onto an empty
list. The list is well-formed, has size 3 and forward iteration yields 1, 2, 3; but
`rend()` is built from `end()`, like `rbegin()`, so the loop from `rbegin()` until
`rend()` (and from `crbegin()` until `crend()`) visits no element, for any fuel, instead
of 3, 2, 1. -/
theorem reverse_iteration_visits_nothing :
    exPushed.2.2 = .ok () ∧ WellFormed exPushed.1 exPushed.2.1 ∧ exPushed.2.1.size = 3 ∧
    exPushed.2.1.forward exPushed.1 3 = some [1, 2, 3] ∧
    exPushed.2.1.rbegin = exPushed.2.1.rend ∧
    (∀ fuel, exPushed.2.1.backward exPushed.1 fuel = some []) ∧
    (∀ fuel, exPushed.2.1.cbackward exPushed.1 fuel = some []) ∧
    (∀ fuel, exPushed.2.1.backward exPushed.1 fuel ≠ some [3, 2, 1]) := by
  refine ⟨rfl, by decide, by decide, by decide, rfl, ?_, ?_, ?_⟩
  · intro fuel
    exact (backward_eq_nil exPushed.1 exPushed.2.1 fuel).2.2.1
  · intro fuel
    exact (backward_eq_nil exPushed.1 exPushed.2.1 fuel).2.2.2
  · intro fuel hc
    rw [(backward_eq_nil exPushed.1 exPushed.2.1 fuel).2.2.1] at hc
    cases hc

/-- C10: insertion order. For a well-formed list with forward sequence `xs`, a successful
`push_back(v)` makes the forward sequence `xs` followed by `v`, and a successful
`push_front(v)` makes it `v` followed by `xs`, the size growing by one. Hence pushing
`vs` by `push_back` onto an empty list (on an arena whose unallocated part does not
hold the sentinel and does not reach the top of the address space) yields, when every
push succeeds, `size() == k` and forward iteration `vs`. (`hfresh`: a node region
obtained from the arena is not already on the ring; `hsz`: the `size_t` counter does not
wrap.) -/
theorem push_order {T : Type} (lay : NodeLayout) (h : Heap T) (L : ListObj) (v : T)
    (xs : List T) (hwf : WellFormed h L) (hxs : L.forward h L.size = some xs)
    (hsz : L.size + 1 < SIZE_MOD)
    (hfresh : ∀ ptr,
      (L.my_node_allocator.allocate lay.sizeof_Node lay.alignof_Node h 1).2 = .ok ptr →
      ∀ j, j ≤ L.size → (advance h L.it_end j).my_node ≠ ptr) :
    ((∃ it, (L.push_back lay h (some v)).2.2 = .ok it) →
      (L.push_back lay h (some v)).2.1.size = L.size + 1 ∧
      ∀ fuel, L.size + 1 ≤ fuel →
        (L.push_back lay h (some v)).2.1.forward (L.push_back lay h (some v)).1 fuel =
          some (xs ++ [v])) ∧
    ((∃ it, (L.push_front lay h (some v)).2.2 = .ok it) →
      (L.push_front lay h (some v)).2.1.size = L.size + 1 ∧
      ∀ fuel, L.size + 1 ≤ fuel →
        (L.push_front lay h (some v)).2.1.forward (L.push_front lay h (some v)).1 fuel =
          some (v :: xs)) ∧
    (∀ (h0 : Heap T) (e sid : Nat) (vs : List T),
      (h0.storage sid).base + (h0.storage sid).N + lay.alignof_Node + lay.sizeof_Node
        < SIZE_MOD →
      (h0.storage sid).my_used ≤ (h0.storage sid).base + (h0.storage sid).N →
      0 < lay.sizeof_Node →
      (e < (h0.storage sid).my_used ∨ (h0.storage sid).base + (h0.storage sid).N ≤ e) →
      (ListObj.push_back_all lay vs (ListObj.create h0 e { my_storage := some sid }).1
        (ListObj.create h0 e { my_storage := some sid }).2).2.2 = .ok () →
      (ListObj.push_back_all lay vs (ListObj.create h0 e { my_storage := some sid }).1
        (ListObj.create h0 e { my_storage := some sid }).2).2.1.size = vs.length ∧
      ∀ fuel, vs.length ≤ fuel →
        (ListObj.push_back_all lay vs (ListObj.create h0 e { my_storage := some sid }).1
          (ListObj.create h0 e { my_storage := some sid }).2).2.1.forward
          (ListObj.push_back_all lay vs (ListObj.create h0 e { my_storage := some sid }).1
            (ListObj.create h0 e { my_storage := some sid }).2).1 fuel = some vs) := by
  have hr := isRing_of_wellFormed h L hwf
  have hx := forward_of_isRing h L _ hr L.my_size (Nat.le_refl _)
  have hxeq := Option.some.inj (hxs.symm.trans hx)
  have hxlen : xs.length = L.my_size := by rw [hxeq]; simp
  have hfresh2 : ∀ ptr,
      (L.my_node_allocator.allocate lay.sizeof_Node lay.alignof_Node h 1).2 = .ok ptr →
      ptr ∉ L.my_end ::
        (List.range L.my_size).map (fun j => (advance h L.it_end (j + 1)).my_node) :=
    fun ptr ha => not_mem_ring_of_advance_ne h L ptr (hfresh ptr ha)
  refine ⟨?_, ?_, ?_⟩
  · rintro ⟨it, hit⟩
    have hpb : L.push_back lay h (some v) =
        L.insert lay h (advance h (L.begin h) L.my_size) (some v) := by
      unfold ListObj.push_back
      rw [← end_eq_advance h L hwf]
    rw [hpb] at hit ⊢
    obtain ⟨ha, _⟩ := insert_ok_inv lay h L _ _ it hit
    obtain ⟨_, _, r3, _, r5⟩ := insert_at_index lay h L _ L.my_size v it.my_node hr
      (Nat.le_refl _) hsz ha (hfresh2 _ ha)
    refine ⟨by rw [r3]; rfl, ?_⟩
    intro fuel hfuel
    rw [r5 fuel hfuel, ← hxeq, ← hxlen, List.take_length, List.drop_length]
  · rintro ⟨it, hit⟩
    have hpf : L.push_front lay h (some v) =
        L.insert lay h (advance h (L.begin h) 0) (some v) := rfl
    rw [hpf] at hit ⊢
    obtain ⟨ha, _⟩ := insert_ok_inv lay h L _ _ it hit
    obtain ⟨_, _, r3, _, r5⟩ := insert_at_index lay h L _ 0 v it.my_node hr
      (Nat.zero_le _) hsz ha (hfresh2 _ ha)
    refine ⟨by rw [r3]; rfl, ?_⟩
    intro fuel hfuel
    rw [r5 fuel hfuel, ← hxeq]
    rfl
  · intro h0 e sid vs hstat hc hpos he hok
    have hr0 := create_isRing h0 e { my_storage := some sid }
    obtain ⟨ps, q1, q2, q3⟩ := push_back_all_on_arena lay sid vs
      (ListObj.create h0 e { my_storage := some sid }).1
      (ListObj.create h0 e { my_storage := some sid }).2 [] hr0 rfl hstat hc hpos
      (by
        intro n hn
        simp only [List.mem_singleton] at hn
        rw [hn]
        exact he)
      (by
        show 0 + ((h0.storage sid).base + (h0.storage sid).N - (h0.storage sid).my_used)
          < SIZE_MOD
        omega)
      hok
    have hsize : (ListObj.push_back_all lay vs
        (ListObj.create h0 e { my_storage := some sid }).1
        (ListObj.create h0 e { my_storage := some sid }).2).2.1.my_size = vs.length := by
      rw [q3]
      show 0 + vs.length = vs.length
      omega
    refine ⟨hsize, ?_⟩
    intro fuel hfuel
    rw [forward_of_isRing _ _ _ q1 fuel (by rw [hsize]; exact hfuel), q2]
    rfl

/-- Witness of `push_order`: pushing 40 at the back, or at the front, of the example
list 10, 20, 30, and pushing 1, 2, 3 onto an empty list. -/
theorem push_order_witness :
    ((∃ it, (exThree.2.1.push_back exLayout exThree.1 (some 40)).2.2 = .ok it) →
      (exThree.2.1.push_back exLayout exThree.1 (some 40)).2.1.size = exThree.2.1.size + 1 ∧
      ∀ fuel, exThree.2.1.size + 1 ≤ fuel →
        (exThree.2.1.push_back exLayout exThree.1 (some 40)).2.1.forward
          (exThree.2.1.push_back exLayout exThree.1 (some 40)).1 fuel =
          some ([10, 20, 30] ++ [40])) ∧
    ((∃ it, (exThree.2.1.push_front exLayout exThree.1 (some 40)).2.2 = .ok it) →
      (exThree.2.1.push_front exLayout exThree.1 (some 40)).2.1.size = exThree.2.1.size + 1 ∧
      ∀ fuel, exThree.2.1.size + 1 ≤ fuel →
        (exThree.2.1.push_front exLayout exThree.1 (some 40)).2.1.forward
          (exThree.2.1.push_front exLayout exThree.1 (some 40)).1 fuel =
          some (40 :: [10, 20, 30])) ∧
    (exPushed.2.1.size = [1, 2, 3].length ∧
      ∀ fuel, [1, 2, 3].length ≤ fuel → exPushed.2.1.forward exPushed.1 fuel = some [1, 2, 3]) :=
  ⟨(push_order exLayout exThree.1 exThree.2.1 40 [10, 20, 30] (by decide) (by decide)
      (by decide)
      (by
        intro ptr ha
        have h2 : (exThree.2.1.my_node_allocator.allocate exLayout.sizeof_Node
            exLayout.alignof_Node exThree.1 1).2 = .ok 4168 := rfl
        rw [h2] at ha
        cases ha
        decide)).1,
    (push_order exLayout exThree.1 exThree.2.1 40 [10, 20, 30] (by decide) (by decide)
      (by decide)
      (by
        intro ptr ha
        have h2 : (exThree.2.1.my_node_allocator.allocate exLayout.sizeof_Node
            exLayout.alignof_Node exThree.1 1).2 = .ok 4168 := rfl
        rw [h2] at ha
        cases ha
        decide)).2.1,
    (push_order exLayout exThree.1 exThree.2.1 40 [10, 20, 30] (by decide) (by decide)
      (by decide)
      (by
        intro ptr ha
        have h2 : (exThree.2.1.my_node_allocator.allocate exLayout.sizeof_Node
            exLayout.alignof_Node exThree.1 1).2 = .ok 4168 := rfl
        rw [h2] at ha
        cases ha
        decide)).2.2 exHeap 100 7 [1, 2, 3] (by decide) (by decide) (by decide) (by decide)
      rfl⟩

/-- C16: a failed allocation rolls back only the byte advance and leaves the storage
usable. For a storage with cursor `c` (`base + N` and the aligned cursor representable
in `size_t`) and a request `(bytes, alignment)` that fails: the cursor afterwards is
`alignUp c alignment`, buffer and capacity are as before, and a subsequent request
`(bytes2, alignment2)` with `alignUp (alignUp c alignment) alignment2 + bytes2 ≤ base + N`
succeeds, at the aligned cursor. -/
theorem failed_allocation_keeps_storage_usable (s : StackStorage)
    (bytes alignment bytes2 alignment2 : Nat)
    (hcap : s.base + s.N < SIZE_MOD) (hb : bytes < SIZE_MOD)
    (hpad : alignUp s.my_used alignment < SIZE_MOD)
    (hfail : (s.allocate bytes alignment).2 = none) :
    (s.allocate bytes alignment).1.my_used = alignUp s.my_used alignment ∧
    (s.allocate bytes alignment).1.base = s.base ∧
    (s.allocate bytes alignment).1.N = s.N ∧
    (alignUp (alignUp s.my_used alignment) alignment2 + bytes2 ≤ s.base + s.N →
      ((s.allocate bytes alignment).1.allocate bytes2 alignment2).2 =
        some (alignUp (alignUp s.my_used alignment) alignment2)) := by
  have h1 := allocate_none_cursor s bytes alignment hb hpad hfail
  rw [h1]
  refine ⟨rfl, rfl, rfl, ?_⟩
  intro hfit
  rw [allocate_eq_of_placement_lt { s with my_used := alignUp s.my_used alignment } bytes2
    alignment2 hcap (Nat.lt_of_le_of_lt hfit hcap), if_neg (Nat.not_lt.mpr hfit)]

/-- Witness of `failed_allocation_keeps_storage_usable`: on a 64-byte storage at 4096
with cursor 4131, `allocate(100, 8)` fails and leaves the cursor at 4136; then
`allocate(24, 8)` succeeds at 4136. -/
theorem failed_allocation_keeps_storage_usable_witness :
    (({ base := 4096, N := 64, my_used := 4131 } : StackStorage).allocate 100 8).1.my_used =
      alignUp 4131 8 ∧
    (({ base := 4096, N := 64, my_used := 4131 } : StackStorage).allocate 100 8).1.base
      = 4096 ∧
    (({ base := 4096, N := 64, my_used := 4131 } : StackStorage).allocate 100 8).1.N = 64 ∧
    (alignUp (alignUp 4131 8) 8 + 24 ≤ 4096 + 64 →
      ((({ base := 4096, N := 64, my_used := 4131 } : StackStorage).allocate 100 8).1.allocate
        24 8).2 = some (alignUp (alignUp 4131 8) 8)) :=
  failed_allocation_keeps_storage_usable { base := 4096, N := 64, my_used := 4131 } 100 8 24 8
    (by decide) (by decide) (by decide) (by decide)


/-- C14, evaluated on the example list 10, 20, 30, whose arena has its cursor at 4168:
`insert` at `begin()` with an element whose constructor throws. The list is well-formed,
the node region 4168 is acquired, the error is propagated and the list object is
unchanged; but `deallocate` does nothing, so the cursor afterwards is 4192, the region's
24 bytes included, and not `alignUp(4168, 8) = 4168`. -/
theorem construct_failure_leaves_region_consumed :
    WellFormed exThree.1 exThree.2.1 ∧
    (exThree.1.storage 7).my_used = 4168 ∧
    (exThree.2.1.my_node_allocator.allocate exLayout.sizeof_Node exLayout.alignof_Node
      exThree.1 1).2 = .ok 4168 ∧
    (exThree.2.1.insert exLayout exThree.1 (exThree.2.1.begin exThree.1) none).2.2 =
      .error .construct_failed ∧
    (exThree.2.1.insert exLayout exThree.1 (exThree.2.1.begin exThree.1) none).2.1 =
      exThree.2.1 ∧
    ((exThree.2.1.insert exLayout exThree.1 (exThree.2.1.begin exThree.1) none).1.storage
      7).my_used = 4192 ∧
    ((exThree.2.1.insert exLayout exThree.1 (exThree.2.1.begin exThree.1) none).1.storage
      7).my_used ≠ alignUp (exThree.1.storage 7).my_used exLayout.alignof_Node := by
  refine ⟨by decide, by decide, rfl, rfl, rfl, by decide, by decide⟩

/-- C14, amended: for a well-formed list whose node handle points to the storage `sid`
with cursor `c`, if the node region fits (so `insert` acquires it at
`alignUp(c, alignof(Node))`, an address that is no node of the list) and the
construction of the element fails, then `insert` propagates the error, the list is
unchanged (same object, still well-formed, same forward sequence, same node at every
position), and the cursor afterwards is `alignUp(c, alignof(Node)) + sizeof(Node)`:
the bytes of the acquired region stay consumed, since `deallocate` does nothing. -/
theorem construct_failure_amended {T : Type} (lay : NodeLayout) (h : Heap T) (L : ListObj)
    (sid : Nat) (pos : BasicIterator)
    (hwf : WellFormed h L) (hs : L.my_node_allocator.my_storage = some sid)
    (hcap : (h.storage sid).base + (h.storage sid).N < SIZE_MOD)
    (hfit : alignUp (h.storage sid).my_used lay.alignof_Node + lay.sizeof_Node
      ≤ (h.storage sid).base + (h.storage sid).N)
    (hfresh : ∀ j, j ≤ L.size →
      (advance h L.it_end j).my_node ≠ alignUp (h.storage sid).my_used lay.alignof_Node) :
    (L.insert lay h pos (none : Option T)).2.2 = .error .construct_failed ∧
    (L.insert lay h pos (none : Option T)).2.1 = L ∧
    WellFormed (L.insert lay h pos (none : Option T)).1 L ∧
    (∀ fuel, L.size ≤ fuel →
      L.forward (L.insert lay h pos (none : Option T)).1 fuel = L.forward h fuel) ∧
    (∀ i, i ≤ L.size →
      advance (L.insert lay h pos (none : Option T)).1
        (L.begin (L.insert lay h pos (none : Option T)).1) i = advance h (L.begin h) i) ∧
    ((L.insert lay h pos (none : Option T)).1.storage sid).my_used =
      alignUp (h.storage sid).my_used lay.alignof_Node + lay.sizeof_Node ∧
    ((L.insert lay h pos (none : Option T)).1.storage sid).base = (h.storage sid).base ∧
    ((L.insert lay h pos (none : Option T)).1.storage sid).N = (h.storage sid).N := by
  have hw : alignUp (h.storage sid).my_used lay.alignof_Node + lay.sizeof_Node
      < SIZE_MOD := by omega
  obtain ⟨ha, hst⟩ := node_allocate_ok lay h L.my_node_allocator sid hs hcap hw hfit
  obtain ⟨q1, q2, _, _, q5, _, q7⟩ := insert_of_construct_error lay h L pos _ ha
  have hr := isRing_of_wellFormed h L hwf
  have hnot := not_mem_ring_of_advance_ne h L _ hfresh
  obtain ⟨_, r2, r3⟩ := insert_error_isRing lay h L _ pos (none : Option T) _ hr
    (fun ptr hp => by
      rw [ha] at hp
      cases hp
      exact hnot) q1
  refine ⟨q1, q2, wellFormed_of_isRing _ _ _ r2, ?_, ?_, ?_, ?_, ?_⟩
  · intro fuel hfuel
    rw [forward_of_isRing _ _ _ r2 fuel hfuel, forward_of_isRing _ _ _ hr fuel hfuel, r3]
  · intro i hi
    exact advance_eq_of_isRing h _ L L _ hr r2 rfl i hi
  · rw [q7, hst]
    simp [upd]
  · rw [q7, hst]
    simp [upd]
  · rw [q7, hst]
    simp [upd]

/-- Witness of `construct_failure_amended`: the example list 10, 20, 30 with a throwing
constructor at `begin()`; the cursor goes from 4168 to 4192. -/
theorem construct_failure_amended_witness :
    (exThree.2.1.insert exLayout exThree.1 (exThree.2.1.begin exThree.1) none).2.2 =
      .error .construct_failed ∧
    ((exThree.2.1.insert exLayout exThree.1 (exThree.2.1.begin exThree.1) none).1.storage
      7).my_used = alignUp (exThree.1.storage 7).my_used exLayout.alignof_Node
        + exLayout.sizeof_Node :=
  ⟨(construct_failure_amended exLayout exThree.1 exThree.2.1 7
      (exThree.2.1.begin exThree.1) (by decide) rfl (by decide) (by decide)
      (by decide)).1,
    (construct_failure_amended exLayout exThree.1 exThree.2.1 7
      (exThree.2.1.begin exThree.1) (by decide) rfl (by decide) (by decide)
      (by decide)).2.2.2.2.2.1⟩

/-- C15: `push_back(x)` followed by `pop_back()`. For a well-formed list with forward
sequence `xs` and a value `x` for which `push_back(x)` succeeds, the two calls leave the
list object as it was (so `size()` is as before), forward iteration yields `xs` again,
every position holds the node it held before, the list is well-formed, and `pop_back()`
returns `end()`. The node that `push_back` made is destroyed once. (`hfresh`: a node
region obtained from the arena is not already on the ring; `hsz`: the `size_t` counter
does not wrap.) -/
theorem push_back_pop_back_round_trip {T : Type} (lay : NodeLayout) (h : Heap T)
    (L : ListObj) (x : T) (xs : List T) (it : BasicIterator)
    (hwf : WellFormed h L) (hxs : L.forward h L.size = some xs)
    (hsz : L.size + 1 < SIZE_MOD)
    (hfresh : ∀ ptr,
      (L.my_node_allocator.allocate lay.sizeof_Node lay.alignof_Node h 1).2 = .ok ptr →
      ∀ j, j ≤ L.size → (advance h L.it_end j).my_node ≠ ptr)
    (hok : (L.push_back lay h (some x)).2.2 = .ok it) :
    ((L.push_back lay h (some x)).2.1.pop_back (L.push_back lay h (some x)).1).2.1 = L ∧
    ((L.push_back lay h (some x)).2.1.pop_back (L.push_back lay h (some x)).1).2.1.size
      = L.size ∧
    (∀ fuel, L.size ≤ fuel →
      ((L.push_back lay h (some x)).2.1.pop_back (L.push_back lay h (some x)).1).2.1.forward
        ((L.push_back lay h (some x)).2.1.pop_back (L.push_back lay h (some x)).1).1 fuel
        = some xs) ∧
    (∀ i, i ≤ L.size →
      advance ((L.push_back lay h (some x)).2.1.pop_back (L.push_back lay h (some x)).1).1
        (L.begin ((L.push_back lay h (some x)).2.1.pop_back (L.push_back lay h (some x)).1).1)
        i = advance h (L.begin h) i) ∧
    ((L.push_back lay h (some x)).2.1.pop_back (L.push_back lay h (some x)).1).2.2
      = L.end_ ∧
    WellFormed ((L.push_back lay h (some x)).2.1.pop_back (L.push_back lay h (some x)).1).1
      ((L.push_back lay h (some x)).2.1.pop_back (L.push_back lay h (some x)).1).2.1 ∧
    ((L.push_back lay h (some x)).2.1.pop_back (L.push_back lay h (some x)).1).1.destroyed
      = it.my_node :: h.destroyed := by
  have hpb : L.push_back lay h (some x) = L.insert lay h L.it_end (some x) := rfl
  rw [hpb] at hok ⊢
  obtain ⟨ha, _⟩ := insert_ok_inv lay h L _ _ it hok
  have hr := isRing_of_wellFormed h L hwf
  have hnot := not_mem_ring_of_advance_ne h L it.my_node (hfresh _ ha)
  have hx := forward_of_isRing h L _ hr L.my_size (Nat.le_refl _)
  have hxeq := Option.some.inj (hxs.symm.trans hx)
  generalize (List.range L.my_size).map (fun j => (advance h L.it_end (j + 1)).my_node) = ns
    at hr hnot hxeq
  obtain ⟨_, r2, r3, r4⟩ := insert_isRing lay h L ns [] L.it_end x it.my_node
    (by rw [List.append_nil]; exact hr) rfl hsz ha (by rw [List.append_nil]; exact hnot)
  obtain ⟨p1, p2, p3, p4, _, p6, _⟩ := pop_back_ring (L.insert lay h L.it_end (some x)).1
    (L.insert lay h L.it_end (some x)).2.1 ns it.my_node r2
    (by rw [r3]; exact hsz)
  have hL : ((L.insert lay h L.it_end (some x)).2.1.pop_back
      (L.insert lay h L.it_end (some x)).1).2.1 = L := by
    rw [p2, r3, ← hr.2.2]
  have hd := (insert_storage lay h L L.it_end (some x)).2.1
  rw [hL] at p1 ⊢
  refine ⟨rfl, rfl, ?_, ?_, ?_, wellFormed_of_isRing _ _ _ p1, ?_⟩
  · intro fuel hfuel
    rw [forward_of_isRing _ _ _ p1 fuel hfuel, p3, r4, hxeq,
      map_upd_of_not_mem _ _ _ _ (fun hc => hnot (List.mem_cons_of_mem _ hc))]
  · intro i hi
    exact advance_eq_of_isRing h _ L L _ hr p1 rfl i hi
  · rw [p6, r3]
    rfl
  · rw [p4, hd]


/-- Witness of `push_back_pop_back_round_trip`: `push_back(40)` then `pop_back()` on the
example list 10, 20, 30; the node 4168 is made and destroyed. -/
theorem push_back_pop_back_round_trip_witness :
    ((exThree.2.1.push_back exLayout exThree.1 (some 40)).2.1.pop_back
      (exThree.2.1.push_back exLayout exThree.1 (some 40)).1).2.1 = exThree.2.1 ∧
    (∀ fuel, exThree.2.1.size ≤ fuel →
      ((exThree.2.1.push_back exLayout exThree.1 (some 40)).2.1.pop_back
        (exThree.2.1.push_back exLayout exThree.1 (some 40)).1).2.1.forward
        ((exThree.2.1.push_back exLayout exThree.1 (some 40)).2.1.pop_back
          (exThree.2.1.push_back exLayout exThree.1 (some 40)).1).1 fuel
        = some [10, 20, 30]) ∧
    ((exThree.2.1.push_back exLayout exThree.1 (some 40)).2.1.pop_back
      (exThree.2.1.push_back exLayout exThree.1 (some 40)).1).2.2 = exThree.2.1.end_ :=
  ⟨(push_back_pop_back_round_trip exLayout exThree.1 exThree.2.1 40 [10, 20, 30]
      { my_node := 4168 } (by decide) (by decide) (by decide)
      (by
        intro ptr ha
        have h2 : (exThree.2.1.my_node_allocator.allocate exLayout.sizeof_Node
            exLayout.alignof_Node exThree.1 1).2 = .ok 4168 := rfl
        rw [h2] at ha
        cases ha
        decide) rfl).1,
    (push_back_pop_back_round_trip exLayout exThree.1 exThree.2.1 40 [10, 20, 30]
      { my_node := 4168 } (by decide) (by decide) (by decide)
      (by
        intro ptr ha
        have h2 : (exThree.2.1.my_node_allocator.allocate exLayout.sizeof_Node
            exLayout.alignof_Node exThree.1 1).2 = .ok 4168 := rfl
        rw [h2] at ha
        cases ha
        decide) rfl).2.2.1,
    (push_back_pop_back_round_trip exLayout exThree.1 exThree.2.1 40 [10, 20, 30]
      { my_node := 4168 } (by decide) (by decide) (by decide)
      (by
        intro ptr ha
        have h2 : (exThree.2.1.my_node_allocator.allocate exLayout.sizeof_Node
            exLayout.alignof_Node exThree.1 1).2 = .ok 4168 := rfl
        rw [h2] at ha
        cases ha
        decide) rfl).2.2.2.2.1⟩


/-- C19: erased nodes are never reclaimed, so the arena bounds the insertions over its
whole lifetime. Take a storage `sid` of capacity `N` that can place nodes of size
`s > 0` (`Roomy`: its cursor is at most the end of the buffer rounded up to the node
alignment and the buffer ends below `2^64 - alignof(Node) - sizeof(Node)`), with its
cursor at or after the start of the buffer, and any sequence of `insert`, `push`,
`erase` and `pop` operations by any lists. Then `erase`, `pop_back` and `pop_front` leave
every storage unchanged; a successful insertion by a list drawing from `sid` advances
the cursor by at least `s`; the number of successful insertions by lists drawing from
`sid` is at most `N / s`, however many erases are interleaved; and the cursor never
moves back. Example: on the 128-byte arena with 24-byte nodes, after five rounds of
`push_back; pop_back` the list is empty and the sixth `push_back` raises `bad_alloc`. -/
theorem arena_bounds_insertions {T : Type} (lay : NodeLayout) (sid : Nat) (w : World T)
    (ops : List (Nat × ListOp T))
    (hs : 0 < lay.sizeof_Node) (hroom : Roomy lay (w.1.storage sid))
    (hbase : (w.1.storage sid).base ≤ (w.1.storage sid).my_used) :
    (∀ (h : Heap T) (L : ListObj) (it : BasicIterator),
      (L.erase h it).1.storage = h.storage ∧ (L.pop_back h).1.storage = h.storage ∧
      (L.pop_front h).1.storage = h.storage) ∧
    (∀ (k : Nat) (o : ListOp T), (w.2 k).my_node_allocator.my_storage = some sid →
      (w.2 k).inserts lay w.1 o = true →
      (w.1.storage sid).my_used + lay.sizeof_Node
        ≤ ((w.apply lay k o).1.storage sid).my_used) ∧
    World.insertions lay sid ops w ≤ (w.1.storage sid).N / lay.sizeof_Node ∧
    (w.1.storage sid).my_used ≤ ((World.applyAll lay ops w).1.storage sid).my_used ∧
    (World.insertions exLayout 7 exSixPushes exWorld = 5 ∧
      ((World.applyAll exLayout exPushPop exWorld).2 0).size = 0 ∧
      (((World.applyAll exLayout exPushPop exWorld).2 0).push_back exLayout
        (World.applyAll exLayout exPushPop exWorld).1 (some 6)).2.2 = .error .bad_alloc) := by
  obtain ⟨b1, b2, b3⟩ := insertions_bound lay sid ops w hroom
  refine ⟨?_, ?_, ?_, b1.2.2.1, by decide, by decide, rfl⟩
  · intro h L it
    exact ⟨(erase_eq h L it).2.2.2.2.2.2, (erase_eq h L _).2.2.2.2.2.2,
      (erase_eq h L _).2.2.2.2.2.2⟩
  · intro k o hk hi
    exact ((step_advances lay w.1 (w.2 k) o sid hroom).2 hk hi).1
  · rw [Nat.le_div_iff_mul_le hs]
    rcases Nat.eq_zero_or_pos (World.insertions lay sid ops w) with hz | hp
    · rw [hz]
      omega
    · have := b3 hp
      rw [Nat.mul_comm]
      omega

/-- Witness of `arena_bounds_insertions`: the five rounds of `push_back; pop_back` on the
128-byte arena of the examples, followed by a sixth `push_back`: five insertions
succeed, and `128 / 24 = 5`. -/
theorem arena_bounds_insertions_witness :
    World.insertions exLayout 7 exSixPushes exWorld
      ≤ (exWorld.1.storage 7).N / exLayout.sizeof_Node ∧
    (exWorld.1.storage 7).my_used ≤
      ((World.applyAll exLayout exSixPushes exWorld).1.storage 7).my_used :=
  ⟨(arena_bounds_insertions exLayout 7 exWorld exSixPushes (by decide) (by decide)
      (by decide)).2.2.1,
    (arena_bounds_insertions exLayout 7 exWorld exSixPushes (by decide) (by decide)
      (by decide)).2.2.2.1⟩


/-- C17: the cursor of an arena never moves back. An `allocate` call, successful or
failed, with a power-of-two alignment for which `cursor + alignment + bytes` does not
overflow `size_t` leaves the cursor greater than or equal to what it was; so does any
sequence of such calls; `deallocate` changes nothing; and along any sequence of list
statements (`insert`, `erase`, the pushes and pops, the constructors, copy construction,
assignment, destruction, by any lists) the cursor of a storage that can place nodes
(`Roomy`) never moves back, its buffer staying the same. -/
theorem cursor_monotone {T : Type} (lay : NodeLayout) :
    (∀ (s : StackStorage) (bytes alignment : Nat), (∃ k, alignment = 2 ^ k) →
      s.my_used + alignment + bytes < SIZE_MOD →
      s.my_used ≤ (s.allocate bytes alignment).1.my_used) ∧
    (∀ (s : StackStorage) (reqs : List (Nat × Nat)), (∀ r ∈ reqs, ∃ k, r.2 = 2 ^ k) →
      s.NoWrap reqs → s.my_used ≤ (s.run reqs).1.my_used) ∧
    (∀ (a : StackAllocator) (h : Heap T) (ptr n : Nat), a.deallocate h ptr n = h) ∧
    (∀ (sid : Nat) (w w1 : World T) (cs : List (Cmd T)), Roomy lay (w.1.storage sid) →
      World.run lay cs w = some w1 →
      (w.1.storage sid).my_used ≤ (w1.1.storage sid).my_used ∧
      (w1.1.storage sid).base = (w.1.storage sid).base ∧
      (w1.1.storage sid).N = (w.1.storage sid).N) := by
  refine ⟨?_, ?_, ?_, ?_⟩
  · intro s bytes alignment _ hw
    exact allocate_mono s bytes alignment hw
  · intro s reqs _ hw
    exact run_mono reqs s hw
  · intro a h ptr n
    rfl
  · intro sid w w1 cs hroom hrun
    obtain ⟨q1, q2, q3, _⟩ := run_advances lay sid cs w w1 hrun hroom
    exact ⟨q3, q1, q2⟩

/-- Witness of `cursor_monotone`: a failing call on a 64-byte storage; three calls, the
second of which fails; and the example program, which copies, assigns and destroys
lists on the 128-byte arena and ends with a constructor that is rolled back. -/
theorem cursor_monotone_witness :
    (4131 : Nat) ≤
      (StackStorage.allocate { base := 4096, N := 64, my_used := 4131 } 100 8).1.my_used ∧
    (4096 : Nat) ≤
      (StackStorage.run (StackStorage.init 4096 64) [(8, 8), (100, 16), (3, 1)]).1.my_used ∧
    World.run exLayout exProgram exStart = some exProgramEnd ∧
    (exStart.1.storage 7).my_used ≤ (exProgramEnd.1.storage 7).my_used :=
  ⟨(@cursor_monotone Nat exLayout).1 { base := 4096, N := 64, my_used := 4131 } 100 8
      ⟨3, rfl⟩ (by decide),
    (@cursor_monotone Nat exLayout).2.1 (StackStorage.init 4096 64)
      [(8, 8), (100, 16), (3, 1)]
      (by
        intro r hr
        simp only [List.mem_cons, List.mem_singleton, List.not_mem_nil, or_false] at hr
        rcases hr with rfl | rfl | rfl
        · exact ⟨3, rfl⟩
        · exact ⟨4, rfl⟩
        · exact ⟨0, rfl⟩)
      (by
        refine ⟨by decide, by decide, by decide, trivial⟩),
    rfl,
    ((@cursor_monotone Nat exLayout).2.2.2 7 exStart exProgramEnd exProgram (by decide)
      rfl).1⟩


/-- C12: copy construction. Let `L` be a well-formed list with forward sequence `xs`
whose handle points to the arena `sid`, an arena that can place nodes and has room for
`size(L)` further nodes; the new list object is placed at `e`, away from `L` and from the
unallocated part of the arena, and copying an element yields the element. Then the copy
constructor returns (given fuel for `size(L)` iterations) a well-formed list of the same
size whose forward sequence is `xs`, holding the very handle of `L`; and `L` is
unchanged: well-formed, with the same nodes, links, values and forward sequence. -/
theorem copy_construction {T : Type} (lay : NodeLayout) (cp : Nat → T → Option T)
    (h : Heap T) (L : ListObj) (e sid fuel : Nat) (xs : List T)
    (hwf : WellFormed h L) (hxs : L.forward h L.size = some xs)
    (hs : L.my_allocator.my_storage = some sid)
    (hroomy : Roomy lay (h.storage sid)) (hpos : 0 < lay.sizeof_Node)
    (hbase : (h.storage sid).base ≤ (h.storage sid).my_used)
    (hdiv : lay.alignof_Node ∣ lay.sizeof_Node)
    (hroom : alignUp (h.storage sid).my_used lay.alignof_Node + L.size * lay.sizeof_Node
      ≤ (h.storage sid).base + (h.storage sid).N)
    (hout : OutsideFree (h.storage sid) (L.my_end :: L.nodes h))
    (he : e < (h.storage sid).my_used ∨ (h.storage sid).base + (h.storage sid).N ≤ e)
    (heL : e ∉ L.my_end :: L.nodes h)
    (hcp : ∀ j v, cp j v = some v) (hfuel : L.size ≤ fuel) :
    ∃ h1 L1, ListObj.copy_create lay cp h e L fuel = some (h1, L1, .ok ()) ∧
      L1.size = L.size ∧ WellFormed h1 L1 ∧
      (∀ f, L1.size ≤ f → L1.forward h1 f = some xs) ∧
      L1.my_allocator = L.my_allocator ∧
      L1.my_node_allocator.my_storage = L.my_allocator.my_storage ∧ L1.my_end = e ∧
      WellFormed h1 L ∧ L.nodes h1 = L.nodes h ∧
      (∀ f, L.size ≤ f → L.forward h1 f = some xs) ∧
      SameOn (L.my_end :: L.nodes h) h h1 := by
  have hr := isRing_nodes h L hwf
  have hx := forward_of_isRing h L _ hr L.my_size (Nat.le_refl _)
  have hxeq := Option.some.inj (hxs.symm.trans hx)
  have hlen : (L.nodes h).length = L.size := hr.2.2.symm
  obtain ⟨r, ps, q1, q2, _, q4, q5, q6, q7, _, q9⟩ :=
    copy_create_with_builds lay sid (L.my_end :: L.nodes h) cp h e L (L.nodes h)
      L.my_allocator fuel hr (fun x hx => hx) hs hroomy hpos hbase he hout heL
      (by rw [hlen]; exact hfuel)
  have hok : r.2.2 = .ok () := q9 hcp hdiv (by rw [hlen]; exact hroom)
  obtain ⟨t1, t2, t3, _, _⟩ := q7 hok
  obtain ⟨hrL, hvL⟩ := isRing_of_sameOn _ h r.1 L _ hr (fun x hx => hx) q2
  obtain ⟨f1, f2, f3⟩ := facts_of_isRing r.1 L _ hrL
  obtain ⟨g1, _, g3⟩ := facts_of_isRing r.1 r.2.1 ps t1.1.1
  have hsize : r.2.1.size = L.size := by
    show r.2.1.my_size = L.size
    rw [t1.1.1.2.2, t2, hlen]
  refine ⟨r.1, r.2.1, ?_, hsize, g1, ?_, q5, ?_, q4, f1, f2, ?_, q2⟩
  · unfold ListObj.copy_create
    rw [q1, ← hok]
  · intro f hf
    rw [g3 f hf, t3 hcp, hxeq]
  · rw [q6, hs]
  · intro f hf
    rw [f3 f hf, hvL, hxeq]

/-- Witness of `copy_construction`: the example list 10, 20 on the 128-byte arena is
copied to a list object at 200; the copy holds 10, 20 in the nodes 4144 and 4168. -/
theorem copy_construction_witness :
    ∃ h1 L1, ListObj.copy_create exLayout (fun _ v => some v) exPair.1 200 exPair.2.1 2
        = some (h1, L1, .ok ()) ∧
      L1.size = exPair.2.1.size ∧ WellFormed h1 L1 ∧
      (∀ f, L1.size ≤ f → L1.forward h1 f = some [10, 20]) ∧
      L1.my_allocator = exPair.2.1.my_allocator ∧
      L1.my_node_allocator.my_storage = exPair.2.1.my_allocator.my_storage ∧
      L1.my_end = 200 ∧
      WellFormed h1 exPair.2.1 ∧ exPair.2.1.nodes h1 = exPair.2.1.nodes exPair.1 ∧
      (∀ f, exPair.2.1.size ≤ f → exPair.2.1.forward h1 f = some [10, 20]) ∧
      SameOn (exPair.2.1.my_end :: exPair.2.1.nodes exPair.1) exPair.1 h1 :=
  copy_construction exLayout (fun _ v => some v) exPair.1 exPair.2.1 200 7 2 [10, 20]
    (by decide) (by decide) rfl (by decide) (by decide) (by decide) (by decide) (by decide)
    (by
      intro n hn
      have hl : exPair.2.1.my_end :: exPair.2.1.nodes exPair.1 = [100, 4096, 4120] := by
        decide
      rw [hl] at hn
      simp only [List.mem_cons, List.mem_singleton, List.not_mem_nil, or_false] at hn
      rcases hn with rfl | rfl | rfl <;> decide)
    (by decide) (by decide) (fun _ _ => rfl) (by decide)

/-- C13: roll-back of the bulk constructors. A list object is constructed at `e`, outside
the unallocated part of an arena `sid` that can place nodes. For the constructors
`List(k)` and `List(k, value)` (`args i` is what constructing the `i`-th element gives):
the constructor raises `err` exactly when its loop of `push_back` calls raises `err`; and
when the loop raises with `j` nodes on the ring of the list (the nodes built by the
`push_back` calls that succeeded), then `j < k`, the constructor raises the same error,
and at that point the size is zero, the sentinel links to itself, and each of those `j`
nodes has been destroyed exactly once: the destruction log has grown by exactly the
nodes the ring had when the loop raised, which are pairwise distinct. The same holds for
the copy constructor from a well-formed list `S` drawing from the arena, with its copy
loop and `j < size(S)`; loop and constructor return given fuel for `size(S)` iterations,
and `S` is unchanged. -/
theorem bulk_constructor_rollback {T : Type} (lay : NodeLayout) (h : Heap T) (e sid : Nat)
    (alloc : StackAllocator) (hs : alloc.my_storage = some sid)
    (hroomy : Roomy lay (h.storage sid)) (hpos : 0 < lay.sizeof_Node)
    (hbase : (h.storage sid).base ≤ (h.storage sid).my_used)
    (he : e < (h.storage sid).my_used ∨ (h.storage sid).base + (h.storage sid).N ≤ e) :
    (∀ (k : Nat) (args : Nat → Option T) (err : Raised),
      ((ListObj.create_n lay h e alloc k args).2.2 = .error err ↔
        (ListObj.push_back_n lay args k 0 (ListObj.create h e alloc).1
          (ListObj.create h e alloc).2).2.2 = .error err) ∧
      ((ListObj.push_back_n lay args k 0 (ListObj.create h e alloc).1
          (ListObj.create h e alloc).2).2.2 = .error err →
        (ListObj.create_n lay h e alloc k args).2.2 = .error err ∧
        (ListObj.push_back_n lay args k 0 (ListObj.create h e alloc).1
          (ListObj.create h e alloc).2).2.1.size < k ∧
        (e :: (ListObj.push_back_n lay args k 0 (ListObj.create h e alloc).1
          (ListObj.create h e alloc).2).2.1.nodes
          (ListObj.push_back_n lay args k 0 (ListObj.create h e alloc).1
            (ListObj.create h e alloc).2).1).Nodup ∧
        (ListObj.create_n lay h e alloc k args).2.1.size = 0 ∧
        (ListObj.create_n lay h e alloc k args).1.my_next e = e ∧
        (ListObj.create_n lay h e alloc k args).1.my_prev e = e ∧
        (ListObj.create_n lay h e alloc k args).1.destroyed =
          (ListObj.push_back_n lay args k 0 (ListObj.create h e alloc).1
            (ListObj.create h e alloc).2).2.1.nodes
            (ListObj.push_back_n lay args k 0 (ListObj.create h e alloc).1
              (ListObj.create h e alloc).2).1 ++ h.destroyed)) ∧
    (∀ (S : ListObj) (cp : Nat → T → Option T) (fuel : Nat), WellFormed h S →
      S.my_allocator = alloc → OutsideFree (h.storage sid) (S.my_end :: S.nodes h) →
      e ∉ S.my_end :: S.nodes h → S.size ≤ fuel →
      ∃ rl r,
        ListObj.copy_loop lay cp S fuel 0
          (S.it_end.inc (ListObj.create h e S.my_allocator).1)
          (ListObj.create h e S.my_allocator).1 (ListObj.create h e S.my_allocator).2
          = some rl ∧
        ListObj.copy_create lay cp h e S fuel = some r ∧
        (∀ err, r.2.2 = .error err ↔ rl.2.2 = .error err) ∧
        (∀ err, rl.2.2 = .error err →
          r.2.2 = .error err ∧ rl.2.1.size < S.size ∧
          (e :: rl.2.1.nodes rl.1).Nodup ∧
          r.2.1.size = 0 ∧ r.1.my_next e = e ∧ r.1.my_prev e = e ∧
          r.1.destroyed = rl.2.1.nodes rl.1 ++ h.destroyed ∧
          WellFormed r.1 S ∧ S.nodes r.1 = S.nodes h)) := by
  constructor
  · intro k args err
    refine ⟨create_n_error_iff lay h e alloc k args err, fun hloop => ?_⟩
    have herr := (create_n_error_iff lay h e alloc k args err).mpr hloop
    obtain ⟨ps, p1, p2, _, p4, p5, _, p7, p8, p9⟩ :=
      create_n_rollback lay sid h e alloc k args err hs hroomy hpos hbase he herr
    rw [nodes_of_isRing _ _ _ p4]
    refine ⟨herr, ?_, p2, p5, p7, p8, p9⟩
    show (ListObj.push_back_n lay args k 0 (ListObj.create h e alloc).1
      (ListObj.create h e alloc).2).2.1.my_size < k
    rw [p4.2.2]
    exact p1
  · intro S cp fuel hwf hS hout heS hfuel
    have hr := isRing_nodes h S hwf
    have hlen : (S.nodes h).length = S.size := hr.2.2.symm
    obtain ⟨rl, r, ps, q1, q2, q3, q4, q5, q6⟩ :=
      copy_create_with_rollback lay sid (S.my_end :: S.nodes h) cp h e S (S.nodes h)
        S.my_allocator fuel hr (fun x hx => hx) (by rw [hS]; exact hs) hroomy hpos hbase he
        hout heS (by rw [hlen]; exact hfuel)
    refine ⟨rl, r, q1, q2, q4, ?_⟩
    intro err herr
    obtain ⟨t1, t2, t3, t4, t5, t6⟩ := q6 err herr
    obtain ⟨hrS, _⟩ := isRing_of_sameOn _ h r.1 S _ hr (fun x hx => hx) q5
    obtain ⟨f1, f2, _⟩ := facts_of_isRing r.1 S _ hrS
    rw [nodes_of_isRing _ _ _ q3]
    refine ⟨(q4 err).mpr herr, ?_, t4, t1, t2, t3, t6, f1, f2⟩
    show rl.2.1.my_size < S.size
    rw [q3.2.2, ← hlen]
    exact t5

/-- Witness of `bulk_constructor_rollback`, next to the example list 10, 20, 30, whose
arena has room for two more nodes: the loop of `List(5, 0)` at 200 raises `bad_alloc`
with the nodes 4168 and 4192 on the ring (`j = 2`), and so does the copy loop of the copy
constructor from the example list; in both cases the constructor raises `bad_alloc`
with exactly the nodes 4168 and 4192 destroyed. -/
theorem bulk_constructor_rollback_witness :
    ((ListObj.push_back_n exLayout (fun _ => some 0) 5 0
        (ListObj.create exThree.1 200 { my_storage := some 7 }).1
        (ListObj.create exThree.1 200 { my_storage := some 7 }).2).2.1.nodes
        (ListObj.push_back_n exLayout (fun _ => some 0) 5 0
          (ListObj.create exThree.1 200 { my_storage := some 7 }).1
          (ListObj.create exThree.1 200 { my_storage := some 7 }).2).1 = [4168, 4192] ∧
      (ListObj.create_n exLayout exThree.1 200 { my_storage := some 7 } 5
        (fun _ => some 0)).1.destroyed = [4168, 4192]) ∧
    (∃ rl r,
      ListObj.copy_loop exLayout (fun _ v => some v) exThree.2.1 3 0
        (exThree.2.1.it_end.inc (ListObj.create exThree.1 200 exThree.2.1.my_allocator).1)
        (ListObj.create exThree.1 200 exThree.2.1.my_allocator).1
        (ListObj.create exThree.1 200 exThree.2.1.my_allocator).2 = some rl ∧
      ListObj.copy_create exLayout (fun _ v => some v) exThree.1 200 exThree.2.1 3
        = some r ∧
      rl.2.2 = .error .bad_alloc ∧ rl.2.1.nodes rl.1 = [4168, 4192] ∧
      r.2.2 = .error .bad_alloc ∧ r.1.destroyed = [4168, 4192]) ∧
    ((ListObj.create_n exLayout exThree.1 200 { my_storage := some 7 } 5
        (fun _ => some 0)).2.2 = .error .bad_alloc ∧
      (ListObj.push_back_n exLayout (fun _ => some 0) 5 0
        (ListObj.create exThree.1 200 { my_storage := some 7 }).1
        (ListObj.create exThree.1 200 { my_storage := some 7 }).2).2.1.size < 5 ∧
      (200 :: (ListObj.push_back_n exLayout (fun _ => some 0) 5 0
        (ListObj.create exThree.1 200 { my_storage := some 7 }).1
        (ListObj.create exThree.1 200 { my_storage := some 7 }).2).2.1.nodes
        (ListObj.push_back_n exLayout (fun _ => some 0) 5 0
          (ListObj.create exThree.1 200 { my_storage := some 7 }).1
          (ListObj.create exThree.1 200 { my_storage := some 7 }).2).1).Nodup ∧
      (ListObj.create_n exLayout exThree.1 200 { my_storage := some 7 } 5
        (fun _ => some 0)).2.1.size = 0 ∧
      (ListObj.create_n exLayout exThree.1 200 { my_storage := some 7 } 5
        (fun _ => some 0)).1.my_next 200 = 200 ∧
      (ListObj.create_n exLayout exThree.1 200 { my_storage := some 7 } 5
        (fun _ => some 0)).1.my_prev 200 = 200 ∧
      (ListObj.create_n exLayout exThree.1 200 { my_storage := some 7 } 5
        (fun _ => some 0)).1.destroyed =
        (ListObj.push_back_n exLayout (fun _ => some 0) 5 0
          (ListObj.create exThree.1 200 { my_storage := some 7 }).1
          (ListObj.create exThree.1 200 { my_storage := some 7 }).2).2.1.nodes
          (ListObj.push_back_n exLayout (fun _ => some 0) 5 0
            (ListObj.create exThree.1 200 { my_storage := some 7 }).1
            (ListObj.create exThree.1 200 { my_storage := some 7 }).2).1
          ++ exThree.1.destroyed) ∧
    (∃ rl r,
      ListObj.copy_loop exLayout (fun _ v => some v) exThree.2.1 3 0
        (exThree.2.1.it_end.inc (ListObj.create exThree.1 200 exThree.2.1.my_allocator).1)
        (ListObj.create exThree.1 200 exThree.2.1.my_allocator).1
        (ListObj.create exThree.1 200 exThree.2.1.my_allocator).2 = some rl ∧
      ListObj.copy_create exLayout (fun _ v => some v) exThree.1 200 exThree.2.1 3
        = some r ∧
      (∀ err, r.2.2 = .error err ↔ rl.2.2 = .error err) ∧
      (∀ err, rl.2.2 = .error err →
        r.2.2 = .error err ∧ rl.2.1.size < exThree.2.1.size ∧
        (200 :: rl.2.1.nodes rl.1).Nodup ∧
        r.2.1.size = 0 ∧ r.1.my_next 200 = 200 ∧ r.1.my_prev 200 = 200 ∧
        r.1.destroyed = rl.2.1.nodes rl.1 ++ exThree.1.destroyed ∧
        WellFormed r.1 exThree.2.1 ∧
        exThree.2.1.nodes r.1 = exThree.2.1.nodes exThree.1)) :=
  ⟨⟨by decide, by decide⟩, ⟨_, _, rfl, rfl, rfl, by decide, rfl, by decide⟩,
    ((bulk_constructor_rollback exLayout exThree.1 200 7 { my_storage := some 7 } rfl
      (by decide) (by decide) (by decide) (by decide)).1 5 (fun _ => some 0) .bad_alloc).2
      rfl,
    (bulk_constructor_rollback exLayout exThree.1 200 7 { my_storage := some 7 } rfl
      (by decide) (by decide) (by decide) (by decide)).2 exThree.2.1 (fun _ v => some v) 3
      (by decide) rfl
      (by
        intro n hn
        have hl : exThree.2.1.my_end :: exThree.2.1.nodes exThree.1 =
            [100, 4096, 4120, 4144] := by decide
        rw [hl] at hn
        simp only [List.mem_cons, List.mem_singleton, List.not_mem_nil, or_false] at hn
        rcases hn with rfl | rfl | rfl | rfl <;> decide)
      (by decide) (by decide)⟩

/-- C18: the sentinel-aware `swap`. For two well-formed lists `X` and `Y` with no node in
common (sentinels included), each possibly empty, after `X.swap(Y)` both lists are
well-formed around their own sentinels; `X` has the former size, nodes (the very same
addresses, in order), forward sequence and handles of `Y`, and `Y` those of `X`; and a
list that received an empty chain has the `next` and `prev` of its sentinel pointing to
its own sentinel. -/
theorem swap_postcondition {T : Type} (h : Heap T) (X Y : ListObj) (xs ys : List T)
    (hX : WellFormed h X) (hY : WellFormed h Y)
    (hxs : X.forward h X.size = some xs) (hys : Y.forward h Y.size = some ys)
    (hdis : ∀ z ∈ X.my_end :: X.nodes h, z ∉ Y.my_end :: Y.nodes h) :
    WellFormed (X.swap h Y).1 (X.swap h Y).2.1 ∧ WellFormed (X.swap h Y).1 (X.swap h Y).2.2 ∧
    (X.swap h Y).2.1.my_end = X.my_end ∧ (X.swap h Y).2.2.my_end = Y.my_end ∧
    (X.swap h Y).2.1.size = Y.size ∧ (X.swap h Y).2.2.size = X.size ∧
    (X.swap h Y).2.1.nodes (X.swap h Y).1 = Y.nodes h ∧
    (X.swap h Y).2.2.nodes (X.swap h Y).1 = X.nodes h ∧
    (∀ f, Y.size ≤ f → (X.swap h Y).2.1.forward (X.swap h Y).1 f = some ys) ∧
    (∀ f, X.size ≤ f → (X.swap h Y).2.2.forward (X.swap h Y).1 f = some xs) ∧
    ((X.swap h Y).2.1.my_allocator = Y.my_allocator ∧
      (X.swap h Y).2.1.my_node_allocator = Y.my_node_allocator) ∧
    ((X.swap h Y).2.2.my_allocator = X.my_allocator ∧
      (X.swap h Y).2.2.my_node_allocator = X.my_node_allocator) ∧
    (Y.size = 0 → (X.swap h Y).1.my_next X.my_end = X.my_end ∧
      (X.swap h Y).1.my_prev X.my_end = X.my_end) ∧
    (X.size = 0 → (X.swap h Y).1.my_next Y.my_end = Y.my_end ∧
      (X.swap h Y).1.my_prev Y.my_end = Y.my_end) := by
  have hrX := isRing_nodes h X hX
  have hrY := isRing_nodes h Y hY
  have hx := forward_of_isRing h X _ hrX X.my_size (Nat.le_refl _)
  have hxeq := Option.some.inj (hxs.symm.trans hx)
  have hy := forward_of_isRing h Y _ hrY Y.my_size (Nat.le_refl _)
  have hyeq := Option.some.inj (hys.symm.trans hy)
  obtain ⟨s1, s2, s3, s4, s5, _, _, _⟩ := swap_rings h X Y _ _ hrX hrY hdis
  obtain ⟨f1, f2, f3⟩ := facts_of_isRing _ _ _ s1
  obtain ⟨g1, g2, g3⟩ := facts_of_isRing _ _ _ s2
  have e1 : (X.swap h Y).2.1.my_end = X.my_end := by rw [s3]
  have e2 : (X.swap h Y).2.2.my_end = Y.my_end := by rw [s4]
  have z1 : (X.swap h Y).2.1.size = Y.size := by rw [s3]; rfl
  have z2 : (X.swap h Y).2.2.size = X.size := by rw [s4]; rfl
  refine ⟨f1, g1, e1, e2, z1, z2, f2, g2, ?_, ?_, ⟨by rw [s3], by rw [s3]⟩,
    ⟨by rw [s4], by rw [s4]⟩, ?_, ?_⟩
  · intro f hf
    rw [f3 f (by rw [z1]; exact hf), s5, hyeq]
  · intro f hf
    rw [g3 f (by rw [z2]; exact hf), s5, hxeq]
  · intro h0
    have hnil : Y.nodes h = [] := List.eq_nil_of_length_eq_zero (hrY.2.2.symm.trans h0)
    have hl := s1.2.1
    rw [hnil, e1] at hl
    simp only [Linked] at hl
    exact hl
  · intro h0
    have hnil : X.nodes h = [] := List.eq_nil_of_length_eq_zero (hrX.2.2.symm.trans h0)
    have hl := s2.2.1
    rw [hnil, e2] at hl
    simp only [Linked] at hl
    exact hl

/-- Witness of `swap_postcondition`, on the four lists of the two-arena examples: the
list 10, 20, 30 swapped with the list 1, 2; with an empty list, in both orders; and two
empty lists swapped. -/
theorem swap_postcondition_witness :
    ((exSrc.2.1.swap exNone2.1 exDst.2.1).2.1.nodes (exSrc.2.1.swap exNone2.1 exDst.2.1).1
        = exDst.2.1.nodes exNone2.1 ∧
      (exSrc.2.1.swap exNone2.1 exDst.2.1).2.2.nodes (exSrc.2.1.swap exNone2.1 exDst.2.1).1
        = exSrc.2.1.nodes exNone2.1) ∧
    ((exSrc.2.1.swap exNone2.1 exNone.2).1.my_next exSrc.2.1.my_end = exSrc.2.1.my_end ∧
      (exSrc.2.1.swap exNone2.1 exNone.2).1.my_prev exSrc.2.1.my_end = exSrc.2.1.my_end) ∧
    ((exNone.2.swap exNone2.1 exSrc.2.1).1.my_next exSrc.2.1.my_end = exSrc.2.1.my_end ∧
      (exNone.2.swap exNone2.1 exSrc.2.1).1.my_prev exSrc.2.1.my_end = exSrc.2.1.my_end) ∧
    (WellFormed (exNone.2.swap exNone2.1 exNone2.2).1 (exNone.2.swap exNone2.1 exNone2.2).2.1 ∧
      WellFormed (exNone.2.swap exNone2.1 exNone2.2).1
        (exNone.2.swap exNone2.1 exNone2.2).2.2) :=
  ⟨⟨(swap_postcondition exNone2.1 exSrc.2.1 exDst.2.1 [10, 20, 30] [1, 2] (by decide)
        (by decide) (by decide) (by decide) (by decide)).2.2.2.2.2.2.1,
      (swap_postcondition exNone2.1 exSrc.2.1 exDst.2.1 [10, 20, 30] [1, 2] (by decide)
        (by decide) (by decide) (by decide) (by decide)).2.2.2.2.2.2.2.1⟩,
    (swap_postcondition exNone2.1 exSrc.2.1 exNone.2 [10, 20, 30] [] (by decide)
      (by decide) (by decide) (by decide) (by decide)).2.2.2.2.2.2.2.2.2.2.2.2.1 rfl,
    (swap_postcondition exNone2.1 exNone.2 exSrc.2.1 [] [10, 20, 30] (by decide)
      (by decide) (by decide) (by decide) (by decide)).2.2.2.2.2.2.2.2.2.2.2.2.2 rfl,
    ⟨(swap_postcondition exNone2.1 exNone.2 exNone2.2 [] [] (by decide)
        (by decide) (by decide) (by decide) (by decide)).1,
      (swap_postcondition exNone2.1 exNone.2 exNone2.2 [] [] (by decide)
        (by decide) (by decide) (by decide) (by decide)).2.1⟩⟩


/-- C11: copy assignment does not propagate the allocator. Let `L1` and `L2` be
well-formed lists with no node in common, `L2` holding a handle to an arena `sid2` that
can place nodes and has room for `size(L1)` nodes (`L1` draws from another arena); the
local copy of `operator=` is placed at `tmp`, and copying an element yields the element. Then `L2 = L1` returns normally (given fuel for `size(L1)`
iterations); afterwards `L2` is well-formed with the size and forward sequence of `L1`,
its handle is the one it had and points to `sid2`, every node of `L2` lies inside the
buffer of `sid2`; and `L1` is well-formed with the nodes and forward sequence it had, every
storage other than `sid2`, so the arena of `L1`, being unchanged. The former nodes of `L2`
were each destroyed once.
(Side conditions: the objects and nodes at hand lie outside the unallocated part of
`sid2`, and `size(L2)` is a `size_t`.) -/
theorem copy_assignment_keeps_allocator {T : Type} (lay : NodeLayout)
    (cp : Nat → T → Option T) (h : Heap T) (L1 L2 : ListObj) (sid2 tmp fuel : Nat)
    (xs1 : List T)
    (hwf1 : WellFormed h L1) (hwf2 : WellFormed h L2)
    (hxs1 : L1.forward h L1.size = some xs1)
    (hdis : ∀ z ∈ L2.my_end :: L2.nodes h, z ∉ L1.my_end :: L1.nodes h)
    (hs2 : L2.my_allocator.my_storage = some sid2)
    (hroomy : Roomy lay (h.storage sid2)) (hpos : 0 < lay.sizeof_Node)
    (hbase : (h.storage sid2).base ≤ (h.storage sid2).my_used)
    (hdiv : lay.alignof_Node ∣ lay.sizeof_Node)
    (hroom : alignUp (h.storage sid2).my_used lay.alignof_Node + L1.size * lay.sizeof_Node
      ≤ (h.storage sid2).base + (h.storage sid2).N)
    (hsz : L2.size < SIZE_MOD)
    (htmp : tmp < (h.storage sid2).my_used ∨
      (h.storage sid2).base + (h.storage sid2).N ≤ tmp)
    (ht2 : tmp ∉ L2.my_end :: L2.nodes h) (ht1 : tmp ∉ L1.my_end :: L1.nodes h)
    (hP2 : OutsideFree (h.storage sid2) (L2.my_end :: L2.nodes h))
    (hP1 : OutsideFree (h.storage sid2) (L1.my_end :: L1.nodes h))
    (hcp : ∀ j v, cp j v = some v) (hfuel : L1.size ≤ fuel) :
    ∃ h1 L2a, L2.assign lay cp h L1 tmp fuel = some (h1, L2a, .ok ()) ∧
      L2a.size = L1.size ∧ WellFormed h1 L2a ∧
      (∀ f, L2a.size ≤ f → L2a.forward h1 f = some xs1) ∧
      L2a.my_end = L2.my_end ∧ L2a.my_allocator = L2.my_allocator ∧
      L2a.my_allocator.my_storage = some sid2 ∧
      (∀ p ∈ L2a.nodes h1, (h.storage sid2).base ≤ p ∧
        p + lay.sizeof_Node ≤ (h.storage sid2).base + (h.storage sid2).N) ∧
      WellFormed h1 L1 ∧ L1.nodes h1 = L1.nodes h ∧
      (∀ f, L1.size ≤ f → L1.forward h1 f = some xs1) ∧
      (∀ sid1, sid1 ≠ sid2 → h1.storage sid1 = h.storage sid1) ∧
      h1.destroyed = L2.nodes h ++ h.destroyed := by
  have hr1 := isRing_nodes h L1 hwf1
  have hr2 := isRing_nodes h L2 hwf2
  have hx := forward_of_isRing h L1 _ hr1 L1.my_size (Nat.le_refl _)
  have hxeq := Option.some.inj (hxs1.symm.trans hx)
  have hlen : (L1.nodes h).length = L1.size := hr1.2.2.symm
  obtain ⟨r, q1, q2, q3, _, q5, q6, q7, _, q9, q10⟩ :=
    assign_builds lay sid2 cp h L2 L1 _ _ tmp fuel hr2 hr1 hdis hs2 hroomy hpos hbase hsz htmp
      ht2 ht1 hP2 hP1 (by rw [hlen]; exact hfuel)
  have hok : r.2.2 = .ok () := q10 hcp hdiv (by rw [hlen]; exact hroom)
  obtain ⟨ps, t1, t2, t3, t4, t5⟩ := q9 hok
  obtain ⟨f1, f2, f3⟩ := facts_of_isRing r.1 r.2.1 ps t1
  obtain ⟨g1, g2, g3⟩ := facts_of_isRing r.1 L1 _ q2
  have hsize : r.2.1.size = L1.size := by
    show r.2.1.my_size = L1.size
    rw [t1.2.2, t2, hlen]
  refine ⟨r.1, r.2.1, ?_, hsize, f1, ?_, q6, q7, by rw [q7]; exact hs2, ?_, g1, g2, ?_,
    q5, t5⟩
  · rw [q1, ← hok]
  · intro f hf
    rw [f3 f hf, t3 hcp, hxeq]
  · rw [f2]
    exact t4
  · intro f hf
    rw [g3 f hf, q3, hxeq]

/-- Witness of `copy_assignment_keeps_allocator`: the list 1, 2 on the arena 8 is assigned
the list 10, 20, 30 of the arena 7, the local copy placed at 500. -/
theorem copy_assignment_keeps_allocator_witness :
    ∃ h1 L2a, exDst.2.1.assign exLayout (fun _ v => some v) exNone2.1 exSrc.2.1 500 3
        = some (h1, L2a, .ok ()) ∧
      L2a.size = exSrc.2.1.size ∧ WellFormed h1 L2a ∧
      (∀ f, L2a.size ≤ f → L2a.forward h1 f = some [10, 20, 30]) ∧
      L2a.my_end = exDst.2.1.my_end ∧ L2a.my_allocator = exDst.2.1.my_allocator ∧
      L2a.my_allocator.my_storage = some 8 ∧
      (∀ p ∈ L2a.nodes h1, (exNone2.1.storage 8).base ≤ p ∧
        p + exLayout.sizeof_Node ≤ (exNone2.1.storage 8).base + (exNone2.1.storage 8).N) ∧
      WellFormed h1 exSrc.2.1 ∧ exSrc.2.1.nodes h1 = exSrc.2.1.nodes exNone2.1 ∧
      (∀ f, exSrc.2.1.size ≤ f → exSrc.2.1.forward h1 f = some [10, 20, 30]) ∧
      (∀ sid1, sid1 ≠ 8 → h1.storage sid1 = exNone2.1.storage sid1) ∧
      h1.destroyed = exDst.2.1.nodes exNone2.1 ++ exNone2.1.destroyed :=
  copy_assignment_keeps_allocator exLayout (fun _ v => some v) exNone2.1 exSrc.2.1 exDst.2.1
    8 500 3 [10, 20, 30] (by decide) (by decide) (by decide) (by decide) rfl
    (by decide) (by decide) (by decide) (by decide) (by decide) (by decide) (by decide)
    (by decide) (by decide) (by decide) (by decide) (fun _ _ => rfl) (by decide)

end StackList
